import Mathlib

/-!
Verification of the COMPOSE `cedr::qlt` tree-reduction engine against its
natural-language specification.

The definitions below are a shallow embedding of the C++ sources
`src/cedr/cedr_qlt.cpp` and `src/cedr/cedr_bfb_tree_allreduce.cpp`:

* machine `Int` values are embedded as Lean `Int`, bit masks as `Nat`;
* `Real` (`double`) buffer contents are embedded as `ℚ` (the claims under
  study are about which algebraic combination of inputs is stored, not about
  floating-point rounding);
* the pointer-based `NodeSets` graph is embedded as an arena
  (`List NSNode` indexed by position), with parent / kid pointers as indices,
  exactly mirroring the mutations performed by the source;
* `std::stable_sort` over `(rank, Node*)` pairs is embedded as a stable
  insertion sort on the rank key.  (In the source the tie-break on the
  pointer component follows node-allocation order, which coincides with
  insertion order of the lists being sorted.)
* fallible code (`cedr_throw_if`, `std::map::at`-style lookups) is embedded
  with `Except`.

Constants that live in `cedr_qlt.hpp` / `cedr.hpp` (not part of the provided
sources) are modelled from the specification; each such definition says so in
its doc comment.
-/

namespace CedrQlt

deriving instance DecidableEq for Except

/-! ### Problem types (MetaData)

Modelled from the spec: the bit flags of `ProblemType` are declared in the
header `cedr.hpp`, which is not among the provided sources.  The spec fixes
`shapepreserve = 1`, `conserve = 2`, `consistent = 4`. -/

/-- Modelled from the spec: bit flag `ProblemType::shapepreserve` (value 1). -/
def PTshapepreserve : Nat := 1

/-- Modelled from the spec: bit flag `ProblemType::conserve` (value 2). -/
def PTconserve : Nat := 2

/-- Modelled from the spec: bit flag `ProblemType::consistent` (value 4). -/
def PTconsistent : Nat := 4

/-- Modelled from the spec: the mask combination `CPT::s`. -/
def CPTs : Nat := PTshapepreserve

/-- Modelled from the spec: the mask combination `CPT::st`. -/
def CPTst : Nat := PTshapepreserve ||| PTconsistent

/-- Modelled from the spec: the mask combination `CPT::cs`. -/
def CPTcs : Nat := PTconserve ||| PTshapepreserve

/-- Modelled from the spec: the mask combination `CPT::cst`. -/
def CPTcst : Nat := PTconserve ||| PTshapepreserve ||| PTconsistent

/-- Modelled from the spec: the mask combination `CPT::t`. -/
def CPTt : Nat := PTconsistent

/-- Modelled from the spec: the mask combination `CPT::ct`. -/
def CPTct : Nat := PTconserve ||| PTconsistent

/-- Modelled from the spec: the constexpr array `MetaData::problem_type_` of
the four canonical problem types, in index order `st, cst, t, ct` (the
header holding it is not among the provided sources; the order is pinned
down by `get_problem_type_idx` in `cedr_qlt.cpp` together with the test
assertion `get_problem_type(i) == declared | consistent`). -/
def problemTypeArr : List Nat := [CPTst, CPTcst, CPTt, CPTct]

/-- Number of canonical problem types (`MetaData::nprobtypes`). -/
def nprobtypes : Nat := 4

/-- Embedding of `QLT::MetaData::get_problem_type` (cedr_qlt.cpp:507-510). -/
def get_problem_type (idx : Nat) : Nat := problemTypeArr.getD idx 0

/-- Embedding of `QLT::MetaData::get_problem_type_idx` (cedr_qlt.cpp:513-522):
the switch over recognized masks; any other mask throws. -/
def get_problem_type_idx (mask : Nat) : Except Unit Nat :=
  if mask = CPTs ∨ mask = CPTst then .ok 0
  else if mask = CPTcs ∨ mask = CPTcst then .ok 1
  else if mask = CPTt then .ok 2
  else if mask = CPTct then .ok 3
  else .error ()

/-- Embedding of `QLT::MetaData::get_problem_type_l2r_bulk_size`
(cedr_qlt.cpp:524-528). -/
def get_problem_type_l2r_bulk_size (mask : Nat) : Nat :=
  if mask &&& PTconserve ≠ 0 then 4 else 3

/-- Embedding of `QLT::MetaData::get_problem_type_r2l_bulk_size`
(cedr_qlt.cpp:530-534). -/
def get_problem_type_r2l_bulk_size (mask : Nat) : Nat :=
  if mask &&& PTshapepreserve ≠ 0 then 1 else 3

/-- Embedding of `QLT::declare_tracer` (cedr_qlt.cpp:660-668).  The state is
the `mdb_` pointer: `some trcr2prob` before `end_tracer_declarations`, `none`
after.  On success the canonicalized problem type is appended. -/
def declare_tracer (mdb : Option (List Nat)) (problem_type : Nat) :
    Except Unit (Option (List Nat)) :=
  match mdb with
  | none => .error ()
  | some l => do
      let idx ← get_problem_type_idx problem_type
      .ok (some (l ++ [get_problem_type idx]))

/-- The set of masks accepted by `get_problem_type_idx`, as the claim lists
them: `{s, st, cs, cst, t, ct}`. -/
def acceptedMask (m : Nat) : Prop :=
  m = CPTs ∨ m = CPTst ∨ m = CPTcs ∨ m = CPTcst ∨ m = CPTt ∨ m = CPTct

instance (m : Nat) : Decidable (acceptedMask m) := by
  unfold acceptedMask; infer_instance

/-! ### Trees

The user-facing reduction tree (`cedr::tree::Node`).  Interior nodes always
have exactly two children (`nkids ∈ {0,2}` is a documented precondition);
rank and interior cellidx are assigned during `init_tree`, so the plain input
tree carries rank and cellidx only on leaves. -/

/-- Input reduction tree: leaves carry a rank and a cell index. -/
inductive Tree where
  | leaf (rank : Int) (cellidx : Int)
  | node (k0 k1 : Tree)
deriving DecidableEq

/-- Tree after `init_tree`: every node carries its rank and cellidx. -/
inductive ITree where
  | leaf (rank : Int) (cellidx : Int)
  | node (rank : Int) (cellidx : Int) (k0 k1 : ITree)
deriving DecidableEq

/-- Rank of the root of an annotated tree. -/
def ITree.rank : ITree → Int
  | .leaf r _ => r
  | .node r _ _ _ => r

/-- Cell index of the root of an annotated tree. -/
def ITree.cid : ITree → Int
  | .leaf _ c => c
  | .node _ c _ _ => c

/-- Height of an annotated tree (leaves have height 0); this is the `level`
value computed by `level_schedule_and_collect`. -/
def ITree.height : ITree → Nat
  | .leaf _ _ => 0
  | .node _ _ k0 k1 => max k0.height k1.height + 1

/-- Number of interior nodes of an input tree. -/
def Tree.ninterior : Tree → Nat
  | .leaf _ _ => 0
  | .node k0 k1 => k0.ninterior + k1.ninterior + 1

/-- Leaves of an input tree in depth-first order, as (rank, cellidx) pairs. -/
def Tree.leafData : Tree → List (Int × Int)
  | .leaf r c => [(r, c)]
  | .node k0 k1 => k0.leafData ++ k1.leafData

/-- Embedding of `impl::init_tree` (cedr_qlt.cpp:180-196).  Walks the tree,
checking each leaf cellidx against the running counter `id` (seeded with
`ncells` by `analyze`), assigning interior ranks (`kids[0].rank`) and
interior cellidx values from the counter.  Returns the annotated tree, the
final counter and the depth. -/
def initTree : Tree → Int → Except Unit (ITree × Int × Nat)
  | .leaf rank cellidx, id =>
      if cellidx < 0 ∨ id ≤ cellidx then .error ()
      else .ok (.leaf rank cellidx, id, 1)
  | .node k0 k1, id => do
      let (i0, id0, d0) ← initTree k0 id
      let (i1, id1, d1) ← initTree k1 id0
      .ok (.node i0.rank id1 i0 i1, id1 + 1, max d0 d1 + 1)

/-! ### NodeSets -/

/-- Embedding of `impl::NodeSets::Node` (cedr_qlt.cpp:84-102).  The pointer
graph is an arena: `parent` and `kids` are indices into `NS.nodes`. -/
structure NSNode where
  rank : Int := -1
  id : Int := -1
  parent : Option Nat := none
  kids : List Nat := []
  offset : Int := -1
deriving DecidableEq

instance : Inhabited NSNode := ⟨{}⟩

/-- Embedding of `impl::NodeSets::Level::MPIMetaData` (cedr_qlt.cpp:118-122). -/
structure MMD where
  rank : Int
  offset : Int
  size : Nat
deriving DecidableEq

/-- Embedding of `impl::NodeSets::Level` (cedr_qlt.cpp:117-130); the request
arrays carry no data and are omitted. -/
structure Level where
  nodes : List Nat := []
  me : List MMD := []
  kids : List MMD := []
deriving DecidableEq

instance : Inhabited Level := ⟨{}⟩

/-- Embedding of `impl::NodeSets` (cedr_qlt.cpp:78-149). -/
structure NS where
  nodes : List NSNode := []
  levels : List Level := []
  nslots : Nat := 0
deriving DecidableEq

instance : Inhabited NS := ⟨{}⟩

/-- Arena lookup (dereference of a `NodeSets::Node*`). -/
def nodeAt (ns : NS) (j : Nat) : NSNode := ns.nodes.getD j default

/-- Embedding of `NodeSets::alloc` (cedr_qlt.cpp:140-143): appends a fresh
node to the arena and returns its index. -/
def NS.alloc (ns : NS) (rank id : Int) : NS × Nat :=
  ({ ns with nodes := ns.nodes ++ [{ rank := rank, id := id }] }, ns.nodes.length)

/-- Write the parent pointer of arena node `j`. -/
def NS.setParent (ns : NS) (j : Nat) (p : Nat) : NS :=
  { ns with nodes := ns.nodes.set j { ns.nodes.getD j default with parent := some p } }

/-- Write the kids array of arena node `j`. -/
def NS.setKids (ns : NS) (j : Nat) (ks : List Nat) : NS :=
  { ns with nodes := ns.nodes.set j { ns.nodes.getD j default with kids := ks } }

/-- Append node `j` to `levels[lvl].nodes` (the `push_back` in
`level_schedule_and_collect`). -/
def NS.pushLevelNode (ns : NS) (lvl : Nat) (j : Nat) : NS :=
  let old := ns.levels.getD lvl default
  { ns with levels := ns.levels.set lvl { old with nodes := old.nodes ++ [j] } }

/-- Embedding of one kid slot of the owned branch of
`level_schedule_and_collect` (cedr_qlt.cpp:226-249): if the kid has no
NodeSets node yet, allocate a peer record for it (rank and id from the kid
tree node, no kids, no parent); otherwise link the existing node and set its
parent pointer to `j`. -/
def lscKid (_my : Int) (kid : ITree) (r : Option Nat) (ns : NS) (j : Nat) :
    NS × Nat :=
  match r with
  | none => ns.alloc kid.rank kid.cid
  | some i => (ns.setParent i j, i)

/-- Embedding of `impl::level_schedule_and_collect` (cedr_qlt.cpp:198-263).
Returns the updated NodeSets, the node level, the index of the NodeSets node
materialized for this tree node (the `reserved` memo), and whether the tree
node is owned by `my` (the `need_parent_ns_node` flag). -/
def lsc (my : Int) : ITree → NS → NS × Nat × Option Nat × Bool
  | .leaf rank cellidx, ns =>
      if rank = my then
        let (ns, j) := ns.alloc rank cellidx
        (ns.pushLevelNode 0 j, 0, some j, true)
      else
        (ns, 0, none, false)
  | .node rank cellidx k0 k1, ns =>
      let (ns, l0, r0, o0) := lsc my k0 ns
      let (ns, l1, r1, o1) := lsc my k1 ns
      let lvl := max l0 l1 + 1
      if rank = my then
        let (ns, j) := ns.alloc rank cellidx
        let ns := ns.pushLevelNode lvl j
        let (ns, i0) := lscKid my k0 r0 ns j
        let (ns, i1) := lscKid my k1 r1 ns j
        (ns.setKids j [i0, i1], lvl, some j, true)
      else if o0 || o1 then
        let (ns, j) := ns.alloc rank cellidx
        let ks0 : List Nat := match r0 with
          | some i => if k0.rank = my then [i] else []
          | none => []
        let ks1 : List Nat := match r1 with
          | some i => if k1.rank = my then [i] else []
          | none => []
        let ns := (ks0 ++ ks1).foldl (fun ns i => ns.setParent i j) ns
        (ns.setKids j (ks0 ++ ks1), lvl, some j, false)
      else
        (ns, lvl, none, false)

/-- Embedding of `impl::consolidate` (cedr_qlt.cpp:272-278): drop empty
levels. -/
def consolidate (ns : NS) : NS :=
  { ns with levels := ns.levels.filter (fun lvl => ¬ lvl.nodes.isEmpty) }

/-! ### Offsets and communication metadata -/

/-- Stable insertion of a (rank, node) pair into a list sorted by rank:
the new element goes before the first strictly larger rank, and after equal
ranks already present.  Together with `sortRN` this embeds the
`std::stable_sort` call in `init_offsets` (cedr_qlt.cpp:291). -/
def insertRN (x : Int × Nat) : List (Int × Nat) → List (Int × Nat)
  | [] => [x]
  | y :: ys => if x.1 ≤ y.1 then x :: y :: ys else y :: insertRN x ys

/-- Stable sort of (rank, node) pairs by rank; see `insertRN`. -/
def sortRN : List (Int × Nat) → List (Int × Nat)
  | [] => []
  | x :: xs => insertRN x (sortRN xs)

/-- Write the offset of arena slot `j` (in a bare node list). -/
def setOffset (nodes : List NSNode) (j : Nat) (v : Int) : List NSNode :=
  nodes.set j { nodes.getD j default with offset := v }

/-- Fold state of the loop in `init_offsets` (cedr_qlt.cpp:294-313). -/
structure IOState where
  nodes : List NSNode
  cnt : Nat
  mmds : List MMD
  prev : Int
deriving DecidableEq

/-- Increment the size of the last MPIMetaData record
(`++mmds.back().size`). -/
def bumpLastSize (mmds : List MMD) : List MMD :=
  match mmds.getLast? with
  | none => mmds
  | some m => mmds.dropLast ++ [{ m with size := m.size + 1 }]

/-- One iteration of the loop in `init_offsets` (cedr_qlt.cpp:295-313): a
local (rank −1) entry is assigned the next offset only if it has none yet; a
remote entry opens a new MPIMetaData group when its rank differs from the
previous one, grows the current group, and is assigned the next offset
unconditionally. -/
def ioStep (s : IOState) (rn : Int × Nat) : IOState :=
  if rn.1 = -1 then
    if (s.nodes.getD rn.2 default).offset = -1 then
      { s with nodes := setOffset s.nodes rn.2 (Int.ofNat s.cnt),
               cnt := s.cnt + 1 }
    else s
  else
    let s :=
      if rn.1 ≠ s.prev then
        { s with
          mmds := s.mmds ++ [{ rank := rn.1, offset := Int.ofNat s.cnt, size := 0 }],
          prev := rn.1 }
      else s
    { s with mmds := bumpLastSize s.mmds,
             nodes := setOffset s.nodes rn.2 (Int.ofNat s.cnt),
             cnt := s.cnt + 1 }

/-- Embedding of `impl::init_offsets` (cedr_qlt.cpp:282-314): remap the local
rank to −1, stable-sort by rank, then walk the sorted list assigning offsets
and building the coalesced per-peer MPIMetaData list. -/
def initOffsets (my : Int) (rns : List (Int × Nat)) (nodes : List NSNode)
    (cnt : Nat) : List NSNode × Nat × List MMD :=
  let rns := rns.map (fun rn => (if rn.1 = my then -1 else rn.1, rn.2))
  let st := (sortRN rns).foldl ioStep
    { nodes := nodes, cnt := cnt, mmds := [], prev := -1 }
  (st.nodes, st.cnt, st.mmds)

/-- The `me` list built by `init_comm` for one level (cedr_qlt.cpp:327-331):
each owned node paired with its parent rank, or the local rank if it has no
parent. -/
def mkMeRns (nodes : List NSNode) (my : Int) (lvlNodes : List Nat) :
    List (Int × Nat) :=
  lvlNodes.map (fun j =>
    (match (nodes.getD j default).parent with
     | some p => (nodes.getD p default).rank
     | none => my, j))

/-- The `kids` list built by `init_comm` for one level (cedr_qlt.cpp:332-336):
each kid of each owned node paired with the kid rank. -/
def mkKidsRns (nodes : List NSNode) (lvlNodes : List Nat) :
    List (Int × Nat) :=
  (lvlNodes.map (fun j =>
    (nodes.getD j default).kids.map
      (fun k => ((nodes.getD k default).rank, k)))).flatten

/-- Embedding of `impl::init_comm` (cedr_qlt.cpp:319-344): per level, build
the `me` and `kids` pair lists, then run `init_offsets` on each, threading
the slot counter `nslots` through all levels. -/
def initComm (my : Int) (ns : NS) : NS :=
  let st := ns.levels.foldl
    (fun (st : List NSNode × Nat × List Level) lvl =>
      let (nodes, cnt, acc) := st
      let meRns := mkMeRns nodes my lvl.nodes
      let kidRns := mkKidsRns nodes lvl.nodes
      let (nodes, cnt, meMmds) := initOffsets my meRns nodes cnt
      let (nodes, cnt, kidMmds) := initOffsets my kidRns nodes cnt
      (nodes, cnt, acc ++ [{ lvl with me := meMmds, kids := kidMmds }]))
    (ns.nodes, 0, [])
  { nodes := st.1, levels := st.2.2, nslots := st.2.1 }

/-- Embedding of `impl::analyze` (cedr_qlt.cpp:354-365). -/
def analyze (my : Int) (ncells : Int) (t : Tree) : Except Unit NS := do
  let (it, _, depth) ← initTree t ncells
  let ns : NS := { nodes := [], levels := List.replicate depth {}, nslots := 0 }
  let (ns, _, _, _) := lsc my it ns
  let ns := consolidate ns
  pure (initComm my ns)

/-- The offsets counted by `impl::check_comm` (cedr_qlt.cpp:368-382), in
traversal order: for every owned node its own offset followed by the offsets
of its kids on other ranks. -/
def checkCommOffsets (ns : NS) : List Int :=
  (ns.levels.map (fun lvl =>
    (lvl.nodes.map (fun j =>
      let n := nodeAt ns j
      n.offset ::
        ((n.kids.filter (fun k => (nodeAt ns k).rank ≠ n.rank)).map
          (fun k => (nodeAt ns k).offset)))).flatten)).flatten

/-! ### Leaf-level accessors (QLT ordinals) -/

/-- Embedding of `QLT::nlclcells` (cedr_qlt.cpp:627-628). -/
def nlclcells (ns : NS) : Nat := (ns.levels.headD default).nodes.length

/-- Embedding of `QLT::get_owned_glblcells` (cedr_qlt.cpp:634-639):
`gcis[n.offset] = n.id` over the leaf level. -/
def get_owned_glblcells (ns : NS) : List Int :=
  (ns.levels.headD default).nodes.foldl
    (fun gcis j => gcis.set (nodeAt ns j).offset.toNat (nodeAt ns j).id)
    (List.replicate (nlclcells ns) 0)

/-- Embedding of `QLT::init_ordinals` (cedr_qlt.cpp:610-614): the
`gci2lci_` map, as a lookup function built by successive insertion (later
insertions shadow earlier ones, matching `std::map` assignment). -/
def gci2lciMap (ns : NS) : Int → Option Int :=
  (ns.levels.headD default).nodes.foldl
    (fun m j => fun g =>
      if g = (nodeAt ns j).id then some (nodeAt ns j).offset else m g)
    (fun _ => none)

/-- Embedding of `QLT::gci2lci` (cedr_qlt.cpp:644-655): map lookup, throwing
when the global cell id is not owned by this rank. -/
def gci2lci (ns : NS) (gci : Int) : Except Unit Int :=
  match gci2lciMap ns gci with
  | some v => .ok v
  | none => .error ()

/-! ### MetaData prefix tables -/

/-- Fold state of the loops in `MetaData::init` (cedr_qlt.cpp:537-565). -/
structure MDState where
  ptr : List Nat
  bl2r : List Nat
  br2l : List Nat
  bidx2trcr : List Nat
  t2bl2r : List Nat
  t2br2l : List Nat
deriving DecidableEq

/-- One iteration of the inner tracer loop of `MetaData::init`
(cedr_qlt.cpp:554-561): tracers whose problem type matches
`problem_type_[pi]` are appended to the current block. -/
def mdInnerStep (t2p : List Nat) (pi : Nat) (s : MDState) (ti : Nat) : MDState :=
  if t2p.getD ti 0 = get_problem_type pi then
    let tcnt := s.ptr.getD (pi+1) 0 - s.ptr.getD pi 0
    let l2rsz := get_problem_type_l2r_bulk_size (get_problem_type pi)
    let r2lsz := get_problem_type_r2l_bulk_size (get_problem_type pi)
    { s with
      t2bl2r := s.t2bl2r.set ti (s.bl2r.getD pi 0 + tcnt * l2rsz),
      t2br2l := s.t2br2l.set ti (s.br2l.getD pi 0 + tcnt * r2lsz),
      bidx2trcr := s.bidx2trcr.set (s.ptr.getD (pi+1) 0) ti,
      ptr := s.ptr.set (pi+1) (s.ptr.getD (pi+1) 0 + 1) }
  else s

/-- One iteration of the outer problem-type loop of `MetaData::init`
(cedr_qlt.cpp:550-565). -/
def mdOuterStep (t2p : List Nat) (s : MDState) (pi : Nat) : MDState :=
  let s := { s with ptr := s.ptr.set (pi+1) (s.ptr.getD pi 0) }
  let s := (List.range t2p.length).foldl (mdInnerStep t2p pi) s
  let ni := s.ptr.getD (pi+1) 0 - s.ptr.getD pi 0
  let l2rsz := get_problem_type_l2r_bulk_size (get_problem_type pi)
  let r2lsz := get_problem_type_r2l_bulk_size (get_problem_type pi)
  { s with bl2r := s.bl2r.set (pi+1) (s.bl2r.getD pi 0 + ni * l2rsz),
           br2l := s.br2l.set (pi+1) (s.br2l.getD pi 0 + ni * r2lsz) }

/-- Embedding of `QLT::MetaData` after `init` (cedr_qlt.cpp:537-589): the
prefix tables (the redundant inverse `trcr2bidx` is omitted). -/
structure MetaData where
  trcr2prob : List Nat
  bidx2trcr : List Nat
  trcr2bl2r : List Nat
  trcr2br2l : List Nat
  prob2trcrptr : List Nat
  prob2bl2r : List Nat
  prob2br2l : List Nat
deriving DecidableEq

/-- Embedding of `MetaData::init` (cedr_qlt.cpp:537-589) from the declared
tracer-to-problem list: `prob2trcrptr[0] = 0`, `prob2bl2r[0] = 1` (slot 0 is
the total density), `prob2br2l[0] = 0`; then the two-pass table fill. -/
def mdInit (t2p : List Nat) : MetaData :=
  let nt := t2p.length
  let s0 : MDState := {
    ptr := List.replicate (nprobtypes+1) 0,
    bl2r := 1 :: List.replicate nprobtypes 0,
    br2l := List.replicate (nprobtypes+1) 0,
    bidx2trcr := List.replicate nt 0,
    t2bl2r := List.replicate nt 0,
    t2br2l := List.replicate nt 0 }
  let s := (List.range nprobtypes).foldl (mdOuterStep t2p) s0
  { trcr2prob := t2p, bidx2trcr := s.bidx2trcr, trcr2bl2r := s.t2bl2r,
    trcr2br2l := s.t2br2l, prob2trcrptr := s.ptr, prob2bl2r := s.bl2r,
    prob2br2l := s.br2l }

/-- The L2R per-slot width `l2rndps = prob2bl2r[nprobtypes]`
(cedr_qlt.cpp:694). -/
def l2rndps (md : MetaData) : Nat := md.prob2bl2r.getD nprobtypes 0

/-- The R2L per-slot width `r2lndps = prob2br2l[nprobtypes]`
(cedr_qlt.cpp:695). -/
def r2lndps (md : MetaData) : Nat := md.prob2br2l.getD nprobtypes 0

/-! ### The L2R combine and the root fix-up of `QLT::run` -/

/-- Pointwise update of a flat real buffer (one store into `l2r_data` /
`r2l_data`). -/
def updQ (f : Int → ℚ) (i : Int) (v : ℚ) : Int → ℚ :=
  fun x => if x = i then v else f x

/-- The body of the innermost tracer loop of the L2R combine
(cedr_qlt.cpp:723-733), for the block `pb = (pti, bi)` of a node at offset
`o` with kid offsets `o0, o1`: four sequential stores into the node's own
record, each one reading the buffer state left by the previous ones, and
every combine evaluating kid 0 before kid 1. -/
def l2rBlockWrite (md : MetaData) (W o o0 o1 : Int) (pb : Nat × Nat)
    (l2r : Int → ℚ) : Int → ℚ :=
  let pt := get_problem_type pb.1
  let sumOnly := pt &&& PTshapepreserve ≠ 0
  let bsz := get_problem_type_l2r_bulk_size pt
  let bdi : Int := md.trcr2bl2r.getD (md.bidx2trcr.getD pb.2 0) 0
  let me := o * W + bdi
  let kb0 := o0 * W + bdi
  let kb1 := o1 * W + bdi
  let l2r := updQ l2r me
    (if sumOnly then l2r kb0 + l2r kb1 else min (l2r kb0) (l2r kb1))
  let l2r := updQ l2r (me+1) (l2r (kb0+1) + l2r (kb1+1))
  let l2r := updQ l2r (me+2)
    (if sumOnly then l2r (kb0+2) + l2r (kb1+2)
     else max (l2r (kb0+2)) (l2r (kb1+2)))
  if bsz = 4 then updQ l2r (me+3) (l2r (kb0+3) + l2r (kb1+3)) else l2r

/-- Embedding of the per-node combine in the L2R sweep of `QLT::run`
(cedr_qlt.cpp:711-735): nodes without kids are skipped; otherwise slot 0
gets the sum of the kids' slot 0, then the two tracer loops perform the
per-block writes in iteration order. -/
def l2rCombineNode (md : MetaData) (nodes : List NSNode) (l2r : Int → ℚ)
    (j : Nat) : Int → ℚ :=
  let n := nodes.getD j default
  match n.kids with
  | [k0, k1] =>
      let W : Int := l2rndps md
      let o := n.offset
      let o0 := (nodes.getD k0 default).offset
      let o1 := (nodes.getD k1 default).offset
      let l2r := updQ l2r (o * W) (l2r (o0 * W) + l2r (o1 * W))
      (List.range nprobtypes).foldl (fun l2r pti =>
        let bis := md.prob2trcrptr.getD pti 0
        let bie := md.prob2trcrptr.getD (pti+1) 0
        (List.range' bis (bie - bis)).foldl
          (fun l2r bi => l2rBlockWrite md W o o0 o1 (pti, bi) l2r) l2r) l2r
  | _ => l2r

/-- The combine phase of one level of the L2R sweep of `QLT::run`: the
per-node combine folded over the level's nodes in order. -/
def l2rCombineLevel (md : MetaData) (nodes : List NSNode) (lvlNodes : List Nat)
    (l2r : Int → ℚ) : Int → ℚ :=
  lvlNodes.foldl (l2rCombineNode md nodes) l2r

/-- The body of the innermost tracer loop of the root fix-up
(cedr_qlt.cpp:756-773), for block `pb = (pti, bi)` of the root node at
offset `o`: copy `l2r[bdi + (conserve ? 3 : 1)]` into `r2l[bdi]`, and for
non-shapepreserving types also copy the l2r min and max (displacements 0 and
2) into r2l displacements 1 and 2. -/
def rootBlockWrite (md : MetaData) (lW rW o : Int) (l2r : Int → ℚ)
    (pb : Nat × Nat) (r2l : Int → ℚ) : Int → ℚ :=
  let pt := get_problem_type pb.1
  let l2rbdi : Int := md.trcr2bl2r.getD (md.bidx2trcr.getD pb.2 0) 0
  let r2lbdi : Int := md.trcr2br2l.getD (md.bidx2trcr.getD pb.2 0) 0
  let os : Int := if pt &&& PTconserve ≠ 0 then 3 else 1
  let r2l := updQ r2l (o * rW + r2lbdi) (l2r (o * lW + l2rbdi + os))
  if pt &&& PTshapepreserve = 0 then
    let r2l := updQ r2l (o * rW + r2lbdi + 1) (l2r (o * lW + l2rbdi + 0))
    updQ r2l (o * rW + r2lbdi + 2) (l2r (o * lW + l2rbdi + 2))
  else r2l

/-- Embedding of the root fix-up of `QLT::run` (cedr_qlt.cpp:749-775): when
the last level holds exactly one node and it has no parent, run the tracer
loops of `rootBlockWrite` on that node; otherwise the R2L buffer is returned
untouched. -/
def rootFixup (md : MetaData) (ns : NS) (l2r r2l : Int → ℚ) : Int → ℚ :=
  if ns.levels ≠ [] ∧ (ns.levels.getLastD default).nodes.length = 1 ∧
     (nodeAt ns ((ns.levels.getLastD default).nodes.getD 0 0)).parent = none then
    let n := nodeAt ns ((ns.levels.getLastD default).nodes.getD 0 0)
    let lW : Int := l2rndps md
    let rW : Int := r2lndps md
    (List.range nprobtypes).foldl (fun r2l pti =>
      let bis := md.prob2trcrptr.getD pti 0
      let bie := md.prob2trcrptr.getD (pti+1) 0
      (List.range' bis (bie - bis)).foldl
        (fun r2l bi => rootBlockWrite md lW rW n.offset l2r (pti, bi) r2l)
        r2l) r2l
  else r2l

/-! ### BFB tree all-reducer -/

/-- Embedding of `BfbTreeAllReducer` state after `init`
(cedr_bfb_tree_allreduce.cpp:16-24). -/
structure BfbTreeAllReducer where
  nlocal : Nat
  nfield : Nat
  ns : NS
deriving DecidableEq

/-- Embedding of `BfbTreeAllReducer::allreduce`
(cedr_bfb_tree_allreduce.cpp:64-68).  The body of the source function
obtains the host pointer for `send` (`get_send_host`, which only copies
`send` to a staging buffer on GPU builds) and then returns; it performs no
reduction and never writes `recv`, so the embedding returns `recv`
unchanged. -/
def BfbTreeAllReducer.allreduce (_r : BfbTreeAllReducer) (_send : List ℚ)
    (recv : List ℚ) : List ℚ :=
  recv

/-! ### The tree-sum communication pattern (`test_comm_pattern`)

Embedding of `impl::test_comm_pattern` (cedr_qlt.cpp:408-484) as a
multi-rank execution.  Every rank runs `analyze` on the agreed tree, seeds
its leaf slots with the leaf ids, and executes the level schedule.  Messages
between a pair of ranks are matched in posting order (the MPI non-overtaking
rule for a single tag); a receive whose posted window is smaller than the
matched message is a truncation error, which MPI surfaces fatally. -/

/-- Message queues: `mq src dst` is the FIFO of in-flight messages from rank
`src` to rank `dst`. -/
def MQ : Type := Nat → Nat → List (List Int)

/-- Pop the head message of the `src → dst` queue. -/
def mqPop (q : MQ) (src dst : Nat) : Option (List Int × MQ) :=
  match q src dst with
  | [] => none
  | m :: rest => some (m, fun s d => if s = src ∧ d = dst then rest else q s d)

/-- Append a message to the tail of the `src → dst` queue. -/
def mqPush (q : MQ) (src dst : Nat) (m : List Int) : MQ :=
  fun s d => if s = src ∧ d = dst then q s d ++ [m] else q s d

/-- Contiguous window of a flat data buffer (the payload of one `isend`). -/
def windowOf (d : List Int) (off n : Nat) : List Int := (d.drop off).take n

/-- Write a received message into the posted window starting at `off`. -/
def writeMsg (d : List Int) (off : Nat) (msg : List Int) : List Int :=
  (List.range msg.length).foldl (fun d i => d.set (off + i) (msg.getD i 0)) d

/-- Per-rank state of the pattern: the analyzed NodeSets, the flat data
buffer (`std::vector<Int> data(ns->nslots)`), and the next level to run. -/
structure RankState where
  ns : NS
  data : List Int
  lvlIdx : Nat
deriving DecidableEq

/-- Leaf seeding of `test_comm_pattern` (cedr_qlt.cpp:413-415):
`data[n.offset] = n.id` over the leaf level, on a zero-initialized buffer. -/
def initLeafData (ns : NS) : List Int :=
  (ns.levels.headD default).nodes.foldl
    (fun d j => d.set (nodeAt ns j).offset.toNat (nodeAt ns j).id)
    (List.replicate ns.nslots 0)

/-- Post and complete the receives of one level (cedr_qlt.cpp:419-426):
windows are matched against the per-source FIFOs in posting order.  Returns
`none` when some message has not arrived yet (the rank stays blocked in
`waitall`), and a truncation error when a message is longer than its posted
window. -/
def recvAll (me : Nat) (mmds : List MMD) (data : List Int) (q : MQ) :
    Except Unit (Option (List Int × MQ)) :=
  match mmds with
  | [] => .ok (some (data, q))
  | mmd :: rest =>
      match mqPop q mmd.rank.toNat me with
      | none => .ok none
      | some (msg, q) =>
          if mmd.size < msg.length then .error ()
          else recvAll me rest (writeMsg data mmd.offset.toNat msg) q

/-- The combine of one level of the up sweep (cedr_qlt.cpp:427-433):
`data[n.offset] = 0` then `+=` each kid slot, in kid order. -/
def sumCombineLevel (ns : NS) (lvlNodes : List Nat) (data : List Int) :
    List Int :=
  lvlNodes.foldl (fun d j =>
    let n := nodeAt ns j
    if n.kids.isEmpty then d
    else
      let d := d.set n.offset.toNat 0
      n.kids.foldl (fun d k =>
        d.set n.offset.toNat
          (d.getD n.offset.toNat 0 + d.getD (nodeAt ns k).offset.toNat 0)) d)
    data

/-- Post the sends of one level (cedr_qlt.cpp:434-439): one message per
MPIMetaData window. -/
def sendAll (me : Nat) (mmds : List MMD) (data : List Int) (q : MQ) : MQ :=
  mmds.foldl (fun q mmd =>
    mqPush q me mmd.rank.toNat (windowOf data mmd.offset.toNat mmd.size)) q

/-- Attempt one level of the up sweep on one rank: receive into the kid
windows, combine, send the me windows.  A blocked rank is left unchanged. -/
def stepRank (me : Nat) (rs : RankState) (q : MQ) :
    Except Unit (RankState × MQ) :=
  if rs.lvlIdx < rs.ns.levels.length then
    let lvl := rs.ns.levels.getD rs.lvlIdx default
    match recvAll me lvl.kids rs.data q with
    | .error e => .error e
    | .ok none => .ok (rs, q)
    | .ok (some (data, q)) =>
        let data := sumCombineLevel rs.ns lvl.nodes data
        let q := sendAll me lvl.me data q
        .ok ({ rs with data := data, lvlIdx := rs.lvlIdx + 1 }, q)
  else .ok (rs, q)

/-- Whole-system state of the pattern. -/
structure World where
  ranks : List RankState
  queues : MQ

/-- One round of the cooperative schedule: every rank attempts its next
level once, in rank order. -/
def stepWorld (w : World) : Except Unit World :=
  (List.range w.ranks.length).foldlM
    (fun (w : World) r => do
      let (rs, q) ← stepRank r (w.ranks.getD r ⟨default, [], 0⟩) w.queues
      pure { ranks := w.ranks.set r rs, queues := q })
    w

/-- Initial state: every rank analyzes the same agreed tree and seeds its
leaf slots. -/
def mkWorld (nranks : Nat) (ncells : Int) (t : Tree) : World :=
  { ranks := (List.range nranks).map (fun r =>
      let ns := ((analyze (Int.ofNat r) ncells t).toOption).getD default
      { ns := ns, data := initLeafData ns, lvlIdx := 0 }),
    queues := fun _ _ => [] }

/-- Run `fuel` rounds of the up sweep of the tree-sum pattern. -/
def runUpSweep (fuel : Nat) (w : World) : Except Unit World :=
  (List.range fuel).foldlM (fun w _ => stepWorld w) w

/-! ### Auxiliary views used by the theorems -/

/-- Leaves of an annotated tree in depth-first order. -/
def ITree.leafData : ITree → List (Int × Int)
  | .leaf r c => [(r, c)]
  | .node _ _ k0 k1 => k0.leafData ++ k1.leafData

/-- Cell indices of the leaves owned by rank `my`, in depth-first order. -/
def ownedLeafIds (my : Int) (t : ITree) : List Int :=
  (t.leafData.filter (fun p => p.1 = my)).map (fun p => p.2)

/-- Interior ranks agree with the first kid (established by `init_tree`). -/
def ITree.wellRanked : ITree → Prop
  | .leaf _ _ => True
  | .node r _ k0 k1 => r = k0.rank ∧ k0.wellRanked ∧ k1.wellRanked

/-- All owned nodes of a NodeSets, in level order (the nodes traversed by
`check_comm`). -/
def levelNodes (ns : NS) : List Nat := (ns.levels.map Level.nodes).flatten

/-- All kid slots referenced by owned nodes, in traversal order. -/
def ownedKidsOf (ns : NS) : List Nat :=
  (levelNodes ns).flatMap (fun j => (nodeAt ns j).kids)

/-- The displacement of tracer block `bi` inside an L2R record:
`trcr2bl2r[bidx2trcr[bi]]`. -/
def bl2rOf (md : MetaData) (bi : Nat) : Nat :=
  md.trcr2bl2r.getD (md.bidx2trcr.getD bi 0) 0

/-- The displacement of tracer block `bi` inside an R2L record:
`trcr2br2l[bidx2trcr[bi]]`. -/
def br2lOf (md : MetaData) (bi : Nat) : Nat :=
  md.trcr2br2l.getD (md.bidx2trcr.getD bi 0) 0

/-- The (problem type, block index) pairs visited by the tracer loops of
`QLT::run`, in iteration order. -/
def blockList (md : MetaData) : List (Nat × Nat) :=
  (List.range nprobtypes).flatMap (fun pti =>
    (List.range' (md.prob2trcrptr.getD pti 0)
      (md.prob2trcrptr.getD (pti+1) 0 - md.prob2trcrptr.getD pti 0)).map
      (fun bi => (pti, bi)))

/-- Well-formedness of the L2R block layout of a MetaData: every tracer
block interval `[bl2r bdi, bdi + bulk size)` lies inside `[1, l2rndps)` and
distinct blocks are disjoint.  (These hold for every `mdInit` output; the
combine theorems take them as hypotheses and the witnesses discharge them by
evaluation.) -/
def l2rLayoutOk (md : MetaData) : Prop :=
  1 ≤ l2rndps md ∧
  (∀ pb ∈ blockList md,
    1 ≤ bl2rOf md pb.2 ∧
    bl2rOf md pb.2 + get_problem_type_l2r_bulk_size (get_problem_type pb.1) ≤
      l2rndps md) ∧
  (blockList md).Pairwise (fun pb pb' =>
    bl2rOf md pb.2 + get_problem_type_l2r_bulk_size (get_problem_type pb.1) ≤
      bl2rOf md pb'.2 ∨
    bl2rOf md pb'.2 + get_problem_type_l2r_bulk_size (get_problem_type pb'.1) ≤
      bl2rOf md pb.2)

/-- Well-formedness of the R2L block layout: blocks lie inside the record and
are pairwise disjoint. -/
def r2lLayoutOk (md : MetaData) : Prop :=
  (∀ pb ∈ blockList md,
    br2lOf md pb.2 + get_problem_type_r2l_bulk_size (get_problem_type pb.1) ≤
      r2lndps md) ∧
  (blockList md).Pairwise (fun pb pb' =>
    br2lOf md pb.2 + get_problem_type_r2l_bulk_size (get_problem_type pb.1) ≤
      br2lOf md pb'.2 ∨
    br2lOf md pb'.2 + get_problem_type_r2l_bulk_size (get_problem_type pb'.1) ≤
      br2lOf md pb.2)

/-- Membership in the record of the slot at offset `o` in a buffer of
per-slot width `W`. -/
def inRec (o W x : Int) : Prop := o * W ≤ x ∧ x < o * W + W

/-- Membership in the L2R slots written for block `pb` of the node at offset
`o`. -/
def ivL2r (md : MetaData) (W o : Int) (pb : Nat × Nat) (x : Int) : Prop :=
  o * W + bl2rOf md pb.2 ≤ x ∧
  x < o * W + bl2rOf md pb.2 +
    get_problem_type_l2r_bulk_size (get_problem_type pb.1)

/-- Membership in the R2L slots written for block `pb` of the node at offset
`o`. -/
def ivR2l (md : MetaData) (rW o : Int) (pb : Nat × Nat) (x : Int) : Prop :=
  o * rW + br2lOf md pb.2 ≤ x ∧
  x < o * rW + br2lOf md pb.2 +
    get_problem_type_r2l_bulk_size (get_problem_type pb.1)

/-- What the claim states the L2R combine stores for one tracer block: `F`
is the buffer after the combine, `r` the buffer the stored values are read
from. -/
def combinedBlock (md : MetaData) (W o o0 o1 : Int) (r F : Int → ℚ)
    (pb : Nat × Nat) : Prop :=
  let pt := get_problem_type pb.1
  let sumOnly := pt &&& PTshapepreserve ≠ 0
  let bdi : Int := bl2rOf md pb.2
  F (o * W + bdi) =
    (if sumOnly then r (o0 * W + bdi) + r (o1 * W + bdi)
     else min (r (o0 * W + bdi)) (r (o1 * W + bdi))) ∧
  F (o * W + bdi + 1) = r (o0 * W + bdi + 1) + r (o1 * W + bdi + 1) ∧
  F (o * W + bdi + 2) =
    (if sumOnly then r (o0 * W + bdi + 2) + r (o1 * W + bdi + 2)
     else max (r (o0 * W + bdi + 2)) (r (o1 * W + bdi + 2))) ∧
  (get_problem_type_l2r_bulk_size pt = 4 →
    F (o * W + bdi + 3) = r (o0 * W + bdi + 3) + r (o1 * W + bdi + 3))

/-- What the claim states the root fix-up stores for one tracer block of the
root node at offset `o`. -/
def rootBlock (md : MetaData) (lW rW o : Int) (l2r F : Int → ℚ)
    (pb : Nat × Nat) : Prop :=
  let pt := get_problem_type pb.1
  let l2rbdi : Int := bl2rOf md pb.2
  let r2lbdi : Int := br2lOf md pb.2
  F (o * rW + r2lbdi) =
    l2r (o * lW + l2rbdi + (if pt &&& PTconserve ≠ 0 then 3 else 1)) ∧
  (pt &&& PTshapepreserve = 0 →
    F (o * rW + r2lbdi + 1) = l2r (o * lW + l2rbdi + 0) ∧
    F (o * rW + r2lbdi + 2) = l2r (o * lW + l2rbdi + 2))

/-- The root fix-up condition of `QLT::run` (cedr_qlt.cpp:750-751): the last
level holds exactly one node and it has no parent. -/
def rootCond (ns : NS) : Prop :=
  ns.levels ≠ [] ∧ (ns.levels.getLastD default).nodes.length = 1 ∧
  (nodeAt ns ((ns.levels.getLastD default).nodes.getD 0 0)).parent = none

instance (md : MetaData) : Decidable (l2rLayoutOk md) := by
  unfold l2rLayoutOk; infer_instance

instance (md : MetaData) : Decidable (r2lLayoutOk md) := by
  unfold r2lLayoutOk; infer_instance

instance (ns : NS) : Decidable (rootCond ns) := by
  unfold rootCond; infer_instance

/-! ### Concrete instances used by witnesses and counterexamples -/

/-- Tree with ncells = 3 whose last leaf has cellidx 3, outside `[0, 3)`:
since two interior nodes are numbered before that leaf is checked, the
running-counter check passes. -/
def t6ex : Tree := .node (.node (.leaf 0 0) (.leaf 0 1)) (.leaf 0 3)

/-- Tree with ncells = 4 over ranks {0, 2} whose rank-0 leaves have parents
on different ranks, so the stable sort by parent rank reorders the leaf
level offsets. -/
def t5ex : Tree :=
  .node (.node (.leaf 2 0) (.leaf 0 1)) (.node (.leaf 0 2) (.leaf 0 3))

/-- The NodeSets rank 0 computes for `t5ex`. -/
def ns5ex : NS := ((analyze 0 4 t5ex).toOption).getD default

/-- Tree with ncells = 5 over ranks {0, 1} on which the communication
pattern misroutes: rank 1 owns two leaves in its level 0 whose rank-0
parents sit at different levels of rank 0, so rank 1 sends one coalesced
size-2 message while rank 0 posts two size-1 receives. -/
def t7ex : Tree :=
  .node (.node (.leaf 0 0) (.leaf 1 1))
        (.node (.node (.leaf 0 2) (.leaf 0 3)) (.leaf 1 4))

/-- The NodeSets rank 0 computes for `t7ex`. -/
def ns7r0 : NS := ((analyze 0 5 t7ex).toOption).getD default

/-- The NodeSets rank 1 computes for `t7ex`. -/
def ns7r1 : NS := ((analyze 1 5 t7ex).toOption).getD default

/-- The NodeSets rank 0 computes for `t7ex`, written out literally. -/
def ns7r0lit : NS :=
  { nodes := [{ rank := 0, id := 0, parent := some 1, kids := [], offset := 0 },
              { rank := 0, id := 5, parent := some 8, kids := [0, 2], offset := 3 },
              { rank := 1, id := 1, parent := none, kids := [], offset := 5 },
              { rank := 0, id := 2, parent := some 5, kids := [], offset := 1 },
              { rank := 0, id := 3, parent := some 5, kids := [], offset := 2 },
              { rank := 0, id := 6, parent := some 6, kids := [3, 4], offset := 4 },
              { rank := 0, id := 7, parent := some 8, kids := [5, 7], offset := 6 },
              { rank := 1, id := 4, parent := none, kids := [], offset := 7 },
              { rank := 0, id := 8, parent := none, kids := [1, 6], offset := 8 }],
    levels := [{ nodes := [0, 3, 4], me := [], kids := [] },
               { nodes := [1, 5], me := [],
                 kids := [{ rank := 1, offset := 5, size := 1 }] },
               { nodes := [6], me := [],
                 kids := [{ rank := 1, offset := 7, size := 1 }] },
               { nodes := [8], me := [], kids := [] }],
    nslots := 9 }

/-- The NodeSets rank 1 computes for `t7ex`, written out literally. -/
def ns7r1lit : NS :=
  { nodes := [{ rank := 1, id := 1, parent := some 1, kids := [], offset := 0 },
              { rank := 0, id := 5, parent := none, kids := [0], offset := -1 },
              { rank := 1, id := 4, parent := some 3, kids := [], offset := 1 },
              { rank := 0, id := 7, parent := none, kids := [2], offset := -1 }],
    levels := [{ nodes := [0, 2],
                 me := [{ rank := 0, offset := 0, size := 2 }], kids := [] }],
    nslots := 2 }

/-- The initial two-rank world for `t7ex`, written out literally (each rank
has analyzed the tree and seeded its leaf slots with the leaf ids). -/
def w7ex : World :=
  { ranks := [{ ns := ns7r0lit, data := [0, 2, 3, 0, 0, 0, 0, 0, 0],
                lvlIdx := 0 },
              { ns := ns7r1lit, data := [1, 4], lvlIdx := 0 }],
    queues := fun _ _ => [] }

/-- A MetaData built from one declared tracer of each canonical type. -/
def mdEx : MetaData := mdInit [CPTcst, CPTst, CPTct, CPTt]

/-- A three-node arena (two leaves and their parent) used to exercise the
combine at a concrete input. -/
def nodesEx : List NSNode :=
  [{ rank := 0, id := 0, offset := 0 },
   { rank := 0, id := 1, offset := 1 },
   { rank := 0, id := 4, kids := [0, 1], offset := 2 }]

/-- A concrete L2R buffer assignment. -/
def l2rEx : Int → ℚ := fun i => (i : ℚ)

/-- A concrete R2L buffer assignment. -/
def r2lEx : Int → ℚ := fun _ => 0

/-- A single-root NodeSets (one owned node, no parent) for the root fix-up
witness. -/
def nsRootEx : NS :=
  { nodes := [{ rank := 0, id := 0, offset := 0 }],
    levels := [{ nodes := [0] }], nslots := 1 }

/-- A BfbTreeAllReducer over a one-leaf tree with one field. -/
def bfbEx : BfbTreeAllReducer :=
  { nlocal := 1, nfield := 1,
    ns := ((analyze 0 1 (.leaf 0 0)).toOption).getD default }

/-- A tree valid for `analyze 0 4`: all four leaves owned by rank 0. -/
def t4ex : Tree :=
  .node (.node (.leaf 0 0) (.leaf 0 1)) (.node (.leaf 0 2) (.leaf 0 3))

/-- The NodeSets rank 0 computes for `t4ex`. -/
def ns4ex : NS := ((analyze 0 4 t4ex).toOption).getD default

end CedrQlt
namespace CedrQlt

/-- The node-record fields `init_offsets` never changes. -/
def stripOff (n : NSNode) : NSNode := { n with offset := -1 }

/-- Whether the loop body of `init_offsets` assigns an offset at this entry:
remote entries always, local entries only when still unassigned. -/
def ioWrites (nodes : List NSNode) (rn : Int × Nat) : Bool :=
  if rn.1 = -1 then
    (if (nodes.getD rn.2 default).offset = -1 then true else false)
  else true

/-- The local-rank remap of `init_offsets` (cedr_qlt.cpp:286-289). -/
def remapRN (my : Int) (rn : Int × Nat) : Int × Nat :=
  (if rn.1 = my then -1 else rn.1, rn.2)

/-- One level step of `init_comm` (cedr_qlt.cpp:323-343). -/
def icStep (my : Int) (st : List NSNode × Nat × List Level) (lvl : Level) :
    List NSNode × Nat × List Level :=
  let (nodes, cnt, acc) := st
  let meRns := mkMeRns nodes my lvl.nodes
  let kidRns := mkKidsRns nodes lvl.nodes
  let (nodes, cnt, meMmds) := initOffsets my meRns nodes cnt
  let (nodes, cnt, kidMmds) := initOffsets my kidRns nodes cnt
  (nodes, cnt, acc ++ [{ lvl with me := meMmds, kids := kidMmds }])

/-- All owned nodes of a level list (the `me` entries of `init_comm`). -/
def meL (L : List Level) : List Nat := L.flatMap Level.nodes

/-- Kid indices of an arena node. -/
def kidsOfN (N : List NSNode) (j : Nat) : List Nat := (N.getD j default).kids

/-- The remotely-owned kid slots of the given owned nodes. -/
def kidRemL (my : Int) (N : List NSNode) (js : List Nat) : List Nat :=
  (js.flatMap (kidsOfN N)).filter
    (fun k => decide ((N.getD k default).rank ≠ my))

/-- The offsets `check_comm` traverses, with ranks read from `N0` and
offsets from `Nf`. -/
def readsWith (my : Int) (N0 Nf : List NSNode) (L : List Level) : List Int :=
  L.flatMap (fun lv => lv.nodes.flatMap (fun j =>
    (Nf.getD j default).offset ::
      ((kidsOfN N0 j).filter
        (fun k => decide ((N0.getD k default).rank ≠ my))).map
        (fun k => (Nf.getD k default).offset)))

/-- Structural invariant of the NodeSets state threaded through
`level_schedule_and_collect`: level entries are valid distinct arena
indices of rank `my`, kid lists of level nodes reference valid distinct
arena indices, every `my`-ranked kid of a level node sits in a strictly
lower level, and no offset has been assigned yet. -/
structure LscInv (my : Int) (ns : NS) : Prop where
  lvl_lt : ∀ j ∈ levelNodes ns, j < ns.nodes.length
  lvl_nodup : (levelNodes ns).Nodup
  mem_rank : ∀ j ∈ levelNodes ns, (nodeAt ns j).rank = my
  kids_lt : ∀ k ∈ ownedKidsOf ns, k < ns.nodes.length
  okids_nodup : (ownedKidsOf ns).Nodup
  kid_below : ∀ q, ∀ j ∈ (ns.levels.getD q default).nodes,
      ∀ k ∈ (nodeAt ns j).kids, (nodeAt ns k).rank = my →
        k ∈ ((ns.levels.take q).map Level.nodes).flatten
  off_neg : ∀ j, (nodeAt ns j).offset = -1

/-- Relation between the NodeSets before and after one
`level_schedule_and_collect` call on subtree `t` returning level `l`,
memoized node `r` and ownership flag `o`. -/
structure LscPost (my : Int) (t : ITree) (ns ns' : NS) (l : Nat)
    (r : Option Nat) (o : Bool) : Prop where
  len_mono : ns.nodes.length ≤ ns'.nodes.length
  old_nodes : ∀ j, j < ns.nodes.length → nodeAt ns' j = nodeAt ns j
  lvls_len : ns'.levels.length = ns.levels.length
  lvls_app : ∀ q, ∃ fr, (ns'.levels.getD q default).nodes =
      (ns.levels.getD q default).nodes ++ fr ∧
      ∀ j ∈ fr, ns.nodes.length ≤ j
  lvl0_ids : ∃ fr, (ns'.levels.getD 0 default).nodes =
      (ns.levels.getD 0 default).nodes ++ fr ∧
      fr.map (fun j => (nodeAt ns' j).id) = ownedLeafIds my t
  okids_app : ∃ fr, (ownedKidsOf ns').Perm (ownedKidsOf ns ++ fr) ∧
      ∀ k ∈ fr, ns.nodes.length ≤ k
  ridx_spec : ∀ i, r = some i → ns.nodes.length ≤ i ∧ i < ns'.nodes.length ∧
      (nodeAt ns' i).rank = t.rank ∧ (nodeAt ns' i).id = t.cid ∧
      i ∉ ownedKidsOf ns'
  r_owned : o = true ↔ t.rank = my
  r_lvl : o = true → ∃ i, r = some i ∧
      i ∈ (ns'.levels.getD t.height default).nodes
  lvl_eq : l = t.height
  fresh_leaf : ownedLeafIds my t = [] → ns'.levels = ns.levels

/-- The kid-link list of the needed-parent branch of
`level_schedule_and_collect` (cedr_qlt.cpp:254-260): an existing kid record
is linked only when the kid is owned by `my`. -/
def kidLinks (my : Int) (kid : ITree) (r : Option Nat) : List Nat :=
  match r with
  | some i => if kid.rank = my then [i] else []
  | none => []

theorem updQ_ne {f : Int → ℚ} {i x : Int} {v : ℚ} (h : x ≠ i) :
    updQ f i v x = f x := by simp [updQ, h]

theorem updQ_eq {f : Int → ℚ} {i : Int} {v : ℚ} : updQ f i v i = v := by
  simp [updQ]

theorem rec_gap {o oo W : Int} (ho : o ≠ oo) (hW : 0 < W) :
    o * W + W ≤ oo * W ∨ oo * W + W ≤ o * W := by
  rcases lt_or_gt_of_ne ho with h | h
  · left
    have h1 : o + 1 ≤ oo := h
    have key : (o + 1) * W ≤ oo * W := mul_le_mul_of_nonneg_right h1 hW.le
    nlinarith
  · right
    have h1 : oo + 1 ≤ o := h
    have key : (oo + 1) * W ≤ o * W := mul_le_mul_of_nonneg_right h1 hW.le
    nlinarith

theorem bsz_l2r_bounds (pt : Nat) :
    3 ≤ get_problem_type_l2r_bulk_size pt ∧
    get_problem_type_l2r_bulk_size pt ≤ 4 := by
  unfold get_problem_type_l2r_bulk_size
  split <;> omega

theorem l2rBlockWrite_eval (md : MetaData) (W o o0 o1 : Int) (pb : Nat × Nat)
    (g : Int → ℚ) (hW : 0 < W) (ho0 : o ≠ o0) (ho1 : o ≠ o1)
    (hlo : 1 ≤ (bl2rOf md pb.2 : Int))
    (hhi : (bl2rOf md pb.2 : Int) +
      (get_problem_type_l2r_bulk_size (get_problem_type pb.1) : Int) ≤ W) :
    (∀ x, ¬ ivL2r md W o pb x → l2rBlockWrite md W o o0 o1 pb g x = g x) ∧
    combinedBlock md W o o0 o1 g (l2rBlockWrite md W o o0 o1 pb g) pb := by
  have hbsz := bsz_l2r_bounds (get_problem_type pb.1)
  have hgap0 := rec_gap ho0 hW
  have hgap1 := rec_gap ho1 hW
  unfold bl2rOf at hlo hhi
  simp only [ivL2r, combinedBlock, l2rBlockWrite, bl2rOf]
  generalize hbd : (↑(md.trcr2bl2r.getD (md.bidx2trcr.getD pb.2 0) 0) : Int) = bdi
  generalize hsz : get_problem_type_l2r_bulk_size (get_problem_type pb.1) = bsz
  rw [hbd] at hlo hhi
  rw [hsz] at hbsz hhi
  generalize hB : o * W = B
  generalize hB0 : o0 * W = B0
  generalize hB1 : o1 * W = B1
  rw [hB, hB0] at hgap0
  rw [hB, hB1] at hgap1
  constructor
  · intro x hx
    by_cases hb : bsz = 4
    · rw [if_pos hb,
        updQ_ne (by omega : x ≠ B + bdi + 3),
        updQ_ne (by omega : x ≠ B + bdi + 2),
        updQ_ne (by omega : x ≠ B + bdi + 1),
        updQ_ne (by omega : x ≠ B + bdi)]
    · rw [if_neg hb,
        updQ_ne (by omega : x ≠ B + bdi + 2),
        updQ_ne (by omega : x ≠ B + bdi + 1),
        updQ_ne (by omega : x ≠ B + bdi)]
  · refine ⟨?_, ?_, ?_, ?_⟩
    · by_cases hb : bsz = 4
      · rw [if_pos hb,
          updQ_ne (by omega : B + bdi ≠ B + bdi + 3),
          updQ_ne (by omega : B + bdi ≠ B + bdi + 2),
          updQ_ne (by omega : B + bdi ≠ B + bdi + 1),
          updQ_eq]
      · rw [if_neg hb,
          updQ_ne (by omega : B + bdi ≠ B + bdi + 2),
          updQ_ne (by omega : B + bdi ≠ B + bdi + 1),
          updQ_eq]
    · by_cases hb : bsz = 4
      · rw [if_pos hb,
          updQ_ne (by omega : B + bdi + 1 ≠ B + bdi + 3),
          updQ_ne (by omega : B + bdi + 1 ≠ B + bdi + 2),
          updQ_eq,
          updQ_ne (by omega : B0 + bdi + 1 ≠ B + bdi),
          updQ_ne (by omega : B1 + bdi + 1 ≠ B + bdi)]
      · rw [if_neg hb,
          updQ_ne (by omega : B + bdi + 1 ≠ B + bdi + 2),
          updQ_eq,
          updQ_ne (by omega : B0 + bdi + 1 ≠ B + bdi),
          updQ_ne (by omega : B1 + bdi + 1 ≠ B + bdi)]
    · by_cases hb : bsz = 4
      · rw [if_pos hb,
          updQ_ne (by omega : B + bdi + 2 ≠ B + bdi + 3),
          updQ_eq,
          updQ_ne (by omega : B0 + bdi + 2 ≠ B + bdi + 1),
          updQ_ne (by omega : B0 + bdi + 2 ≠ B + bdi),
          updQ_ne (by omega : B1 + bdi + 2 ≠ B + bdi + 1),
          updQ_ne (by omega : B1 + bdi + 2 ≠ B + bdi)]
      · rw [if_neg hb,
          updQ_eq,
          updQ_ne (by omega : B0 + bdi + 2 ≠ B + bdi + 1),
          updQ_ne (by omega : B0 + bdi + 2 ≠ B + bdi),
          updQ_ne (by omega : B1 + bdi + 2 ≠ B + bdi + 1),
          updQ_ne (by omega : B1 + bdi + 2 ≠ B + bdi)]
    · intro hb
      rw [if_pos hb,
        updQ_eq,
        updQ_ne (by omega : B0 + bdi + 3 ≠ B + bdi + 2),
        updQ_ne (by omega : B0 + bdi + 3 ≠ B + bdi + 1),
        updQ_ne (by omega : B0 + bdi + 3 ≠ B + bdi),
        updQ_ne (by omega : B1 + bdi + 3 ≠ B + bdi + 2),
        updQ_ne (by omega : B1 + bdi + 3 ≠ B + bdi + 1),
        updQ_ne (by omega : B1 + bdi + 3 ≠ B + bdi)]
end CedrQlt
namespace CedrQlt

theorem foldl_flatMap {α β γ : Type} (l : List α) (f : α → List β)
    (g : γ → β → γ) (init : γ) :
    (l.flatMap f).foldl g init = l.foldl (fun acc a => (f a).foldl g acc) init := by
  induction l generalizing init with
  | nil => rfl
  | cons a as ih => simp only [List.flatMap_cons, List.foldl_append, ih,
      List.foldl_cons]

theorem ivL2r_mem_rec {md : MetaData} {W o : Int} {pb : Nat × Nat} {x : Int}
    (hlo : 1 ≤ (bl2rOf md pb.2 : Int))
    (hhi : (bl2rOf md pb.2 : Int) +
      (get_problem_type_l2r_bulk_size (get_problem_type pb.1) : Int) ≤ W)
    (hx : ivL2r md W o pb x) : inRec o W x := by
  unfold ivL2r at hx
  unfold inRec
  have hbsz := bsz_l2r_bounds (get_problem_type pb.1)
  obtain ⟨x1, x2⟩ := hx
  constructor <;> [linarith; nlinarith [hbsz.1]]

theorem rec_disjoint {o oo W x : Int} (ho : o ≠ oo) (hW : 0 < W)
    (hx : inRec o W x) : ¬ inRec oo W x := by
  intro hx2
  obtain ⟨a1, a2⟩ := hx
  obtain ⟨b1, b2⟩ := hx2
  rcases rec_gap ho hW with h | h <;> linarith

theorem rec_not_mem {o oo W x : Int} (ho : o ≠ oo) (hW : 0 < W)
    (hx : inRec oo W x) : ¬ inRec o W x :=
  fun hx2 => rec_disjoint ho hW hx2 hx

theorem mem_rec_base {o W : Int} (hW : 0 < W) : inRec o W (o * W) :=
  ⟨le_refl _, by linarith⟩

end CedrQlt
namespace CedrQlt

/-- displacement-interval disjointness relation used by the layout. -/
theorem iv_disjoint {md : MetaData} {W o : Int} {pb pb' : Nat × Nat} {x : Int}
    (hd : bl2rOf md pb.2 + get_problem_type_l2r_bulk_size (get_problem_type pb.1) ≤
            bl2rOf md pb'.2 ∨
          bl2rOf md pb'.2 + get_problem_type_l2r_bulk_size (get_problem_type pb'.1) ≤
            bl2rOf md pb.2)
    (hx : ivL2r md W o pb x) : ¬ ivL2r md W o pb' x := by
  intro hx2
  unfold ivL2r at hx hx2
  obtain ⟨a1, a2⟩ := hx
  obtain ⟨b1, b2⟩ := hx2
  rcases hd with h | h
  · have : (bl2rOf md pb.2 : Int) + (get_problem_type_l2r_bulk_size (get_problem_type pb.1) : Int) ≤ (bl2rOf md pb'.2 : Int) := by exact_mod_cast h
    linarith
  · have : (bl2rOf md pb'.2 : Int) + (get_problem_type_l2r_bulk_size (get_problem_type pb'.1) : Int) ≤ (bl2rOf md pb.2 : Int) := by exact_mod_cast h
    linarith

theorem slot_mem_iv {md : MetaData} {W o : Int} {pb : Nat × Nat} {δ : Int}
    (h0 : 0 ≤ δ)
    (hδ : δ < (get_problem_type_l2r_bulk_size (get_problem_type pb.1) : Int)) :
    ivL2r md W o pb (o * W + bl2rOf md pb.2 + δ) := by
  unfold ivL2r
  constructor <;> linarith

theorem l2rBlockFold_spec (md : MetaData) (W o o0 o1 : Int) (l2r : Int → ℚ)
    (hW : 0 < W) (ho0 : o ≠ o0) (ho1 : o ≠ o1) :
    ∀ (bs : List (Nat × Nat)) (g : Int → ℚ),
    (∀ pb ∈ bs, 1 ≤ (bl2rOf md pb.2 : Int) ∧
      (bl2rOf md pb.2 : Int) +
        (get_problem_type_l2r_bulk_size (get_problem_type pb.1) : Int) ≤ W) →
    bs.Pairwise (fun pb pb' =>
      bl2rOf md pb.2 + get_problem_type_l2r_bulk_size (get_problem_type pb.1) ≤
        bl2rOf md pb'.2 ∨
      bl2rOf md pb'.2 + get_problem_type_l2r_bulk_size (get_problem_type pb'.1) ≤
        bl2rOf md pb.2) →
    (∀ x, inRec o0 W x ∨ inRec o1 W x → g x = l2r x) →
    (∀ x, (∀ pb ∈ bs, ¬ ivL2r md W o pb x) →
      (bs.foldl (fun g pb => l2rBlockWrite md W o o0 o1 pb g) g) x = g x) ∧
    (∀ pb ∈ bs, combinedBlock md W o o0 o1 l2r
      (bs.foldl (fun g pb => l2rBlockWrite md W o o0 o1 pb g) g) pb) := by
  intro bs
  induction bs with
  | nil =>
      intro g _ _ _
      exact ⟨fun x _ => rfl, fun pb h => absurd h (List.not_mem_nil pb)⟩
  | cons pb rest ih =>
      intro g hin hpw hread
      have hinpb := hin pb (List.mem_cons_self pb rest)
      have hev := l2rBlockWrite_eval md W o o0 o1 pb g hW ho0 ho1 hinpb.1 hinpb.2
      have hread' : ∀ x, inRec o0 W x ∨ inRec o1 W x →
          l2rBlockWrite md W o o0 o1 pb g x = l2r x := by
        intro x hx
        rw [hev.1 x]
        · exact hread x hx
        · intro hiv
          have hrec := ivL2r_mem_rec hinpb.1 hinpb.2 hiv
          rcases hx with hx | hx
          · exact rec_disjoint ho0 hW hrec hx
          · exact rec_disjoint ho1 hW hrec hx
      have ihres := ih (l2rBlockWrite md W o o0 o1 pb g)
        (fun pb' h => hin pb' (List.mem_cons_of_mem pb h))
        (List.Pairwise.sublist (List.sublist_cons_self pb rest) hpw) hread'
      have hpwhead : ∀ pb2 ∈ rest,
          bl2rOf md pb.2 + get_problem_type_l2r_bulk_size (get_problem_type pb.1) ≤
            bl2rOf md pb2.2 ∨
          bl2rOf md pb2.2 + get_problem_type_l2r_bulk_size (get_problem_type pb2.1) ≤
            bl2rOf md pb.2 :=
        fun pb2 h2 => List.rel_of_pairwise_cons hpw h2
      rw [List.foldl_cons]
      constructor
      · intro x hx
        rw [ihres.1 x (fun pb2 h => hx pb2 (List.mem_cons_of_mem pb h))]
        exact hev.1 x (hx pb (List.mem_cons_self pb rest))
      · intro pb1 hpb1
        rcases List.mem_cons.mp hpb1 with rfl | hmem
        · -- the head block: its slots survive the rest of the fold
          have hbsz := bsz_l2r_bounds (get_problem_type pb1.1)
          have hbszInt : (3:Int) ≤
              (get_problem_type_l2r_bulk_size (get_problem_type pb1.1) : Int) := by
            exact_mod_cast hbsz.1
          have hsur : ∀ δ : Int, 0 ≤ δ →
              δ < (get_problem_type_l2r_bulk_size (get_problem_type pb1.1) : Int) →
              (rest.foldl (fun g pb => l2rBlockWrite md W o o0 o1 pb g)
                (l2rBlockWrite md W o o0 o1 pb1 g)) (o * W + bl2rOf md pb1.2 + δ) =
              (l2rBlockWrite md W o o0 o1 pb1 g) (o * W + bl2rOf md pb1.2 + δ) := by
            intro δ h0 hδ
            apply ihres.1
            intro pb2 h2
            exact iv_disjoint (hpwhead pb2 h2) (slot_mem_iv h0 hδ)
          have hg : ∀ δ : Int, 0 ≤ δ →
              δ < (get_problem_type_l2r_bulk_size (get_problem_type pb1.1) : Int) →
              (g (o0 * W + bl2rOf md pb1.2 + δ) = l2r (o0 * W + bl2rOf md pb1.2 + δ) ∧
               g (o1 * W + bl2rOf md pb1.2 + δ) = l2r (o1 * W + bl2rOf md pb1.2 + δ)) := by
            intro δ h0 hδ
            constructor
            · exact hread _ (Or.inl ⟨by nlinarith [hinpb.1], by nlinarith [hinpb.2]⟩)
            · exact hread _ (Or.inr ⟨by nlinarith [hinpb.1], by nlinarith [hinpb.2]⟩)
          have hev2 := hev.2
          unfold combinedBlock at hev2 ⊢
          obtain ⟨e0, e1, e2, e3⟩ := hev2
          have hs0 := hsur 0 le_rfl (by linarith)
          have hs1 := hsur 1 (by norm_num) (by linarith)
          have hs2 := hsur 2 (by norm_num) (by linarith)
          have hg0 := hg 0 le_rfl (by linarith)
          have hg1 := hg 1 (by norm_num) (by linarith)
          have hg2 := hg 2 (by norm_num) (by linarith)
          simp only [add_zero] at hs0 hg0
          refine ⟨?_, ?_, ?_, ?_⟩
          · rw [hs0, e0, hg0.1, hg0.2]
          · rw [hs1, e1, hg1.1, hg1.2]
          · rw [hs2, e2, hg2.1, hg2.2]
          · intro h4
            have hs3 := hsur 3 (by norm_num) (by rw [h4]; norm_num)
            have hg3 := hg 3 (by norm_num) (by rw [h4]; norm_num)
            rw [hs3, e3 h4, hg3.1, hg3.2]
        · exact ihres.2 pb1 hmem

end CedrQlt
namespace CedrQlt

theorem l2rCombineNode_eq (md : MetaData) (nodes : List NSNode) (l2r : Int → ℚ)
    (j k0 k1 : Nat) (hk : (nodes.getD j default).kids = [k0, k1]) :
    l2rCombineNode md nodes l2r j =
      (blockList md).foldl
        (fun g pb => l2rBlockWrite md (l2rndps md) (nodes.getD j default).offset
          (nodes.getD k0 default).offset (nodes.getD k1 default).offset pb g)
        (updQ l2r ((nodes.getD j default).offset * (l2rndps md))
          (l2r ((nodes.getD k0 default).offset * (l2rndps md)) +
           l2r ((nodes.getD k1 default).offset * (l2rndps md)))) := by
  unfold l2rCombineNode
  simp only [hk]
  unfold blockList
  rw [foldl_flatMap]
  congr 1
  funext acc pti
  rw [List.foldl_map]

end CedrQlt
namespace CedrQlt

/-- per-node spec for the L2R combine. -/
theorem l2rCombineNode_spec (md : MetaData) (nodes : List NSNode)
    (l2r : Int → ℚ) (j k0 k1 : Nat) (hlay : l2rLayoutOk md)
    (hk : (nodes.getD j default).kids = [k0, k1])
    (ho0 : (nodes.getD j default).offset ≠ (nodes.getD k0 default).offset)
    (ho1 : (nodes.getD j default).offset ≠ (nodes.getD k1 default).offset) :
    (∀ x, ¬ inRec (nodes.getD j default).offset (l2rndps md) x →
      l2rCombineNode md nodes l2r j x = l2r x) ∧
    l2rCombineNode md nodes l2r j
        ((nodes.getD j default).offset * (l2rndps md)) =
      l2r ((nodes.getD k0 default).offset * (l2rndps md)) +
      l2r ((nodes.getD k1 default).offset * (l2rndps md)) ∧
    (∀ pb ∈ blockList md,
      combinedBlock md (l2rndps md) (nodes.getD j default).offset
        (nodes.getD k0 default).offset (nodes.getD k1 default).offset
        l2r (l2rCombineNode md nodes l2r j) pb) := by
  obtain ⟨hW1, hin, hpw⟩ := hlay
  have hW : (0:Int) < (l2rndps md : Int) := by exact_mod_cast hW1
  set W : Int := (l2rndps md : Int) with hWdef
  set o : Int := (nodes.getD j default).offset with hodef
  set o0 : Int := (nodes.getD k0 default).offset with ho0def
  set o1 : Int := (nodes.getD k1 default).offset with ho1def
  set g : Int → ℚ := updQ l2r (o * W) (l2r (o0 * W) + l2r (o1 * W)) with hgdef
  have hread : ∀ x, inRec o0 W x ∨ inRec o1 W x → g x = l2r x := by
    intro x hx
    rw [hgdef]
    apply updQ_ne
    intro hc
    subst hc
    have hbase := @mem_rec_base o W hW
    rcases hx with hx | hx
    · exact rec_disjoint ho0 hW hbase hx
    · exact rec_disjoint ho1 hW hbase hx
  have hinInt : ∀ pb ∈ blockList md, 1 ≤ (bl2rOf md pb.2 : Int) ∧
      (bl2rOf md pb.2 : Int) +
        (get_problem_type_l2r_bulk_size (get_problem_type pb.1) : Int) ≤ W := by
    intro pb hpb
    obtain ⟨a, b⟩ := hin pb hpb
    constructor
    · exact_mod_cast a
    · rw [hWdef]; exact_mod_cast b
  have hfold := l2rBlockFold_spec md W o o0 o1 l2r hW ho0 ho1 (blockList md) g
    hinInt hpw hread
  rw [l2rCombineNode_eq md nodes l2r j k0 k1 hk]
  refine ⟨?_, ?_, ?_⟩
  · intro x hx
    rw [hfold.1 x]
    · rw [hgdef]
      apply updQ_ne
      intro hc
      subst hc
      exact hx (mem_rec_base hW)
    · intro pb hpb
      intro hiv
      exact hx (ivL2r_mem_rec (hinInt pb hpb).1 (hinInt pb hpb).2 hiv)
  · rw [hfold.1 (o * W)]
    · rw [hgdef, updQ_eq]
    · intro pb hpb hiv
      unfold ivL2r at hiv
      have h1 := (hinInt pb hpb).1
      linarith [hiv.1]
  · exact hfold.2

end CedrQlt
namespace CedrQlt

theorem combinedBlock_rw (md : MetaData) (W o o0 o1 : Int) (r r' F F' : Int → ℚ)
    (pb : Nat × Nat)
    (hr : ∀ δ : Int, 0 ≤ δ →
      (δ ≤ 2 ∨ get_problem_type_l2r_bulk_size (get_problem_type pb.1) = 4) →
      δ ≤ 3 →
      r' (o0 * W + bl2rOf md pb.2 + δ) = r (o0 * W + bl2rOf md pb.2 + δ) ∧
      r' (o1 * W + bl2rOf md pb.2 + δ) = r (o1 * W + bl2rOf md pb.2 + δ))
    (hF : ∀ δ : Int, 0 ≤ δ →
      (δ ≤ 2 ∨ get_problem_type_l2r_bulk_size (get_problem_type pb.1) = 4) →
      δ ≤ 3 →
      F' (o * W + bl2rOf md pb.2 + δ) = F (o * W + bl2rOf md pb.2 + δ))
    (h : combinedBlock md W o o0 o1 r F pb) :
    combinedBlock md W o o0 o1 r' F' pb := by
  unfold combinedBlock at h ⊢
  obtain ⟨h0, h1, h2, h3⟩ := h
  have hF0 := hF 0 le_rfl (Or.inl (by norm_num)) (by norm_num)
  have hr0 := hr 0 le_rfl (Or.inl (by norm_num)) (by norm_num)
  have hF1 := hF 1 (by norm_num) (Or.inl (by norm_num)) (by norm_num)
  have hr1 := hr 1 (by norm_num) (Or.inl (by norm_num)) (by norm_num)
  have hF2 := hF 2 (by norm_num) (Or.inl (by norm_num)) (by norm_num)
  have hr2 := hr 2 (by norm_num) (Or.inl (by norm_num)) (by norm_num)
  simp only [add_zero] at hF0 hr0
  refine ⟨?_, ?_, ?_, ?_⟩
  · rw [hF0, h0, ← hr0.1, ← hr0.2]
  · rw [hF1, h1, ← hr1.1, ← hr1.2]
  · rw [hF2, h2, ← hr2.1, ← hr2.2]
  · intro h4
    have hF3 := hF 3 (by norm_num) (Or.inr h4) (by norm_num)
    have hr3 := hr 3 (by norm_num) (Or.inr h4) (by norm_num)
    rw [hF3, h3 h4, ← hr3.1, ← hr3.2]

/-- the combine of a node leaves everything outside its own record alone,
also when the node has no kids. -/
theorem l2rCombineNode_frame (md : MetaData) (nodes : List NSNode)
    (l2r : Int → ℚ) (j : Nat) (hlay : l2rLayoutOk md)
    (hkid : ∀ k ∈ (nodes.getD j default).kids,
      (nodes.getD k default).offset ≠ (nodes.getD j default).offset) :
    ∀ x, ¬ inRec (nodes.getD j default).offset (l2rndps md) x →
      l2rCombineNode md nodes l2r j x = l2r x := by
  intro x hx
  cases hk : (nodes.getD j default).kids with
  | nil => unfold l2rCombineNode; rw [hk]
  | cons a tl =>
      cases tl with
      | nil => unfold l2rCombineNode; rw [hk]
      | cons b tl2 =>
          cases tl2 with
          | nil =>
              exact (l2rCombineNode_spec md nodes l2r j a b hlay hk
                (Ne.symm (hkid a (by rw [hk]; exact List.mem_cons_self a [b])))
                (Ne.symm (hkid b (by rw [hk]; simp)))).1 x hx
          | cons c tl3 => unfold l2rCombineNode; rw [hk]

end CedrQlt
namespace CedrQlt

theorem l2rCombineLevel_spec (md : MetaData) (nodes : List NSNode)
    (hlay : l2rLayoutOk md) :
    ∀ (lvlNodes : List Nat) (l2r : Int → ℚ),
    lvlNodes.Pairwise (fun j j' =>
      (nodes.getD j default).offset ≠ (nodes.getD j' default).offset) →
    (∀ j ∈ lvlNodes, ∀ j' ∈ lvlNodes, ∀ k ∈ (nodes.getD j' default).kids,
      (nodes.getD k default).offset ≠ (nodes.getD j default).offset) →
    (∀ x, (∀ j ∈ lvlNodes, ¬ inRec (nodes.getD j default).offset (l2rndps md) x) →
      l2rCombineLevel md nodes lvlNodes l2r x = l2r x) ∧
    (∀ j ∈ lvlNodes, ∀ k0 k1, (nodes.getD j default).kids = [k0, k1] →
      l2rCombineLevel md nodes lvlNodes l2r
          ((nodes.getD j default).offset * (l2rndps md)) =
        l2r ((nodes.getD k0 default).offset * (l2rndps md)) +
        l2r ((nodes.getD k1 default).offset * (l2rndps md)) ∧
      ∀ pb ∈ blockList md,
        combinedBlock md (l2rndps md) (nodes.getD j default).offset
          (nodes.getD k0 default).offset (nodes.getD k1 default).offset
          l2r (l2rCombineLevel md nodes lvlNodes l2r) pb) := by
  have hW : (0:Int) < (l2rndps md : Int) := by exact_mod_cast hlay.1
  intro lvlNodes
  induction lvlNodes with
  | nil =>
      intro l2r _ _
      exact ⟨fun x _ => rfl, fun j h => absurd h (List.not_mem_nil j)⟩
  | cons j0 rest ih =>
      intro l2r hdist hkid
      have hd0 : ∀ j ∈ rest, (nodes.getD j0 default).offset ≠
          (nodes.getD j default).offset :=
        fun j h => List.rel_of_pairwise_cons hdist h
      have hkid0 : ∀ k ∈ (nodes.getD j0 default).kids,
          (nodes.getD k default).offset ≠ (nodes.getD j0 default).offset :=
        fun k hk => hkid j0 (List.mem_cons_self j0 rest) j0
          (List.mem_cons_self j0 rest) k hk
      have hframe0 := l2rCombineNode_frame md nodes l2r j0 hlay hkid0
      have ihres := ih (l2rCombineNode md nodes l2r j0)
        (List.Pairwise.sublist (List.sublist_cons_self j0 rest) hdist)
        (fun j hj j' hj' k hk => hkid j (List.mem_cons_of_mem j0 hj)
          j' (List.mem_cons_of_mem j0 hj') k hk)
      have hLev : l2rCombineLevel md nodes (j0 :: rest) l2r =
          l2rCombineLevel md nodes rest (l2rCombineNode md nodes l2r j0) := by
        unfold l2rCombineLevel
        rw [List.foldl_cons]
      constructor
      · intro x hx
        rw [hLev, ihres.1 x (fun j h => hx j (List.mem_cons_of_mem j0 h))]
        exact hframe0 x (hx j0 (List.mem_cons_self j0 rest))
      · intro j hj k0 k1 hk
        rcases List.mem_cons.mp hj with rfl | hmem
        · -- head node
          have ho0 : (nodes.getD j default).offset ≠ (nodes.getD k0 default).offset :=
            Ne.symm (hkid0 k0 (by rw [hk]; exact List.mem_cons_self k0 [k1]))
          have ho1 : (nodes.getD j default).offset ≠ (nodes.getD k1 default).offset :=
            Ne.symm (hkid0 k1 (by rw [hk]; simp))
          have hnode := l2rCombineNode_spec md nodes l2r j k0 k1 hlay hk ho0 ho1
          have hsur : ∀ x, inRec (nodes.getD j default).offset (l2rndps md) x →
              l2rCombineLevel md nodes rest (l2rCombineNode md nodes l2r j) x =
              l2rCombineNode md nodes l2r j x := by
            intro x hxin
            apply ihres.1
            intro j' hj'
            exact rec_not_mem (Ne.symm (hd0 j' hj')) hW hxin
          constructor
          · rw [hLev, hsur _ (mem_rec_base hW)]
            exact hnode.2.1
          · intro pb hpb
            rw [hLev]
            have hinpb : 1 ≤ (bl2rOf md pb.2 : Int) ∧
                (bl2rOf md pb.2 : Int) +
                  (get_problem_type_l2r_bulk_size (get_problem_type pb.1) : Int) ≤
                  (l2rndps md : Int) := by
              obtain ⟨a, b⟩ := hlay.2.1 pb hpb
              exact ⟨by exact_mod_cast a, by exact_mod_cast b⟩
            have hbszInt : (3:Int) ≤
                (get_problem_type_l2r_bulk_size (get_problem_type pb.1) : Int) := by
              exact_mod_cast (bsz_l2r_bounds (get_problem_type pb.1)).1
            apply combinedBlock_rw md (l2rndps md) _ _ _ l2r l2r
              (l2rCombineNode md nodes l2r j) _ pb
            · intro δ h0 hcond h3
              exact ⟨rfl, rfl⟩
            · intro δ h0 hcond h3
              apply hsur
              apply ivL2r_mem_rec hinpb.1 hinpb.2
              unfold ivL2r
              have hdlt : δ < (get_problem_type_l2r_bulk_size (get_problem_type pb.1) : Int) := by
                rcases hcond with hc | hc
                · linarith
                · rw [hc]; push_cast; linarith
              constructor <;> linarith
            · exact hnode.2.2 pb hpb
        · -- node in the tail
          have hoff0 : ∀ k ∈ (nodes.getD j default).kids,
              (nodes.getD k default).offset ≠ (nodes.getD j0 default).offset :=
            fun k hk2 => hkid j0 (List.mem_cons_self j0 rest) j
              (List.mem_cons_of_mem j0 hmem) k hk2
          have hrw : ∀ k, k ∈ (nodes.getD j default).kids →
              ∀ δ : Int, l2rCombineNode md nodes l2r j0
                  ((nodes.getD k default).offset * (l2rndps md) + δ) =
                l2r ((nodes.getD k default).offset * (l2rndps md) + δ) ∨
              ¬ inRec (nodes.getD k default).offset (l2rndps md)
                  ((nodes.getD k default).offset * (l2rndps md) + δ) := by
            intro k hk2 δ
            by_cases hin : inRec (nodes.getD k default).offset (l2rndps md)
                ((nodes.getD k default).offset * (l2rndps md) + δ)
            · left
              exact hframe0 _ (rec_not_mem (Ne.symm (hoff0 k hk2)) hW hin)
            · right; exact hin
          have ihB := ihres.2 j hmem k0 k1 hk
          have hk0mem : k0 ∈ (nodes.getD j default).kids := by
            rw [hk]; exact List.mem_cons_self k0 [k1]
          have hk1mem : k1 ∈ (nodes.getD j default).kids := by
            rw [hk]; simp
          have hrwk : ∀ δ : Int, 0 ≤ δ → δ < (l2rndps md : Int) →
              (l2rCombineNode md nodes l2r j0
                  ((nodes.getD k0 default).offset * (l2rndps md) + δ) =
                l2r ((nodes.getD k0 default).offset * (l2rndps md) + δ)) ∧
              (l2rCombineNode md nodes l2r j0
                  ((nodes.getD k1 default).offset * (l2rndps md) + δ) =
                l2r ((nodes.getD k1 default).offset * (l2rndps md) + δ)) := by
            intro δ h0 hlt
            constructor
            · apply hframe0
              apply rec_not_mem (Ne.symm (hoff0 k0 hk0mem)) hW
              exact ⟨by linarith, by linarith⟩
            · apply hframe0
              apply rec_not_mem (Ne.symm (hoff0 k1 hk1mem)) hW
              exact ⟨by linarith, by linarith⟩
          constructor
          · rw [hLev, ihB.1]
            have h00 := (hrwk 0 le_rfl hW).1
            have h01 := (hrwk 0 le_rfl hW).2
            simp only [add_zero] at h00 h01
            rw [h00, h01]
          · intro pb hpb
            rw [hLev]
            have hinpb : 1 ≤ (bl2rOf md pb.2 : Int) ∧
                (bl2rOf md pb.2 : Int) +
                  (get_problem_type_l2r_bulk_size (get_problem_type pb.1) : Int) ≤
                  (l2rndps md : Int) := by
              obtain ⟨a, b⟩ := hlay.2.1 pb hpb
              exact ⟨by exact_mod_cast a, by exact_mod_cast b⟩
            have hbszB := bsz_l2r_bounds (get_problem_type pb.1)
            have hbszInt3 : (3:Int) ≤
                (get_problem_type_l2r_bulk_size (get_problem_type pb.1) : Int) := by
              exact_mod_cast hbszB.1
            apply combinedBlock_rw md (l2rndps md) _ _ _
              (l2rCombineNode md nodes l2r j0) l2r
              (l2rCombineLevel md nodes rest (l2rCombineNode md nodes l2r j0))
              (l2rCombineLevel md nodes rest (l2rCombineNode md nodes l2r j0)) pb
            · intro δ h0 hcond h3
              have hdlt : (bl2rOf md pb.2 : Int) + δ < (l2rndps md : Int) := by
                rcases hcond with hc | hc
                · linarith [hinpb.2, hbszInt3]
                · have : ((4:Nat) : Int) ≤ (l2rndps md : Int) - (bl2rOf md pb.2 : Int) := by
                    rw [← hc]; linarith [hinpb.2]
                  push_cast at this
                  linarith
              have hpair := hrwk ((bl2rOf md pb.2 : Int) + δ)
                (by linarith [hinpb.1]) hdlt
              simp only [← add_assoc] at hpair
              exact ⟨hpair.1.symm, hpair.2.symm⟩
            · intro δ h0 hcond h3
              rfl
            · exact ihB.2 pb hpb

end CedrQlt
namespace CedrQlt

theorem bsz_r2l_cases (pt : Nat) :
    (pt &&& PTshapepreserve ≠ 0 ∧ get_problem_type_r2l_bulk_size pt = 1) ∨
    (pt &&& PTshapepreserve = 0 ∧ get_problem_type_r2l_bulk_size pt = 3) := by
  unfold get_problem_type_r2l_bulk_size
  split <;> simp_all

theorem rootBlockWrite_eval (md : MetaData) (lW rW o : Int) (l2r : Int → ℚ)
    (pb : Nat × Nat) (r2l : Int → ℚ) :
    (∀ x, ¬ ivR2l md rW o pb x → rootBlockWrite md lW rW o l2r pb r2l x = r2l x) ∧
    rootBlock md lW rW o l2r (rootBlockWrite md lW rW o l2r pb r2l) pb := by
  rcases bsz_r2l_cases (get_problem_type pb.1) with ⟨hsp, hb⟩ | ⟨hsp, hb⟩
  · constructor
    · intro x hx
      unfold ivR2l at hx
      rw [hb] at hx
      unfold rootBlockWrite
      rw [if_neg (by simp [hsp]), updQ_ne]
      intro hc
      subst hc
      unfold br2lOf at hx
      push_cast at hx
      omega
    · unfold rootBlock
      refine ⟨?_, ?_⟩
      · unfold rootBlockWrite
        rw [if_neg (by simp [hsp])]
        unfold br2lOf bl2rOf
        exact updQ_eq
      · intro hc
        exact absurd hc hsp
  · constructor
    · intro x hx
      unfold ivR2l at hx
      rw [hb] at hx
      unfold rootBlockWrite
      rw [if_pos (by simp [hsp])]
      unfold br2lOf at hx
      rw [updQ_ne (by push_cast at hx ⊢; omega),
        updQ_ne (by push_cast at hx ⊢; omega),
        updQ_ne (by push_cast at hx ⊢; omega)]
    · unfold rootBlock
      refine ⟨?_, fun _ => ⟨?_, ?_⟩⟩
      · unfold rootBlockWrite
        rw [if_pos (by simp [hsp])]
        unfold br2lOf bl2rOf
        rw [updQ_ne (by omega), updQ_ne (by omega), updQ_eq]
      · unfold rootBlockWrite
        rw [if_pos (by simp [hsp])]
        unfold br2lOf bl2rOf
        rw [updQ_ne (by omega), updQ_eq]
      · unfold rootBlockWrite
        rw [if_pos (by simp [hsp])]
        unfold br2lOf bl2rOf
        rw [updQ_eq]

end CedrQlt
namespace CedrQlt

theorem ivR2l_disjoint {md : MetaData} {rW o : Int} {pb pb' : Nat × Nat} {x : Int}
    (hd : br2lOf md pb.2 + get_problem_type_r2l_bulk_size (get_problem_type pb.1) ≤
            br2lOf md pb'.2 ∨
          br2lOf md pb'.2 + get_problem_type_r2l_bulk_size (get_problem_type pb'.1) ≤
            br2lOf md pb.2)
    (hx : ivR2l md rW o pb x) : ¬ ivR2l md rW o pb' x := by
  intro hx2
  unfold ivR2l at hx hx2
  obtain ⟨a1, a2⟩ := hx
  obtain ⟨b1, b2⟩ := hx2
  rcases hd with h | h
  · have : (br2lOf md pb.2 : Int) + (get_problem_type_r2l_bulk_size (get_problem_type pb.1) : Int) ≤ (br2lOf md pb'.2 : Int) := by exact_mod_cast h
    linarith
  · have : (br2lOf md pb'.2 : Int) + (get_problem_type_r2l_bulk_size (get_problem_type pb'.1) : Int) ≤ (br2lOf md pb.2 : Int) := by exact_mod_cast h
    linarith

theorem rootBlockFold_spec (md : MetaData) (lW rW o : Int) (l2r : Int → ℚ) :
    ∀ (bs : List (Nat × Nat)) (r2l : Int → ℚ),
    bs.Pairwise (fun pb pb' =>
      br2lOf md pb.2 + get_problem_type_r2l_bulk_size (get_problem_type pb.1) ≤
        br2lOf md pb'.2 ∨
      br2lOf md pb'.2 + get_problem_type_r2l_bulk_size (get_problem_type pb'.1) ≤
        br2lOf md pb.2) →
    (∀ x, (∀ pb ∈ bs, ¬ ivR2l md rW o pb x) →
      (bs.foldl (fun r2l pb => rootBlockWrite md lW rW o l2r pb r2l) r2l) x = r2l x) ∧
    (∀ pb ∈ bs, rootBlock md lW rW o l2r
      (bs.foldl (fun r2l pb => rootBlockWrite md lW rW o l2r pb r2l) r2l) pb) := by
  intro bs
  induction bs with
  | nil =>
      intro r2l _
      exact ⟨fun x _ => rfl, fun pb h => absurd h (List.not_mem_nil pb)⟩
  | cons pb rest ih =>
      intro r2l hpw
      have hev := rootBlockWrite_eval md lW rW o l2r pb r2l
      have ihres := ih (rootBlockWrite md lW rW o l2r pb r2l)
        (List.Pairwise.sublist (List.sublist_cons_self pb rest) hpw)
      have hpwhead : ∀ pb2 ∈ rest, _ :=
        fun pb2 h2 => List.rel_of_pairwise_cons hpw h2
      rw [List.foldl_cons]
      constructor
      · intro x hx
        rw [ihres.1 x (fun pb2 h => hx pb2 (List.mem_cons_of_mem pb h))]
        exact hev.1 x (hx pb (List.mem_cons_self pb rest))
      · intro pb1 hpb1
        rcases List.mem_cons.mp hpb1 with rfl | hmem
        · have hbsz1 : 1 ≤ get_problem_type_r2l_bulk_size (get_problem_type pb1.1) := by
            rcases bsz_r2l_cases (get_problem_type pb1.1) with ⟨_, hb⟩ | ⟨_, hb⟩ <;> omega
          have hsur : ∀ δ : Int, 0 ≤ δ →
              δ < (get_problem_type_r2l_bulk_size (get_problem_type pb1.1) : Int) →
              (rest.foldl (fun r2l pb => rootBlockWrite md lW rW o l2r pb r2l)
                (rootBlockWrite md lW rW o l2r pb1 r2l))
                  (o * rW + br2lOf md pb1.2 + δ) =
              (rootBlockWrite md lW rW o l2r pb1 r2l)
                  (o * rW + br2lOf md pb1.2 + δ) := by
            intro δ h0 hδ
            apply ihres.1
            intro pb2 h2
            apply ivR2l_disjoint (hpwhead pb2 h2)
            unfold ivR2l
            constructor <;> linarith
          have hev2 := hev.2
          unfold rootBlock at hev2 ⊢
          obtain ⟨e0, e1⟩ := hev2
          constructor
          · have hs0 := hsur 0 le_rfl (by exact_mod_cast hbsz1)
            simp only [add_zero] at hs0
            rw [hs0, e0]
          · intro hsp
            have hb3 : get_problem_type_r2l_bulk_size (get_problem_type pb1.1) = 3 := by
              rcases bsz_r2l_cases (get_problem_type pb1.1) with ⟨h, _⟩ | ⟨_, hb⟩
              · exact absurd hsp h
              · exact hb
            have hs1 := hsur 1 (by norm_num) (by rw [hb3]; norm_num)
            have hs2 := hsur 2 (by norm_num) (by rw [hb3]; norm_num)
            exact ⟨by rw [hs1, (e1 hsp).1], by rw [hs2, (e1 hsp).2]⟩
        · exact ihres.2 pb1 hmem

theorem rootFixup_spec (md : MetaData) (ns : NS) (l2r r2l : Int → ℚ)
    (hlay : (blockList md).Pairwise (fun pb pb' =>
      br2lOf md pb.2 + get_problem_type_r2l_bulk_size (get_problem_type pb.1) ≤
        br2lOf md pb'.2 ∨
      br2lOf md pb'.2 + get_problem_type_r2l_bulk_size (get_problem_type pb'.1) ≤
        br2lOf md pb.2)) :
    (¬ rootCond ns → rootFixup md ns l2r r2l = r2l) ∧
    (rootCond ns → ∀ pb ∈ blockList md,
      rootBlock md (l2rndps md) (r2lndps md)
        (nodeAt ns ((ns.levels.getLastD default).nodes.getD 0 0)).offset
        l2r (rootFixup md ns l2r r2l) pb) := by
  constructor
  · intro hnc
    unfold rootCond at hnc
    unfold rootFixup
    rw [if_neg hnc]
  · intro hc pb hpb
    unfold rootCond at hc
    unfold rootFixup
    rw [if_pos hc]
    have heq : (List.range nprobtypes).foldl (fun r2l pti =>
        (List.range' (md.prob2trcrptr.getD pti 0)
          (md.prob2trcrptr.getD (pti+1) 0 - md.prob2trcrptr.getD pti 0)).foldl
          (fun r2l bi => rootBlockWrite md (l2rndps md) (r2lndps md)
            (nodeAt ns ((ns.levels.getLastD default).nodes.getD 0 0)).offset
            l2r (pti, bi) r2l) r2l) r2l =
        (blockList md).foldl (fun r2l pb => rootBlockWrite md (l2rndps md)
          (r2lndps md)
          (nodeAt ns ((ns.levels.getLastD default).nodes.getD 0 0)).offset
          l2r pb r2l) r2l := by
      unfold blockList
      rw [foldl_flatMap]
      congr 1
      funext acc pti
      rw [List.foldl_map]
    rw [heq]
    exact (rootBlockFold_spec md (l2rndps md) (r2lndps md) _ l2r
      (blockList md) r2l hlay).2 pb hpb

end CedrQlt
namespace CedrQlt

theorem exc_bind_ok {ε α β : Type} (a : α) (f : α → Except ε β) :
    (Except.ok a >>= f : Except ε β) = f a := rfl

theorem exc_bind_err {ε α β : Type} (e : ε) (f : α → Except ε β) :
    ((Except.error e : Except ε α) >>= f : Except ε β) = .error e := rfl

theorem get_problem_type_idx_err (m : Nat) :
    get_problem_type_idx m = .error () ↔ ¬ acceptedMask m := by
  unfold get_problem_type_idx acceptedMask
  split_ifs with h1 h2 h3 h4 <;> simp_all <;> tauto

/-- C8: `declare_tracer(mask)` fails if and only if the mask is not one of
the accepted combinations `{s, st, cs, cst, t, ct}` of the flags
`shapepreserve = 1`, `conserve = 2`, `consistent = 4`, or
`end_tracer_declarations` has already been called (`mdb = none`); on success
it appends exactly one entry to the tracer-to-problem map and changes
nothing else. -/
theorem claim_c8_declare_tracer (mdb : Option (List Nat)) (m : Nat) :
    ((∃ e, declare_tracer mdb m = .error e) ↔ (¬ acceptedMask m ∨ mdb = none)) ∧
    (∀ l r, declare_tracer (some l) m = .ok r → ∃ c, r = some (l ++ [c])) := by
  constructor
  · cases mdb with
    | none => simp [declare_tracer]
    | some l =>
        cases hidx : get_problem_type_idx m with
        | error e =>
            cases e
            simp only [declare_tracer, hidx, exc_bind_err]
            simp
            exact (get_problem_type_idx_err m).mp hidx
        | ok i =>
            simp only [declare_tracer, hidx, exc_bind_ok]
            simp
            by_contra hacc
            have : get_problem_type_idx m = .error () :=
              (get_problem_type_idx_err m).mpr hacc
            rw [hidx] at this; cases this
  · intro l r h
    cases hidx : get_problem_type_idx m with
    | error e => simp only [declare_tracer, hidx, exc_bind_err] at h; cases h
    | ok i =>
        simp only [declare_tracer, hidx, exc_bind_ok] at h
        simp at h
        exact ⟨get_problem_type i, h.symm⟩

theorem initTree_counter (t : Tree) :
    ∀ (c : Int) (it : ITree) (c' : Int) (d : Nat),
      initTree t c = .ok (it, c', d) → c' = c + t.ninterior := by
  induction t with
  | leaf r cid =>
      intro c it c' d h
      unfold initTree at h
      split_ifs at h with h1
      simp at h
      simp [Tree.ninterior, h.2.1.symm]
  | node k0 k1 ih0 ih1 =>
      intro c it c' d h
      unfold initTree at h
      cases h0 : initTree k0 c with
      | error e => rw [h0] at h; rw [exc_bind_err] at h; cases h
      | ok v0 =>
          obtain ⟨i0, c0, d0⟩ := v0
          rw [h0, exc_bind_ok] at h
          simp only at h
          cases h1 : initTree k1 c0 with
          | error e => rw [h1, exc_bind_err] at h; cases h
          | ok v1 =>
              obtain ⟨i1, c1, d1⟩ := v1
              rw [h1, exc_bind_ok] at h
              simp only [Except.ok.injEq, Prod.mk.injEq] at h
              have e0 := ih0 c i0 c0 d0 h0
              have e1 := ih1 c0 i1 c1 d1 h1
              simp [Tree.ninterior]
              omega

theorem initTree_err (t : Tree) :
    ∀ (c : Int), (∃ p ∈ t.leafData, p.2 < 0 ∨ c + t.ninterior ≤ p.2) →
      initTree t c = .error () := by
  induction t with
  | leaf r cid =>
      intro c h
      obtain ⟨p, hp, hbad⟩ := h
      simp [Tree.leafData] at hp
      subst hp
      simp [Tree.ninterior] at hbad
      unfold initTree
      have : cid < 0 ∨ c ≤ cid := by omega
      simp [this]
  | node k0 k1 ih0 ih1 =>
      intro c h
      obtain ⟨p, hp, hbad⟩ := h
      simp [Tree.leafData] at hp
      simp [Tree.ninterior] at hbad
      rcases hp with hp0 | hp1
      · have h0 : initTree k0 c = .error () := by
          apply ih0
          exact ⟨p, hp0, by omega⟩
        unfold initTree
        rw [h0, exc_bind_err]
      · cases h0 : initTree k0 c with
        | error e => cases e; unfold initTree; rw [h0, exc_bind_err]
        | ok v0 =>
            obtain ⟨i0, c0, d0⟩ := v0
            have e0 := initTree_counter k0 c i0 c0 d0 h0
            have h1 : initTree k1 c0 = .error () := by
              apply ih1
              exact ⟨p, hp1, by omega⟩
            unfold initTree
            rw [h0, exc_bind_ok]
            simp only
            rw [h1, exc_bind_err]

/-- C6, counterexample: `t6ex` contains a leaf with cellidx 3 outside
`[0, ncells) = [0, 3)`, yet `analyze 0 3 t6ex` returns a NodeSets instead of
throwing, because `init_tree` checks each leaf against the running interior
counter rather than against `ncells`. -/
theorem claim_c6_counterexample :
    (∃ p ∈ t6ex.leafData, p.2 < 0 ∨ 3 ≤ p.2) ∧ (analyze 0 3 t6ex).isOk = true := by
  constructor
  · exact ⟨(0, 3), by decide, by decide⟩
  · decide

/-- C6, amended: `init_tree` checks each leaf cellidx against the running
interior-id counter seeded with `ncells`, so `analyze` is guaranteed to
throw only when some leaf has cellidx below 0 or at least
`ncells + (number of interior nodes)`; a leaf cellidx in
`[ncells, ncells + #interior)` can escape the check. -/
theorem claim_c6_amended (my ncells : Int) (t : Tree)
    (h : ∃ p ∈ t.leafData, p.2 < 0 ∨ ncells + t.ninterior ≤ p.2) :
    analyze my ncells t = .error () := by
  have herr := initTree_err t ncells h
  unfold analyze
  rw [herr, exc_bind_err]

/-- C10: for every accepted mask `m`, the canonical problem type stored by
`declare_tracer` and returned by `get_problem_type` equals
`m ||| consistent`; in particular declaring the non-canonical mask
`shapepreserve` alone stores `shapepreserve ||| consistent`, which differs
from the declared mask. -/
theorem claim_c10_canonical_type :
    (∀ m i, get_problem_type_idx m = .ok i →
      get_problem_type i = m ||| PTconsistent) ∧
    (get_problem_type_idx PTshapepreserve = .ok 0 ∧
     get_problem_type 0 = PTshapepreserve ||| PTconsistent ∧
     get_problem_type 0 ≠ PTshapepreserve) := by
  refine ⟨?_, by decide, by decide, by decide⟩
  intro m i h
  unfold get_problem_type_idx at h
  split_ifs at h with h1 h2 h3 h4 <;>
    simp only [Except.ok.injEq] at h <;> subst h
  · rcases h1 with rfl | rfl <;> decide
  · rcases h2 with rfl | rfl <;> decide
  · subst h3; decide
  · subst h4; decide

/-- C1: `BfbTreeAllReducer::allreduce` as implemented writes nothing into
`recv`: with a one-leaf tree, one field, `send = [1]` and `recv`
zero-initialized, `recv` still holds 0 after the call instead of the field
sum 1 required by the claim. -/
theorem claim_c1_allreduce_stub :
    BfbTreeAllReducer.allreduce bfbEx [(1:ℚ)] [0] = [0] ∧ ((0:ℚ) ≠ 1) :=
  ⟨rfl, by norm_num⟩

end CedrQlt

namespace CedrQlt

/-- C2: during the L2R sweep, for every owned node of the level with two
kids, slot 0 of the node's record is set to the sum of the kids' slot-0
values (kid 0 first), and every tracer block of canonical type `t` at
displacement `bdi` is combined as: `me[0]` = sum if `t` is shapepreserve
else min, `me[1]` = sum, `me[2]` = sum if shapepreserve else max, and
`me[3]` = sum when the L2R bulk size is 4 — all sums evaluating kid 0 then
kid 1 (see `combinedBlock`).  The hypotheses state that the block layout is
well formed and that node records in the level do not alias. -/
theorem claim_c2_l2r_combine (md : MetaData) (nodes : List NSNode)
    (lvlNodes : List Nat) (l2r : Int → ℚ) (hlay : l2rLayoutOk md)
    (hdist : lvlNodes.Pairwise (fun j j' =>
      (nodes.getD j default).offset ≠ (nodes.getD j' default).offset))
    (hkid : ∀ j ∈ lvlNodes, ∀ j' ∈ lvlNodes, ∀ k ∈ (nodes.getD j' default).kids,
      (nodes.getD k default).offset ≠ (nodes.getD j default).offset) :
    ∀ j ∈ lvlNodes, ∀ k0 k1, (nodes.getD j default).kids = [k0, k1] →
      l2rCombineLevel md nodes lvlNodes l2r
          ((nodes.getD j default).offset * (l2rndps md)) =
        l2r ((nodes.getD k0 default).offset * (l2rndps md)) +
        l2r ((nodes.getD k1 default).offset * (l2rndps md)) ∧
      ∀ pb ∈ blockList md,
        combinedBlock md (l2rndps md) (nodes.getD j default).offset
          (nodes.getD k0 default).offset (nodes.getD k1 default).offset
          l2r (l2rCombineLevel md nodes lvlNodes l2r) pb :=
  fun j hj k0 k1 hk =>
    (l2rCombineLevel_spec md nodes hlay lvlNodes l2r hdist hkid).2 j hj k0 k1 hk

/-- Witness for C2 at a concrete input: one tracer of each canonical type,
a parent at offset 2 with kid offsets 0 and 1, and buffer `l2rEx`. -/
theorem claim_c2_witness :
    l2rLayoutOk mdEx ∧
    (∀ j ∈ [2], ∀ k0 k1, (nodesEx.getD j default).kids = [k0, k1] →
      l2rCombineLevel mdEx nodesEx [2] l2rEx
          ((nodesEx.getD j default).offset * (l2rndps mdEx)) =
        l2rEx ((nodesEx.getD k0 default).offset * (l2rndps mdEx)) +
        l2rEx ((nodesEx.getD k1 default).offset * (l2rndps mdEx)) ∧
      ∀ pb ∈ blockList mdEx,
        combinedBlock mdEx (l2rndps mdEx) (nodesEx.getD j default).offset
          (nodesEx.getD k0 default).offset (nodesEx.getD k1 default).offset
          l2rEx (l2rCombineLevel mdEx nodesEx [2] l2rEx) pb) :=
  ⟨by decide,
   claim_c2_l2r_combine mdEx nodesEx [2] l2rEx (by decide) (by decide)
     (by decide)⟩

/-- C3: the Runner initializes the root's R2L record exactly when the last
level holds one node with no parent: for each tracer block,
`r2l[bdi] = l2r[bdi + (conserve ? 3 : 1)]`, and for non-shapepreserving
types the L2R min and max (displacements 0 and 2) are copied to R2L
displacements 1 and 2 (see `rootBlock`); when the condition fails (the rank
does not own the global root) no R2L slot is written. -/
theorem claim_c3_root_fixup (md : MetaData) (ns : NS) (l2r r2l : Int → ℚ)
    (hlay : r2lLayoutOk md) :
    (rootCond ns → ∀ pb ∈ blockList md,
      rootBlock md (l2rndps md) (r2lndps md)
        (nodeAt ns ((ns.levels.getLastD default).nodes.getD 0 0)).offset
        l2r (rootFixup md ns l2r r2l) pb) ∧
    (¬ rootCond ns → rootFixup md ns l2r r2l = r2l) := by
  have h := rootFixup_spec md ns l2r r2l hlay.2
  exact ⟨h.2, h.1⟩

/-- Witness for C3 at a concrete input: the single-root NodeSets
`nsRootEx` (condition holds) with one tracer of each canonical type. -/
theorem claim_c3_witness :
    r2lLayoutOk mdEx ∧
    ((rootCond nsRootEx → ∀ pb ∈ blockList mdEx,
      rootBlock mdEx (l2rndps mdEx) (r2lndps mdEx)
        (nodeAt nsRootEx ((nsRootEx.levels.getLastD default).nodes.getD 0 0)).offset
        l2rEx (rootFixup mdEx nsRootEx l2rEx r2lEx) pb) ∧
    (¬ rootCond nsRootEx → rootFixup mdEx nsRootEx l2rEx r2lEx = r2lEx)) :=
  ⟨by decide, claim_c3_root_fixup mdEx nsRootEx l2rEx r2lEx (by decide)⟩

/-- Witness for C6 amended: a single-leaf tree with cellidx 5 and
`ncells = 3`; the leaf violates the running-counter bound, and `analyze`
throws. -/
theorem claim_c6_witness :
    (∃ p ∈ (Tree.leaf 0 5).leafData,
      p.2 < 0 ∨ (3:Int) + (Tree.leaf 0 5).ninterior ≤ p.2) ∧
    analyze 0 3 (Tree.leaf 0 5) = .error () :=
  ⟨⟨(0, 5), by decide, by decide⟩,
   claim_c6_amended 0 3 (Tree.leaf 0 5) ⟨(0, 5), by decide, by decide⟩⟩

/-- Witness for C8: the mask `conserve` alone (2) is rejected, and a
successful declaration of `cst` appends exactly its canonical type. -/
theorem claim_c8_witness :
    ((∃ e, declare_tracer (some ([] : List Nat)) 2 = .error e) ↔
      (¬ acceptedMask 2 ∨ (some ([] : List Nat)) = none)) ∧
    (∃ c, (some ([CPTcst] : List Nat)) = some ([] ++ [c])) :=
  ⟨(claim_c8_declare_tracer (some []) 2).1,
   (claim_c8_declare_tracer (some []) 7).2 [] (some [CPTcst]) (by decide)⟩

/-- Witness for C10: the mask `shapepreserve` (1) canonicalizes to index 0
whose stored type is `1 ||| 4 = 5`. -/
theorem claim_c10_witness :
    get_problem_type_idx 1 = .ok 0 ∧
    get_problem_type 0 = 1 ||| PTconsistent :=
  ⟨by decide, claim_c10_canonical_type.1 1 0 (by decide)⟩

end CedrQlt
namespace CedrQlt

theorem getD_append_lt {l : List NSNode} {a d : NSNode} {j : Nat}
    (h : j < l.length) : (l ++ [a]).getD j d = l.getD j d := by
  simp [List.getD_eq_getElem?_getD, List.getElem?_append_left h]

theorem getD_append_len {l : List NSNode} {a d : NSNode} :
    (l ++ [a]).getD l.length d = a := by
  simp [List.getD_eq_getElem?_getD]

theorem getD_set_self {l : List NSNode} {a d : NSNode} {j : Nat}
    (h : j < l.length) : (l.set j a).getD j d = a := by
  simp [List.getD_eq_getElem?_getD, List.getElem?_set_self h]

theorem getD_set_ne {l : List NSNode} {a d : NSNode} {i j : Nat}
    (h : i ≠ j) : (l.set i a).getD j d = l.getD j d := by
  simp [List.getD_eq_getElem?_getD, List.getElem?_set_ne h]

theorem getD_lvl_append_lt {l : List Level} {a d : Level} {j : Nat}
    (h : j < l.length) : (l ++ [a]).getD j d = l.getD j d := by
  simp [List.getD_eq_getElem?_getD, List.getElem?_append_left h]

theorem getD_lvl_set_self {l : List Level} {a d : Level} {j : Nat}
    (h : j < l.length) : (l.set j a).getD j d = a := by
  simp [List.getD_eq_getElem?_getD, List.getElem?_set_self h]

theorem getD_lvl_set_ne {l : List Level} {a d : Level} {i j : Nat}
    (h : i ≠ j) : (l.set i a).getD j d = l.getD j d := by
  simp [List.getD_eq_getElem?_getD, List.getElem?_set_ne h]

theorem flatten_set_append {L : List (List Nat)} {i : Nat} {j : Nat}
    (hi : i < L.length) :
    ((L.set i ((L.getD i []) ++ [j])).flatten).Perm (L.flatten ++ [j]) := by
  induction L generalizing i with
  | nil => simp at hi
  | cons hd tl ih =>
      cases i with
      | zero =>
          simp only [List.set_cons_zero, List.getD_cons_zero, List.flatten_cons]
          have h1 : (hd ++ [j]) ++ tl.flatten = hd ++ ([j] ++ tl.flatten) := by
            rw [List.append_assoc]
          have h2 : List.Perm (hd ++ ([j] ++ tl.flatten))
              (hd ++ (tl.flatten ++ [j])) :=
            List.Perm.append_left hd List.perm_append_comm
          have h3 : hd ++ (tl.flatten ++ [j]) = (hd ++ tl.flatten) ++ [j] := by
            rw [List.append_assoc]
          rw [h1, ← h3]
          exact h2
      | succ i =>
          simp only [List.set_cons_succ, List.getD_cons_succ, List.flatten_cons]
          have hp := @ih i (by simpa using hi)
          have h2 : List.Perm (hd ++ (tl.set i ((tl.getD i []) ++ [j])).flatten)
              (hd ++ (tl.flatten ++ [j])) :=
            List.Perm.append_left hd hp
          have h3 : hd ++ (tl.flatten ++ [j]) = (hd ++ tl.flatten) ++ [j] := by
            rw [List.append_assoc]
          rw [← h3]
          exact h2

end CedrQlt
namespace CedrQlt

theorem perm_flatMap {l1 l2 : List Nat} (f : Nat → List Nat) (h : l1.Perm l2) :
    (l1.flatMap f).Perm (l2.flatMap f) := by
  rw [List.flatMap_def, List.flatMap_def]
  exact (h.map f).flatten

-- NS operation lemmas
theorem alloc_idx (ns : NS) (r id : Int) : (ns.alloc r id).2 = ns.nodes.length := rfl

theorem alloc_nodes_len (ns : NS) (r id : Int) :
    (ns.alloc r id).1.nodes.length = ns.nodes.length + 1 := by
  unfold NS.alloc; simp

theorem alloc_levels (ns : NS) (r id : Int) :
    (ns.alloc r id).1.levels = ns.levels := rfl

theorem nodeAt_alloc_lt (ns : NS) (r id : Int) {j : Nat}
    (h : j < ns.nodes.length) : nodeAt (ns.alloc r id).1 j = nodeAt ns j := by
  unfold nodeAt NS.alloc
  exact getD_append_lt h

theorem nodeAt_alloc_self (ns : NS) (r id : Int) :
    nodeAt (ns.alloc r id).1 ns.nodes.length = { rank := r, id := id } := by
  unfold nodeAt NS.alloc
  exact getD_append_len

theorem setParent_levels (ns : NS) (j p : Nat) :
    (ns.setParent j p).levels = ns.levels := rfl

theorem setParent_len (ns : NS) (j p : Nat) :
    (ns.setParent j p).nodes.length = ns.nodes.length := by
  unfold NS.setParent; simp

theorem nodeAt_setParent_ne (ns : NS) (j p : Nat) {i : Nat} (h : i ≠ j) :
    nodeAt (ns.setParent j p) i = nodeAt ns i := by
  unfold nodeAt NS.setParent
  exact getD_set_ne (fun hc => h hc.symm)

theorem nodeAt_setParent_self (ns : NS) (j p : Nat) (h : j < ns.nodes.length) :
    nodeAt (ns.setParent j p) j = { nodeAt ns j with parent := some p } := by
  unfold nodeAt NS.setParent
  exact getD_set_self h

theorem setKids_levels (ns : NS) (j : Nat) (ks : List Nat) :
    (ns.setKids j ks).levels = ns.levels := rfl

theorem setKids_len (ns : NS) (j : Nat) (ks : List Nat) :
    (ns.setKids j ks).nodes.length = ns.nodes.length := by
  unfold NS.setKids; simp

theorem nodeAt_setKids_ne (ns : NS) (j : Nat) (ks : List Nat) {i : Nat}
    (h : i ≠ j) : nodeAt (ns.setKids j ks) i = nodeAt ns i := by
  unfold nodeAt NS.setKids
  exact getD_set_ne (fun hc => h hc.symm)

theorem nodeAt_setKids_self (ns : NS) (j : Nat) (ks : List Nat)
    (h : j < ns.nodes.length) :
    nodeAt (ns.setKids j ks) j = { nodeAt ns j with kids := ks } := by
  unfold nodeAt NS.setKids
  exact getD_set_self h

theorem pushLevelNode_nodes (ns : NS) (lvl j : Nat) :
    (ns.pushLevelNode lvl j).nodes = ns.nodes := rfl

theorem pushLevelNode_levels_len (ns : NS) (lvl j : Nat) :
    (ns.pushLevelNode lvl j).levels.length = ns.levels.length := by
  unfold NS.pushLevelNode; simp

theorem pushLevelNode_getD_ne (ns : NS) (lvl j : Nat) {i : Nat} (h : i ≠ lvl) :
    (ns.pushLevelNode lvl j).levels.getD i default = ns.levels.getD i default := by
  unfold NS.pushLevelNode
  exact getD_lvl_set_ne (fun hc => h hc.symm)

theorem pushLevelNode_getD_self (ns : NS) (lvl j : Nat)
    (h : lvl < ns.levels.length) :
    (ns.pushLevelNode lvl j).levels.getD lvl default =
      { ns.levels.getD lvl default with
        nodes := (ns.levels.getD lvl default).nodes ++ [j] } := by
  unfold NS.pushLevelNode
  exact getD_lvl_set_self h

theorem levelNodes_levels_eq {ns ns' : NS} (h : ns'.levels = ns.levels) :
    levelNodes ns' = levelNodes ns := by
  unfold levelNodes; rw [h]

theorem levelNodes_pushLevelNode (ns : NS) (lvl j : Nat)
    (h : lvl < ns.levels.length) :
    (levelNodes (ns.pushLevelNode lvl j)).Perm (levelNodes ns ++ [j]) := by
  unfold levelNodes NS.pushLevelNode
  simp only [List.map_set]
  have hmap : ((ns.levels.map Level.nodes).set lvl
      (Level.nodes { ns.levels.getD lvl default with
        nodes := (ns.levels.getD lvl default).nodes ++ [j] })) =
      ((ns.levels.map Level.nodes).set lvl
        (((ns.levels.map Level.nodes).getD lvl []) ++ [j])) := by
    congr 1
    simp [List.getD_eq_getElem?_getD, List.getElem?_map]
    cases hx : ns.levels[lvl]? with
    | none =>
        exfalso
        rw [List.getElem?_eq_none_iff] at hx
        omega
    | some lv => simp [hx]
  rw [hmap]
  exact flatten_set_append (by simpa using h)

theorem ownedKids_congr {ns ns' : NS} (hl : levelNodes ns' = levelNodes ns)
    (hk : ∀ j ∈ levelNodes ns, (nodeAt ns' j).kids = (nodeAt ns j).kids) :
    ownedKidsOf ns' = ownedKidsOf ns := by
  unfold ownedKidsOf
  rw [hl]
  exact List.flatMap_congr hk

end CedrQlt

namespace CedrQlt

/-- C7: the communication-pattern round trip does not complete on every
valid tree: on `t7ex` (five leaves with unique cell indices in `[0, 5)`,
ranks 0 and 1), rank 1 coalesces its two leaf slots into a single size-2
message to rank 0, while rank 0 posts two separate size-1 receive windows
from rank 1 at different levels; the first posted window is overrun, so the
up sweep of the tree-sum pattern aborts with an MPI truncation error
instead of leaving the sum 0+1+2+3+4 in the root slot. -/
theorem claim_c7_comm_pattern :
    (ns7r1.levels.map (fun l => l.me.map MMD.size)) = [[2]] ∧
    (ns7r0.levels.map (fun l => l.kids.map MMD.size)) = [[], [1], [1], []] ∧
    (runUpSweep 2 (mkWorld 2 5 t7ex)).toOption.isNone = true := by
  have h1 : (mkWorld 2 5 t7ex).ranks = w7ex.ranks := by decide
  have h2 : mkWorld 2 5 t7ex = ⟨(mkWorld 2 5 t7ex).ranks, w7ex.queues⟩ := rfl
  have h3 : mkWorld 2 5 t7ex = w7ex := by rw [h2, h1]
  refine ⟨by decide, by decide, ?_⟩
  rw [h3]
  decide

end CedrQlt
namespace CedrQlt

-- Field-level preservation facts of the arena operations (all indices)
theorem rank_setParent (ns : NS) (a b c : Nat) :
    (nodeAt (ns.setParent a b) c).rank = (nodeAt ns c).rank := by
  unfold nodeAt NS.setParent
  simp only [List.getD_eq_getElem?_getD, List.getElem?_set]
  by_cases h : a = c
  · subst h
    by_cases hl : a < ns.nodes.length
    · simp [hl, List.getElem?_eq_getElem hl]
    · simp [hl, List.getElem?_eq_none (Nat.le_of_not_lt hl)]
  · simp [h]

theorem id_setParent (ns : NS) (a b c : Nat) :
    (nodeAt (ns.setParent a b) c).id = (nodeAt ns c).id := by
  unfold nodeAt NS.setParent
  simp only [List.getD_eq_getElem?_getD, List.getElem?_set]
  by_cases h : a = c
  · subst h
    by_cases hl : a < ns.nodes.length
    · simp [hl, List.getElem?_eq_getElem hl]
    · simp [hl, List.getElem?_eq_none (Nat.le_of_not_lt hl)]
  · simp [h]

theorem kids_setParent (ns : NS) (a b c : Nat) :
    (nodeAt (ns.setParent a b) c).kids = (nodeAt ns c).kids := by
  unfold nodeAt NS.setParent
  simp only [List.getD_eq_getElem?_getD, List.getElem?_set]
  by_cases h : a = c
  · subst h
    by_cases hl : a < ns.nodes.length
    · simp [hl, List.getElem?_eq_getElem hl]
    · simp [hl, List.getElem?_eq_none (Nat.le_of_not_lt hl)]
  · simp [h]

theorem offset_setParent (ns : NS) (a b c : Nat) :
    (nodeAt (ns.setParent a b) c).offset = (nodeAt ns c).offset := by
  unfold nodeAt NS.setParent
  simp only [List.getD_eq_getElem?_getD, List.getElem?_set]
  by_cases h : a = c
  · subst h
    by_cases hl : a < ns.nodes.length
    · simp [hl, List.getElem?_eq_getElem hl]
    · simp [hl, List.getElem?_eq_none (Nat.le_of_not_lt hl)]
  · simp [h]

theorem rank_setKids (ns : NS) (a : Nat) (ks : List Nat) (c : Nat) :
    (nodeAt (ns.setKids a ks) c).rank = (nodeAt ns c).rank := by
  unfold nodeAt NS.setKids
  simp only [List.getD_eq_getElem?_getD, List.getElem?_set]
  by_cases h : a = c
  · subst h
    by_cases hl : a < ns.nodes.length
    · simp [hl, List.getElem?_eq_getElem hl]
    · simp [hl, List.getElem?_eq_none (Nat.le_of_not_lt hl)]
  · simp [h]

theorem id_setKids (ns : NS) (a : Nat) (ks : List Nat) (c : Nat) :
    (nodeAt (ns.setKids a ks) c).id = (nodeAt ns c).id := by
  unfold nodeAt NS.setKids
  simp only [List.getD_eq_getElem?_getD, List.getElem?_set]
  by_cases h : a = c
  · subst h
    by_cases hl : a < ns.nodes.length
    · simp [hl, List.getElem?_eq_getElem hl]
    · simp [hl, List.getElem?_eq_none (Nat.le_of_not_lt hl)]
  · simp [h]

theorem offset_setKids (ns : NS) (a : Nat) (ks : List Nat) (c : Nat) :
    (nodeAt (ns.setKids a ks) c).offset = (nodeAt ns c).offset := by
  unfold nodeAt NS.setKids
  simp only [List.getD_eq_getElem?_getD, List.getElem?_set]
  by_cases h : a = c
  · subst h
    by_cases hl : a < ns.nodes.length
    · simp [hl, List.getElem?_eq_getElem hl]
    · simp [hl, List.getElem?_eq_none (Nat.le_of_not_lt hl)]
  · simp [h]

theorem offset_alloc (ns : NS) (r id : Int) (c : Nat) :
    (nodeAt (ns.alloc r id).1 c).offset = (nodeAt ns c).offset := by
  rcases Nat.lt_trichotomy c ns.nodes.length with h | h | h
  · rw [nodeAt_alloc_lt _ _ _ h]
  · subst h
    rw [nodeAt_alloc_self]
    unfold nodeAt
    rw [List.getD_eq_default _ _ (le_refl _)]
    rfl
  · have h1 : ns.nodes.length + 1 ≤ c := h
    unfold nodeAt NS.alloc
    rw [List.getD_eq_default, List.getD_eq_default]
    · omega
    · simpa using h1

end CedrQlt
namespace CedrQlt

theorem getD_map_nodes (L : List Level) (q : Nat) :
    (L.map Level.nodes).getD q [] = (L.getD q default).nodes := by
  simp only [List.getD_eq_getElem?_getD, List.getElem?_map]
  cases h : L[q]? with
  | none => simp; rfl
  | some lv => simp

theorem mem_take_flatten_iff {L : List Level} {q k : Nat} :
    k ∈ ((L.take q).map Level.nodes).flatten ↔
      ∃ p, p < q ∧ p < L.length ∧ k ∈ (L.getD p default).nodes := by
  induction L generalizing q with
  | nil =>
      simp
  | cons x xs ih =>
      cases q with
      | zero => simp
      | succ q' =>
          simp only [List.take_succ_cons, List.map_cons, List.flatten_cons,
            List.mem_append, ih]
          constructor
          · rintro (hx | ⟨p, hp1, hp2, hp3⟩)
            · exact ⟨0, Nat.succ_pos _, Nat.succ_pos _, hx⟩
            · exact ⟨p + 1, by omega, by simp; omega, hp3⟩
          · rintro ⟨p, hp1, hp2, hp3⟩
            cases p with
            | zero => exact Or.inl hp3
            | succ p' =>
                refine Or.inr ⟨p', by omega, by simp at hp2; omega, hp3⟩

theorem mem_levelNodes_iff {ns : NS} {k : Nat} :
    k ∈ levelNodes ns ↔
      ∃ p, p < ns.levels.length ∧ k ∈ (ns.levels.getD p default).nodes := by
  have h := @mem_take_flatten_iff ns.levels ns.levels.length k
  rw [List.take_length] at h
  unfold levelNodes
  rw [h]
  constructor
  · rintro ⟨p, _, hp2, hp3⟩
    exact ⟨p, hp2, hp3⟩
  · rintro ⟨p, hp2, hp3⟩
    exact ⟨p, hp2, hp2, hp3⟩

theorem flatten_getD_app_perm (P : Nat → Prop) :
    ∀ (L L' : List (List Nat)), L'.length = L.length →
    (∀ q, q < L.length → ∃ fr, L'.getD q [] = L.getD q [] ++ fr ∧
      ∀ j ∈ fr, P j) →
    ∃ fr, (L'.flatten).Perm (L.flatten ++ fr) ∧ ∀ j ∈ fr, P j := by
  intro L
  induction L with
  | nil =>
      intro L' hlen _
      rw [List.length_nil, List.length_eq_zero] at hlen
      subst hlen
      exact ⟨[], by simp, by simp⟩
  | cons x xs ih =>
      intro L' hlen happ
      cases L' with
      | nil => simp at hlen
      | cons y ys =>
          obtain ⟨fr0, hy, hfr0⟩ := happ 0 (by simp)
          simp only [List.getD_cons_zero] at hy
          obtain ⟨fr1, hperm, hfr1⟩ := ih ys (by simpa using hlen)
            (fun q hq => by
              obtain ⟨fr, h1, h2⟩ := happ (q+1) (by simpa using Nat.succ_lt_succ hq)
              exact ⟨fr, by simpa using h1, h2⟩)
          refine ⟨fr0 ++ fr1, ?_, ?_⟩
          · have h1 : (y :: ys).flatten = (x ++ fr0) ++ ys.flatten := by
              rw [List.flatten_cons, hy]
            rw [h1]
            have h2 : ((x ++ fr0) ++ ys.flatten).Perm
                ((x ++ fr0) ++ (xs.flatten ++ fr1)) :=
              List.Perm.append_left _ hperm
            refine h2.trans ?_
            have h3 : (fr0 ++ (xs.flatten ++ fr1)).Perm
                (xs.flatten ++ (fr0 ++ fr1)) := by
              have ha : (fr0 ++ xs.flatten).Perm (xs.flatten ++ fr0) :=
                List.perm_append_comm
              have hb : ((fr0 ++ xs.flatten) ++ fr1).Perm
                  ((xs.flatten ++ fr0) ++ fr1) := ha.append_right fr1
              simpa [List.append_assoc] using hb
            have h4 : (x ++ (fr0 ++ (xs.flatten ++ fr1))).Perm
                (x ++ (xs.flatten ++ (fr0 ++ fr1))) :=
              List.Perm.append_left _ h3
            simpa [List.append_assoc] using h4
          · intro j hj
            rcases List.mem_append.mp hj with h | h
            · exact hfr0 j h
            · exact hfr1 j h

theorem ownedLeafIds_node (my r c : Int) (k0 k1 : ITree) :
    ownedLeafIds my (.node r c k0 k1) =
      ownedLeafIds my k0 ++ ownedLeafIds my k1 := by
  unfold ownedLeafIds
  rw [ITree.leafData, List.filter_append, List.map_append]

theorem initTree_height :
    ∀ (t : Tree) (id : Int) (it : ITree) (c : Int) (d : Nat),
    initTree t id = .ok (it, c, d) → d = it.height + 1 := by
  intro t
  induction t with
  | leaf r cx =>
      intro id it c d h
      rw [initTree] at h
      split at h
      · exact absurd h (by simp)
      · simp only [Except.ok.injEq, Prod.mk.injEq] at h
        obtain ⟨h1, _, h3⟩ := h
        subst h1
        subst h3
        rfl
  | node k0 k1 ih0 ih1 =>
      intro id it c d h
      rw [initTree] at h
      cases h0 : initTree k0 id with
      | error e => rw [h0, exc_bind_err] at h; simp at h
      | ok v0 =>
          obtain ⟨i0, id0, d0⟩ := v0
          rw [h0, exc_bind_ok] at h
          dsimp only at h
          cases h1 : initTree k1 id0 with
          | error e => rw [h1, exc_bind_err] at h; simp at h
          | ok v1 =>
              obtain ⟨i1, id1, d1⟩ := v1
              rw [h1, exc_bind_ok] at h
              simp only [Except.ok.injEq, Prod.mk.injEq] at h
              obtain ⟨hit, _, hd⟩ := h
              subst hit
              subst hd
              rw [ITree.height, ih0 _ _ _ _ h0, ih1 _ _ _ _ h1]
              omega

theorem initTree_wellRanked :
    ∀ (t : Tree) (id : Int) (it : ITree) (c : Int) (d : Nat),
    initTree t id = .ok (it, c, d) → it.wellRanked := by
  intro t
  induction t with
  | leaf r cx =>
      intro id it c d h
      rw [initTree] at h
      split at h
      · exact absurd h (by simp)
      · simp only [Except.ok.injEq, Prod.mk.injEq] at h
        obtain ⟨h1, _, _⟩ := h
        subst h1
        trivial
  | node k0 k1 ih0 ih1 =>
      intro id it c d h
      rw [initTree] at h
      cases h0 : initTree k0 id with
      | error e => rw [h0, exc_bind_err] at h; simp at h
      | ok v0 =>
          obtain ⟨i0, id0, d0⟩ := v0
          rw [h0, exc_bind_ok] at h
          dsimp only at h
          cases h1 : initTree k1 id0 with
          | error e => rw [h1, exc_bind_err] at h; simp at h
          | ok v1 =>
              obtain ⟨i1, id1, d1⟩ := v1
              rw [h1, exc_bind_ok] at h
              simp only [Except.ok.injEq, Prod.mk.injEq] at h
              obtain ⟨hit, _, _⟩ := h
              subst hit
              exact ⟨rfl, ih0 _ _ _ _ h0, ih1 _ _ _ _ h1⟩

theorem initTree_leafData :
    ∀ (t : Tree) (id : Int) (it : ITree) (c : Int) (d : Nat),
    initTree t id = .ok (it, c, d) → it.leafData = t.leafData := by
  intro t
  induction t with
  | leaf r cx =>
      intro id it c d h
      rw [initTree] at h
      split at h
      · exact absurd h (by simp)
      · simp only [Except.ok.injEq, Prod.mk.injEq] at h
        obtain ⟨h1, _, _⟩ := h
        subst h1
        rfl
  | node k0 k1 ih0 ih1 =>
      intro id it c d h
      rw [initTree] at h
      cases h0 : initTree k0 id with
      | error e => rw [h0, exc_bind_err] at h; simp at h
      | ok v0 =>
          obtain ⟨i0, id0, d0⟩ := v0
          rw [h0, exc_bind_ok] at h
          dsimp only at h
          cases h1 : initTree k1 id0 with
          | error e => rw [h1, exc_bind_err] at h; simp at h
          | ok v1 =>
              obtain ⟨i1, id1, d1⟩ := v1
              rw [h1, exc_bind_ok] at h
              simp only [Except.ok.injEq, Prod.mk.injEq] at h
              obtain ⟨hit, _, _⟩ := h
              subst hit
              rw [ITree.leafData, Tree.leafData, ih0 _ _ _ _ h0,
                ih1 _ _ _ _ h1]

end CedrQlt
namespace CedrQlt



theorem lsc_leaf_owned (my rank cellidx : Int) (ns : NS) (h : rank = my) :
    lsc my (.leaf rank cellidx) ns =
      (((ns.alloc rank cellidx).1).pushLevelNode 0 ns.nodes.length, 0,
        some ns.nodes.length, true) := by
  rw [lsc, if_pos h]
  rfl

theorem lsc_leaf_not (my rank cellidx : Int) (ns : NS) (h : ¬ rank = my) :
    lsc my (.leaf rank cellidx) ns = (ns, 0, none, false) := by
  rw [lsc, if_neg h]

end CedrQlt
namespace CedrQlt


theorem lsc_node_eq (my rank cellidx : Int) (k0 k1 : ITree) (ns ns1 ns2 : NS)
    (l0 l1 : Nat) (r0 r1 : Option Nat) (o0 o1 : Bool)
    (h0 : lsc my k0 ns = (ns1, l0, r0, o0))
    (h1 : lsc my k1 ns1 = (ns2, l1, r1, o1)) :
    lsc my (.node rank cellidx k0 k1) ns =
      (if rank = my then
        ((lscKid my k1 r1
            (lscKid my k0 r0
              (((ns2.alloc rank cellidx).1).pushLevelNode (max l0 l1 + 1)
                ns2.nodes.length)
              ns2.nodes.length).1
            ns2.nodes.length).1.setKids ns2.nodes.length
          [(lscKid my k0 r0
              (((ns2.alloc rank cellidx).1).pushLevelNode (max l0 l1 + 1)
                ns2.nodes.length)
              ns2.nodes.length).2,
           (lscKid my k1 r1
              (lscKid my k0 r0
                (((ns2.alloc rank cellidx).1).pushLevelNode (max l0 l1 + 1)
                  ns2.nodes.length)
                ns2.nodes.length).1
              ns2.nodes.length).2],
         max l0 l1 + 1, some ns2.nodes.length, true)
      else if o0 || o1 then
        ((((kidLinks my k0 r0 ++ kidLinks my k1 r1).foldl
            (fun (x : NS) i => x.setParent i ns2.nodes.length)
            (ns2.alloc rank cellidx).1).setKids ns2.nodes.length
          (kidLinks my k0 r0 ++ kidLinks my k1 r1)),
         max l0 l1 + 1, some ns2.nodes.length, false)
      else (ns2, max l0 l1 + 1, none, false)) := by
  rw [lsc, h0]
  dsimp only
  rw [h1]
  rfl

theorem take_flatten_sub {ns ns' : NS}
    (hlen : ns'.levels.length = ns.levels.length)
    (happ : ∀ q, ∃ fr, (ns'.levels.getD q default).nodes =
      (ns.levels.getD q default).nodes ++ fr) :
    ∀ q k, k ∈ ((ns.levels.take q).map Level.nodes).flatten →
      k ∈ ((ns'.levels.take q).map Level.nodes).flatten := by
  intro q k hk
  rw [mem_take_flatten_iff] at hk ⊢
  obtain ⟨p, hp1, hp2, hp3⟩ := hk
  refine ⟨p, hp1, by omega, ?_⟩
  obtain ⟨fr, hfr⟩ := happ p
  rw [hfr]
  exact List.mem_append_left _ hp3

theorem levelNodes_perm_of_app (P : Nat → Prop) {ns ns' : NS}
    (hlen : ns'.levels.length = ns.levels.length)
    (happ : ∀ q, q < ns.levels.length →
      ∃ fr, (ns'.levels.getD q default).nodes =
        (ns.levels.getD q default).nodes ++ fr ∧ ∀ j ∈ fr, P j) :
    ∃ fr, (levelNodes ns').Perm (levelNodes ns ++ fr) ∧ ∀ j ∈ fr, P j := by
  have h := flatten_getD_app_perm P (ns.levels.map Level.nodes)
    (ns'.levels.map Level.nodes) (by simp [hlen])
    (fun q hq => by
      obtain ⟨fr, h1, h2⟩ := happ q (by simpa using hq)
      refine ⟨fr, ?_, h2⟩
      rw [getD_map_nodes, getD_map_nodes, h1])
  exact h

theorem okids_extend {ns2 ns7 : NS} {j : Nat}
    (hperm : (levelNodes ns7).Perm (levelNodes ns2 ++ [j]))
    (hk : ∀ x ∈ levelNodes ns2, (nodeAt ns7 x).kids = (nodeAt ns2 x).kids) :
    (ownedKidsOf ns7).Perm (ownedKidsOf ns2 ++ (nodeAt ns7 j).kids) := by
  unfold ownedKidsOf
  have h1 := perm_flatMap (fun x => (nodeAt ns7 x).kids) hperm
  rw [List.flatMap_append] at h1
  have h2 : (levelNodes ns2).flatMap (fun x => (nodeAt ns7 x).kids) =
      (levelNodes ns2).flatMap (fun x => (nodeAt ns2 x).kids) :=
    List.flatMap_congr hk
  rw [h2] at h1
  have h3 : ([j].flatMap (fun x => (nodeAt ns7 x).kids)) =
      (nodeAt ns7 j).kids := by simp
  rw [h3] at h1
  exact h1

end CedrQlt
namespace CedrQlt

theorem lsc_leaf_spec_owned (my cellidx : Int) (ns : NS) (hI : LscInv my ns)
    (hh : 0 < ns.levels.length) :
    LscInv my (((ns.alloc my cellidx).1).pushLevelNode 0 ns.nodes.length) ∧
    LscPost my (.leaf my cellidx) ns
      (((ns.alloc my cellidx).1).pushLevelNode 0 ns.nodes.length) 0
      (some ns.nodes.length) true := by
  set j := ns.nodes.length with hj
  set nsA := (ns.alloc my cellidx).1 with hnsA
  set ns' := nsA.pushLevelNode 0 j with hns'
  have f1 : ns'.nodes = nsA.nodes := rfl
  have f2 : nsA.nodes.length = j + 1 := alloc_nodes_len ns my cellidx
  have f2' : ns'.nodes.length = j + 1 := by rw [f1, f2]
  have f3 : ∀ x, nodeAt ns' x = nodeAt nsA x := fun x => rfl
  have f4 : ∀ x, x < j → nodeAt ns' x = nodeAt ns x := by
    intro x hx
    rw [f3, hnsA, nodeAt_alloc_lt _ _ _ hx]
  have f5 : nodeAt ns' j = { rank := my, id := cellidx } := by
    rw [f3, hnsA, hj, nodeAt_alloc_self]
  have flvlen : ns'.levels.length = ns.levels.length := by
    rw [hns', pushLevelNode_levels_len, hnsA, alloc_levels]
  have f6ne : ∀ q, q ≠ 0 → (ns'.levels.getD q default).nodes =
      (ns.levels.getD q default).nodes := by
    intro q hq
    rw [hns', pushLevelNode_getD_ne _ _ _ hq, hnsA, alloc_levels]
  have f6eq : (ns'.levels.getD 0 default).nodes =
      (ns.levels.getD 0 default).nodes ++ [j] := by
    rw [hns', pushLevelNode_getD_self _ _ _ (by
      rw [hnsA, alloc_levels]; exact hh)]
    rw [hnsA, alloc_levels]
  have f7 : (levelNodes ns').Perm (levelNodes ns ++ [j]) := by
    have h1 := levelNodes_pushLevelNode nsA 0 j (by
      rw [hnsA, alloc_levels]; exact hh)
    rw [hns']
    have h2 : levelNodes nsA = levelNodes ns :=
      levelNodes_levels_eq (by rw [hnsA, alloc_levels])
    rw [h2] at h1
    exact h1
  have f8 : ∀ x ∈ levelNodes ns, (nodeAt ns' x).kids = (nodeAt ns x).kids := by
    intro x hx
    rw [f4 x (hI.lvl_lt x hx)]
  have fkj : (nodeAt ns' j).kids = [] := by rw [f5]
  have f9 : (ownedKidsOf ns').Perm (ownedKidsOf ns) := by
    have h1 := okids_extend f7 f8
    rw [fkj, List.append_nil] at h1
    exact h1
  have hmem' : ∀ x, x ∈ levelNodes ns' → x ∈ levelNodes ns ∨ x = j := by
    intro x hx
    have := f7.mem_iff.mp hx
    rcases List.mem_append.mp this with h | h
    · exact Or.inl h
    · exact Or.inr (List.mem_singleton.mp h)
  have happ : ∀ q, ∃ fr, (ns'.levels.getD q default).nodes =
      (ns.levels.getD q default).nodes ++ fr := by
    intro q
    by_cases hq : q = 0
    · subst hq; exact ⟨[j], f6eq⟩
    · exact ⟨[], by rw [f6ne q hq, List.append_nil]⟩
  constructor
  · refine ⟨?_, ?_, ?_, ?_, ?_, ?_, ?_⟩
    · intro x hx
      rcases hmem' x hx with h | h
      · have := hI.lvl_lt x h; omega
      · omega
    · rw [f7.nodup_iff]
      refine List.Nodup.append hI.lvl_nodup (List.nodup_singleton j) ?_
      intro x hx hx'
      have := hI.lvl_lt x hx
      have := List.mem_singleton.mp hx'
      omega
    · intro x hx
      rcases hmem' x hx with h | h
      · rw [f4 x (hI.lvl_lt x h)]; exact hI.mem_rank x h
      · subst h; rw [f5]
    · intro k hk
      have := f9.mem_iff.mp hk
      have := hI.kids_lt k this
      omega
    · exact f9.nodup_iff.mpr hI.okids_nodup
    · intro q x hx k hk hrk
      have hxns : x ∈ (ns.levels.getD q default).nodes ∨ (q = 0 ∧ x = j) := by
        by_cases hq : q = 0
        · subst hq
          rw [f6eq] at hx
          rcases List.mem_append.mp hx with h | h
          · exact Or.inl h
          · exact Or.inr ⟨rfl, List.mem_singleton.mp h⟩
        · rw [f6ne q hq] at hx; exact Or.inl hx
      rcases hxns with hxq | ⟨hq0, hxj⟩
      · have hqlt : q < ns.levels.length := by
          by_contra hc
          rw [List.getD_eq_default _ _ (le_of_not_lt hc)] at hxq
          have hdn : (default : Level).nodes = [] := rfl
          rw [hdn] at hxq
          cases hxq
        have hxlvl : x ∈ levelNodes ns := mem_levelNodes_iff.mpr ⟨q, hqlt, hxq⟩
        have hxlt : x < j := hI.lvl_lt x hxlvl
        rw [f4 x hxlt] at hk
        have hkok : k ∈ ownedKidsOf ns := by
          unfold ownedKidsOf
          exact List.mem_flatMap.mpr ⟨x, hxlvl, hk⟩
        have hklt : k < j := hI.kids_lt k hkok
        rw [f4 k hklt] at hrk
        have := hI.kid_below q x hxq k hk hrk
        exact take_flatten_sub flvlen happ q k this
      · subst hxj
        rw [fkj] at hk
        cases hk
    · intro x
      rw [f3, hnsA, offset_alloc]
      exact hI.off_neg x
  · refine ⟨by omega, f4, flvlen, ?_, ?_, ?_, ?_, ?_, ?_, rfl, ?_⟩
    · intro q
      by_cases hq : q = 0
      · subst hq
        exact ⟨[j], f6eq, by intro x hx; rw [List.mem_singleton.mp hx]⟩
      · exact ⟨[], by rw [f6ne q hq, List.append_nil], by intro x hx; cases hx⟩
    · refine ⟨[j], f6eq, ?_⟩
      rw [List.map_singleton, f5]
      simp [ownedLeafIds, ITree.leafData]
    · exact ⟨[], by rw [List.append_nil]; exact f9, by intro x hx; cases hx⟩
    · intro i hi
      have hij : i = j := by
        injection hi with h
        exact h.symm
      subst hij
      refine ⟨le_refl _, by omega, ?_, ?_, ?_⟩
      · rw [f5]; rfl
      · rw [f5]; rfl
      · intro hc
        have := f9.mem_iff.mp hc
        have := hI.kids_lt _ this
        omega
    · constructor
      · intro _; rfl
      · intro _; rfl
    · intro _
      refine ⟨j, rfl, ?_⟩
      show j ∈ (ns'.levels.getD (ITree.height (.leaf my cellidx)) default).nodes
      rw [ITree.height, f6eq]
      exact List.mem_append_right _ (List.mem_singleton.mpr rfl)
    · intro hc
      simp [ownedLeafIds, ITree.leafData] at hc

end CedrQlt
namespace CedrQlt

theorem nodeAt_alloc_ne (ns : NS) (r id : Int) {x : Nat}
    (h : x ≠ ns.nodes.length) :
    nodeAt (ns.alloc r id).1 x = nodeAt ns x := by
  rcases Nat.lt_or_ge x ns.nodes.length with hx | hx
  · exact nodeAt_alloc_lt ns r id hx
  · have hx' : ns.nodes.length + 1 ≤ x := by omega
    unfold nodeAt NS.alloc
    rw [List.getD_eq_default, List.getD_eq_default]
    · omega
    · simpa using hx'

theorem kids_alloc (ns : NS) (r id : Int) (x : Nat) :
    (nodeAt (ns.alloc r id).1 x).kids = (nodeAt ns x).kids := by
  rcases Nat.lt_trichotomy x ns.nodes.length with h | h | h
  · rw [nodeAt_alloc_lt _ _ _ h]
  · subst h
    rw [nodeAt_alloc_self]
    unfold nodeAt
    rw [List.getD_eq_default _ _ (le_refl _)]
    rfl
  · rw [nodeAt_alloc_ne _ _ _ (by omega)]

theorem ownedLeafIds_ne_of_rank (my : Int) :
    ∀ (t : ITree), t.wellRanked → t.rank = my → ownedLeafIds my t ≠ [] := by
  intro t
  induction t with
  | leaf r c =>
      intro _ hr
      simp [ownedLeafIds, ITree.leafData, ITree.rank] at hr ⊢
      exact hr
  | node r c k0 k1 ih0 ih1 =>
      intro hw hr
      obtain ⟨hwr, hw0, hw1⟩ := hw
      rw [ITree.rank] at hr
      rw [ownedLeafIds_node]
      have h0 : ownedLeafIds my k0 ≠ [] := ih0 hw0 (by rw [← hwr]; exact hr)
      intro hc
      rcases List.append_eq_nil.mp hc with ⟨h1, _⟩
      exact h0 h1

theorem lscKid_spec (my : Int) (kid : ITree) (r : Option Nat) (nsB : NS)
    (j : Nat) (nsC : NS) (i0 : Nat)
    (hc : lscKid my kid r nsB j = (nsC, i0))
    (hsome : ∀ i, r = some i → i < nsB.nodes.length ∧
      (nodeAt nsB i).rank = kid.rank ∧ (nodeAt nsB i).id = kid.cid) :
    nsC.levels = nsB.levels ∧
    (∀ x, x ≠ i0 → nodeAt nsC x = nodeAt nsB x) ∧
    ((nodeAt nsC i0).rank = kid.rank ∧ (nodeAt nsC i0).id = kid.cid) ∧
    (∀ x, (nodeAt nsC x).kids = (nodeAt nsB x).kids) ∧
    (∀ x, (nodeAt nsC x).offset = (nodeAt nsB x).offset) ∧
    nsB.nodes.length ≤ nsC.nodes.length ∧
    i0 < nsC.nodes.length ∧
    (∀ x, x < nsB.nodes.length → (nodeAt nsC x).rank = (nodeAt nsB x).rank ∧
      (nodeAt nsC x).id = (nodeAt nsB x).id) ∧
    (r = some i0 ∨ (r = none ∧ i0 = nsB.nodes.length ∧
      nsC.nodes.length = nsB.nodes.length + 1)) := by
  cases r with
  | none =>
      rw [lscKid] at hc
      have hns : nsC = (nsB.alloc kid.rank kid.cid).1 := by
        have := congrArg Prod.fst hc
        simpa using this.symm
      have hi : i0 = nsB.nodes.length := by
        have := congrArg Prod.snd hc
        simpa using this.symm
      subst hns
      subst hi
      refine ⟨alloc_levels _ _ _, ?_, ?_, kids_alloc _ _ _, offset_alloc _ _ _,
        ?_, ?_, ?_, Or.inr ⟨rfl, rfl, alloc_nodes_len _ _ _⟩⟩
      · intro x hx
        exact nodeAt_alloc_ne _ _ _ hx
      · rw [nodeAt_alloc_self]
        exact ⟨rfl, rfl⟩
      · rw [alloc_nodes_len]; omega
      · rw [alloc_nodes_len]; omega
      · intro x hx
        rw [nodeAt_alloc_lt _ _ _ hx]
        exact ⟨rfl, rfl⟩
  | some i =>
      rw [lscKid] at hc
      have hns : nsC = nsB.setParent i j := by
        have := congrArg Prod.fst hc
        simpa using this.symm
      have hi : i0 = i := by
        have := congrArg Prod.snd hc
        simpa using this.symm
      subst hns
      subst hi
      obtain ⟨hlt, hrk, hid⟩ := hsome i0 rfl
      refine ⟨setParent_levels _ _ _, ?_, ?_, kids_setParent _ _ _,
        offset_setParent _ _ _, ?_, ?_, ?_, Or.inl rfl⟩
      · intro x hx
        exact nodeAt_setParent_ne _ _ _ hx
      · rw [rank_setParent, id_setParent]
        exact ⟨hrk, hid⟩
      · rw [setParent_len]
      · rw [setParent_len]; exact hlt
      · intro x _
        rw [rank_setParent, id_setParent]
        exact ⟨rfl, rfl⟩

end CedrQlt
namespace CedrQlt

theorem lsc_node_spec_owned (my cellidx : Int) (k0 k1 : ITree)
    (ns ns1 ns2 : NS) (l0 l1 : Nat) (r0 r1 : Option Nat) (o0 o1 : Bool)
    (h0 : lsc my k0 ns = (ns1, l0, r0, o0))
    (h1 : lsc my k1 ns1 = (ns2, l1, r1, o1))
    (hI : LscInv my ns) (hI1 : LscInv my ns1) (hI2 : LscInv my ns2)
    (hP0 : LscPost my k0 ns ns1 l0 r0 o0)
    (hP1 : LscPost my k1 ns1 ns2 l1 r1 o1)
    (hw0 : k0.wellRanked) (hwr : my = k0.rank)
    (hh : (ITree.node my cellidx k0 k1).height < ns.levels.length) :
    LscInv my (lsc my (.node my cellidx k0 k1) ns).1 ∧
    LscPost my (.node my cellidx k0 k1) ns
      (lsc my (.node my cellidx k0 k1) ns).1
      (lsc my (.node my cellidx k0 k1) ns).2.1
      (lsc my (.node my cellidx k0 k1) ns).2.2.1
      (lsc my (.node my cellidx k0 k1) ns).2.2.2 := by
  have hl0 : l0 = k0.height := hP0.lvl_eq
  have hl1 : l1 = k1.height := hP1.lvl_eq
  have hheq : (ITree.node my cellidx k0 k1).height = max l0 l1 + 1 := by
    rw [ITree.height, hl0, hl1]
  have hlvlb : max l0 l1 + 1 < ns.levels.length := by rw [← hheq]; exact hh
  have hL1 : ns1.levels.length = ns.levels.length := hP0.lvls_len
  have hL2 : ns2.levels.length = ns.levels.length := by
    rw [hP1.lvls_len, hL1]
  have hlen01 : ns.nodes.length ≤ ns1.nodes.length := hP0.len_mono
  have hlen12 : ns1.nodes.length ≤ ns2.nodes.length := hP1.len_mono
  rw [lsc_node_eq my my cellidx k0 k1 ns ns1 ns2 l0 l1 r0 r1 o0 o1 h0 h1,
    if_pos rfl]
  dsimp only
  set lvl := max l0 l1 + 1 with hlvldef
  set j := ns2.nodes.length with hjdef
  set nsB := ((ns2.alloc my cellidx).1).pushLevelNode lvl j with hnsB
  have hBnodes : ∀ x, nodeAt nsB x = nodeAt (ns2.alloc my cellidx).1 x :=
    fun x => rfl
  have hjlenB : nsB.nodes.length = j + 1 := by
    show ((ns2.alloc my cellidx).1).nodes.length = j + 1
    rw [alloc_nodes_len]
  have hlevB : nsB.levels.length = ns.levels.length := by
    rw [hnsB, pushLevelNode_levels_len, alloc_levels, hL2]
  have hlvl2 : lvl < ns2.levels.length := by rw [hL2]; exact hlvlb
  have bnodeAt_lt : ∀ x, x < j → nodeAt nsB x = nodeAt ns2 x := by
    intro x hx
    rw [hBnodes, nodeAt_alloc_lt _ _ _ hx]
  have bnodeAt_j : nodeAt nsB j = { rank := my, id := cellidx } := by
    rw [hBnodes, hjdef, nodeAt_alloc_self]
  have bgetD_eq : (nsB.levels.getD lvl default).nodes =
      (ns2.levels.getD lvl default).nodes ++ [j] := by
    rw [hnsB, pushLevelNode_getD_self _ _ _ (by rw [alloc_levels]; exact hlvl2)]
    rw [alloc_levels]
  have bgetD_ne : ∀ q, q ≠ lvl → (nsB.levels.getD q default).nodes =
      (ns2.levels.getD q default).nodes := by
    intro q hq
    rw [hnsB, pushLevelNode_getD_ne _ _ _ hq, alloc_levels]
  have blevelNodes : (levelNodes nsB).Perm (levelNodes ns2 ++ [j]) := by
    have h1 := levelNodes_pushLevelNode (ns2.alloc my cellidx).1 lvl j
      (by rw [alloc_levels]; exact hlvl2)
    have h2 : levelNodes (ns2.alloc my cellidx).1 = levelNodes ns2 :=
      levelNodes_levels_eq (alloc_levels _ _ _)
    rw [h2] at h1
    exact h1
  rcases hc : lscKid my k0 r0 nsB j with ⟨nsC, i0⟩
  have hsome0 : ∀ i, r0 = some i → i < nsB.nodes.length ∧
      (nodeAt nsB i).rank = k0.rank ∧ (nodeAt nsB i).id = k0.cid := by
    intro i hi
    obtain ⟨hge, hlt, hrk, hid, _⟩ := hP0.ridx_spec i hi
    have hltj : i < j := by omega
    refine ⟨by omega, ?_, ?_⟩
    · rw [bnodeAt_lt i hltj, hP1.old_nodes i hlt, hrk]
    · rw [bnodeAt_lt i hltj, hP1.old_nodes i hlt, hid]
  obtain ⟨C0lv, C0ne, C0ri, C0k, C0off, C0len, C0i0lt, C0pres, C0case⟩ :=
    lscKid_spec my k0 r0 nsB j nsC i0 hc hsome0
  have hi0j : i0 ≠ j := by
    rcases C0case with hcs | ⟨_, hi0, _⟩
    · obtain ⟨_, hlt, _⟩ := hP0.ridx_spec i0 hcs
      omega
    · omega
  have hi0ge : ns.nodes.length ≤ i0 := by
    rcases C0case with hcs | ⟨_, hi0, _⟩
    · exact (hP0.ridx_spec i0 hcs).1
    · omega
  rcases hd : lscKid my k1 r1 nsC j with ⟨nsD, i1⟩
  have hsome1 : ∀ i, r1 = some i → i < nsC.nodes.length ∧
      (nodeAt nsC i).rank = k1.rank ∧ (nodeAt nsC i).id = k1.cid := by
    intro i hi
    obtain ⟨hge, hlt, hrk, hid, _⟩ := hP1.ridx_spec i hi
    have hltj : i < j := hlt
    have hii0 : i ≠ i0 := by
      rcases C0case with hcs | ⟨_, hi0, _⟩
      · obtain ⟨_, hlt0, _⟩ := hP0.ridx_spec i0 hcs
        omega
      · omega
    refine ⟨by omega, ?_, ?_⟩
    · rw [C0ne i hii0, bnodeAt_lt i hltj, hrk]
    · rw [C0ne i hii0, bnodeAt_lt i hltj, hid]
  obtain ⟨C1lv, C1ne, C1ri, C1k, C1off, C1len, C1i1lt, C1pres, C1case⟩ :=
    lscKid_spec my k1 r1 nsC j nsD i1 hd hsome1
  have hi1j : i1 ≠ j := by
    rcases C1case with hcs | ⟨_, hi1, _⟩
    · obtain ⟨_, hlt, _⟩ := hP1.ridx_spec i1 hcs
      omega
    · omega
  have hi1ge : ns.nodes.length ≤ i1 := by
    rcases C1case with hcs | ⟨_, hi1, _⟩
    · have := (hP1.ridx_spec i1 hcs).1
      omega
    · omega
  have hne01 : i0 ≠ i1 := by
    rcases C0case with hcs0 | ⟨_, hi0, hlC⟩
    · obtain ⟨_, hlt0, _⟩ := hP0.ridx_spec i0 hcs0
      rcases C1case with hcs1 | ⟨_, hi1, _⟩
      · have := (hP1.ridx_spec i1 hcs1).1
        omega
      · omega
    · rcases C1case with hcs1 | ⟨_, hi1, _⟩
      · obtain ⟨_, hlt1, _⟩ := hP1.ridx_spec i1 hcs1
        omega
      · omega
  have hi0nok2 : i0 ∉ ownedKidsOf ns2 := by
    rcases C0case with hcs | ⟨_, hi0, _⟩
    · obtain ⟨_, hlt0, _, _, hnok⟩ := hP0.ridx_spec i0 hcs
      obtain ⟨f1k, hf1k, hf1kb⟩ := hP1.okids_app
      intro hmem
      rcases List.mem_append.mp (hf1k.mem_iff.mp hmem) with h | h
      · exact hnok h
      · have := hf1kb i0 h
        omega
    · intro hmem
      have := hI2.kids_lt i0 hmem
      omega
  have hi1nok2 : i1 ∉ ownedKidsOf ns2 := by
    rcases C1case with hcs | ⟨_, hi1, _⟩
    · exact (hP1.ridx_spec i1 hcs).2.2.2.2
    · intro hmem
      have := hI2.kids_lt i1 hmem
      have := hjlenB
      omega
  set ns' := nsD.setKids j [i0, i1] with hns'
  have hjltD : j < nsD.nodes.length := by
    have : j < nsB.nodes.length := by omega
    omega
  have hA' : ∀ x, x ≠ j → nodeAt ns' x = nodeAt nsD x := by
    intro x hx
    exact nodeAt_setKids_ne _ _ _ hx
  have hDj : nodeAt nsD j = nodeAt nsB j := by
    rw [C1ne j (Ne.symm hi1j), C0ne j (Ne.symm hi0j)]
  have hnsj : nodeAt ns' j =
      { rank := my, id := cellidx, kids := [i0, i1] } := by
    rw [hns', nodeAt_setKids_self _ _ _ hjltD, hDj, bnodeAt_j]
  have G1 : ∀ x, x < j → x ≠ i0 → x ≠ i1 → nodeAt ns' x = nodeAt ns2 x := by
    intro x hx hx0 hx1
    rw [hA' x (by omega), C1ne x hx1, C0ne x hx0, bnodeAt_lt x hx]
  have G2 : ∀ x, x ≠ j → (nodeAt ns' x).kids = (nodeAt ns2 x).kids := by
    intro x hx
    rw [hA' x hx, C1k, C0k, hBnodes, kids_alloc]
  have Gkj : (nodeAt ns' j).kids = [i0, i1] := by rw [hnsj]
  have G3 : ∀ x, x < j → (nodeAt ns' x).rank = (nodeAt ns2 x).rank ∧
      (nodeAt ns' x).id = (nodeAt ns2 x).id := by
    intro x hx
    have hxj : x ≠ j := by omega
    have h1 : x < nsB.nodes.length := by omega
    have h2 : x < nsC.nodes.length := by omega
    obtain ⟨hr1, hid1⟩ := C1pres x h2
    obtain ⟨hr0, hid0⟩ := C0pres x h1
    rw [hA' x hxj, hr1, hid1, hr0, hid0, bnodeAt_lt x hx]
    exact ⟨rfl, rfl⟩
  have G5 : ∀ x, (nodeAt ns' x).offset = -1 := by
    intro x
    rw [hns', offset_setKids, C1off, C0off, hBnodes, offset_alloc]
    exact hI2.off_neg x
  have G6 : ns'.levels = nsB.levels := by
    rw [hns', setKids_levels, C1lv, C0lv]
  have hlevN : ns'.levels.length = ns.levels.length := by rw [G6, hlevB]
  have hgetD_eq : (ns'.levels.getD lvl default).nodes =
      (ns2.levels.getD lvl default).nodes ++ [j] := by
    rw [G6, bgetD_eq]
  have hgetD_ne : ∀ q, q ≠ lvl → (ns'.levels.getD q default).nodes =
      (ns2.levels.getD q default).nodes := by
    intro q hq
    rw [G6, bgetD_ne q hq]
  have G7 : (levelNodes ns').Perm (levelNodes ns2 ++ [j]) := by
    rw [levelNodes_levels_eq G6]
    exact blevelNodes
  have G8 : (ownedKidsOf ns').Perm (ownedKidsOf ns2 ++ [i0, i1]) := by
    have h1 := okids_extend G7 (fun x hx => G2 x (by
      have := hI2.lvl_lt x hx
      omega))
    rw [Gkj] at h1
    exact h1
  have hlenD : ns'.nodes.length = nsD.nodes.length := by
    rw [hns', setKids_len]
  have hrank_i0 : (nodeAt ns' i0).rank = k0.rank := by
    rw [hns', rank_setKids, C1ne i0 hne01, C0ri.1]
  have hrank_i1 : (nodeAt ns' i1).rank = k1.rank := by
    rw [hns', rank_setKids, C1ri.1]
  have G10 : (nodeAt ns' i0).rank = my →
      ∃ p, p < lvl ∧ p < ns'.levels.length ∧
        i0 ∈ (ns'.levels.getD p default).nodes := by
    intro hmy
    rw [hrank_i0] at hmy
    have ho0 : o0 = true := hP0.r_owned.mpr hmy
    obtain ⟨i', hri', hmem'⟩ := hP0.r_lvl ho0
    have hcs : r0 = some i0 := by
      rcases C0case with h | ⟨hnone, _, _⟩
      · exact h
      · rw [hnone] at hri'
        cases hri'
    have hii : i' = i0 := by
      rw [hcs] at hri'
      injection hri' with h
      exact h.symm
    subst hii
    obtain ⟨fr, hfr, _⟩ := hP1.lvls_app k0.height
    have hk0lvl : k0.height ≠ lvl := by omega
    refine ⟨k0.height, by omega, by rw [hlevN]; omega, ?_⟩
    rw [hgetD_ne _ hk0lvl, hfr]
    exact List.mem_append_left _ hmem'
  have G11 : (nodeAt ns' i1).rank = my →
      ∃ p, p < lvl ∧ p < ns'.levels.length ∧
        i1 ∈ (ns'.levels.getD p default).nodes := by
    intro hmy
    rw [hrank_i1] at hmy
    have ho1 : o1 = true := hP1.r_owned.mpr hmy
    obtain ⟨i', hri', hmem'⟩ := hP1.r_lvl ho1
    have hcs : r1 = some i1 := by
      rcases C1case with h | ⟨hnone, _, _⟩
      · exact h
      · rw [hnone] at hri'
        cases hri'
    have hii : i' = i1 := by
      rw [hcs] at hri'
      injection hri' with h
      exact h.symm
    subst hii
    have hk1lvl : k1.height ≠ lvl := by omega
    refine ⟨k1.height, by omega, by rw [hlevN]; omega, ?_⟩
    rw [hgetD_ne _ hk1lvl]
    exact hmem'
  have happ' : ∀ q, ∃ fr, (ns'.levels.getD q default).nodes =
      (ns2.levels.getD q default).nodes ++ fr := by
    intro q
    by_cases hq : q = lvl
    · subst hq
      exact ⟨[j], hgetD_eq⟩
    · exact ⟨[], by rw [hgetD_ne q hq, List.append_nil]⟩
  have hL2' : ns'.levels.length = ns2.levels.length := by rw [hlevN, hL2]
  have hmem' : ∀ x, x ∈ levelNodes ns' → x ∈ levelNodes ns2 ∨ x = j := by
    intro x hx
    rcases List.mem_append.mp (G7.mem_iff.mp hx) with h | h
    · exact Or.inl h
    · exact Or.inr (List.mem_singleton.mp h)
  have hlenfin : j + 1 ≤ ns'.nodes.length := by
    rw [hlenD]
    omega
  refine ⟨⟨?_, ?_, ?_, ?_, ?_, ?_, G5⟩, ?_⟩
  · intro x hx
    rcases hmem' x hx with h | h
    · have := hI2.lvl_lt x h
      omega
    · omega
  · rw [G7.nodup_iff]
    refine List.Nodup.append hI2.lvl_nodup (List.nodup_singleton j) ?_
    intro x hx hx'
    have := hI2.lvl_lt x hx
    have := List.mem_singleton.mp hx'
    omega
  · intro x hx
    rcases hmem' x hx with h | h
    · rw [(G3 x (hI2.lvl_lt x h)).1]
      exact hI2.mem_rank x h
    · subst h
      rw [hnsj]
  · intro k hk
    rcases List.mem_append.mp (G8.mem_iff.mp hk) with h | h
    · have := hI2.kids_lt k h
      omega
    · rcases List.mem_cons.mp h with h | h
      · subst h
        omega
      · rw [List.mem_singleton.mp h]
        rw [hlenD]
        omega
  · rw [G8.nodup_iff]
    refine List.Nodup.append hI2.okids_nodup ?_ ?_
    · exact List.nodup_cons.mpr ⟨by simpa using hne01, List.nodup_singleton i1⟩
    · intro x hx hx'
      rcases List.mem_cons.mp hx' with h | h
      · subst h
        exact hi0nok2 hx
      · rw [List.mem_singleton.mp h] at hx
        exact hi1nok2 hx
  · intro q x hx k hk hrk
    have hxcases : x ∈ (ns2.levels.getD q default).nodes ∨
        (q = lvl ∧ x = j) := by
      by_cases hq : q = lvl
      · subst hq
        rw [hgetD_eq] at hx
        rcases List.mem_append.mp hx with h | h
        · exact Or.inl h
        · exact Or.inr ⟨rfl, List.mem_singleton.mp h⟩
      · rw [hgetD_ne q hq] at hx
        exact Or.inl hx
    rcases hxcases with hxq | ⟨hq, hxj⟩
    · have hqlt : q < ns2.levels.length := by
        by_contra hc2
        rw [List.getD_eq_default _ _ (le_of_not_lt hc2)] at hxq
        have hdn : (default : Level).nodes = [] := rfl
        rw [hdn] at hxq
        cases hxq
      have hxlvl : x ∈ levelNodes ns2 := mem_levelNodes_iff.mpr ⟨q, hqlt, hxq⟩
      have hxlt : x < j := hI2.lvl_lt x hxlvl
      rw [G2 x (by omega)] at hk
      have hkok : k ∈ ownedKidsOf ns2 :=
        List.mem_flatMap.mpr ⟨x, hxlvl, hk⟩
      have hklt : k < j := hI2.kids_lt k hkok
      rw [(G3 k hklt).1] at hrk
      have hkb := hI2.kid_below q x hxq k hk hrk
      exact take_flatten_sub hL2' happ' q k hkb
    · subst hq
      subst hxj
      rw [Gkj] at hk
      rcases List.mem_cons.mp hk with h | h
      · subst h
        obtain ⟨p, hp1, hp2, hp3⟩ := G10 hrk
        exact mem_take_flatten_iff.mpr ⟨p, hp1, hp2, hp3⟩
      · rw [List.mem_singleton.mp h] at hrk ⊢
        obtain ⟨p, hp1, hp2, hp3⟩ := G11 hrk
        exact mem_take_flatten_iff.mpr ⟨p, hp1, hp2, hp3⟩
  refine ⟨by omega, ?_, hlevN, ?_, ?_, ?_, ?_, ?_, ?_, hheq.symm, ?_⟩
  · intro x hx
    rw [G1 x (by omega) (by omega) (by omega), hP1.old_nodes x (by omega),
      hP0.old_nodes x hx]
  · intro q
    obtain ⟨f0, he0, hb0⟩ := hP0.lvls_app q
    obtain ⟨f1, he1, hb1⟩ := hP1.lvls_app q
    by_cases hq : q = lvl
    · subst hq
      refine ⟨f0 ++ f1 ++ [j], ?_, ?_⟩
      · rw [hgetD_eq, he1, he0, List.append_assoc, List.append_assoc,
          List.append_assoc]
      · intro x hx
        rcases List.mem_append.mp hx with h | h
        · rcases List.mem_append.mp h with h2 | h2
          · exact hb0 x h2
          · have := hb1 x h2
            omega
        · rw [List.mem_singleton.mp h]
          omega
    · refine ⟨f0 ++ f1, ?_, ?_⟩
      · rw [hgetD_ne q hq, he1, he0, List.append_assoc]
      · intro x hx
        rcases List.mem_append.mp hx with h | h
        · exact hb0 x h
        · have := hb1 x h
          omega
  · obtain ⟨f00, he0, hid0⟩ := hP0.lvl0_ids
    obtain ⟨f10, he1, hid1⟩ := hP1.lvl0_ids
    have hlvl0 : (0 : Nat) ≠ lvl := by
      rw [hlvldef]
      exact Nat.ne_of_lt (Nat.succ_pos _)
    have hpos0 : 0 < ns.levels.length := lt_of_le_of_lt (Nat.zero_le _) hlvlb
    have h0len1 : 0 < ns1.levels.length := by rw [hL1]; exact hpos0
    have h0len2 : 0 < ns2.levels.length := by rw [hL2]; exact hpos0
    refine ⟨f00 ++ f10, ?_, ?_⟩
    · rw [hgetD_ne 0 hlvl0, he1, he0, List.append_assoc]
    · rw [List.map_append, ownedLeafIds_node, ← hid0, ← hid1]
      congr 1
      · apply List.map_congr_left
        intro x hx
        have hx1 : x ∈ (ns1.levels.getD 0 default).nodes := by
          rw [he0]
          exact List.mem_append_right _ hx
        have hxlvl : x ∈ levelNodes ns1 :=
          mem_levelNodes_iff.mpr ⟨0, h0len1, hx1⟩
        have hxlt : x < ns1.nodes.length := hI1.lvl_lt x hxlvl
        rw [(G3 x (by omega)).2]
        exact congrArg NSNode.id (hP1.old_nodes x hxlt)
      · apply List.map_congr_left
        intro x hx
        have hx2 : x ∈ (ns2.levels.getD 0 default).nodes := by
          rw [he1]
          exact List.mem_append_right _ hx
        have hxlvl : x ∈ levelNodes ns2 :=
          mem_levelNodes_iff.mpr ⟨0, h0len2, hx2⟩
        have hxlt : x < j := hI2.lvl_lt x hxlvl
        exact (G3 x hxlt).2
  · obtain ⟨f0k, h0k, h0kb⟩ := hP0.okids_app
    obtain ⟨f1k, h1k, h1kb⟩ := hP1.okids_app
    refine ⟨f0k ++ f1k ++ [i0, i1], ?_, ?_⟩
    · have hstep1 : (ownedKidsOf ns2 ++ [i0, i1]).Perm
          ((ownedKidsOf ns1 ++ f1k) ++ [i0, i1]) := h1k.append_right _
      have hstep2 : ((ownedKidsOf ns1 ++ f1k) ++ [i0, i1]).Perm
          (((ownedKidsOf ns ++ f0k) ++ f1k) ++ [i0, i1]) :=
        ((h0k.append_right f1k).append_right _)
      have := (G8.trans hstep1).trans hstep2
      simpa [List.append_assoc] using this
    · intro x hx
      rcases List.mem_append.mp hx with h | h
      · rcases List.mem_append.mp h with h2 | h2
        · exact h0kb x h2
        · have := h1kb x h2
          omega
      · rcases List.mem_cons.mp h with h2 | h2
        · subst h2
          exact hi0ge
        · rw [List.mem_singleton.mp h2]
          exact hi1ge
  · intro i hi
    have hij : i = j := by
      injection hi with h
      exact h.symm
    subst hij
    refine ⟨by omega, by omega, ?_, ?_, ?_⟩
    · rw [hnsj]
      rfl
    · rw [hnsj]
      rfl
    · intro hmem
      rcases List.mem_append.mp (G8.mem_iff.mp hmem) with h | h
      · have := hI2.kids_lt j h
        omega
      · rcases List.mem_cons.mp h with h2 | h2
        · exact hi0j h2.symm
        · exact hi1j (List.mem_singleton.mp h2).symm
  · exact ⟨fun _ => rfl, fun _ => rfl⟩
  · intro _
    refine ⟨j, rfl, ?_⟩
    rw [hheq, hgetD_eq]
    exact List.mem_append_right _ (List.mem_singleton.mpr rfl)
  · intro hcontra
    exfalso
    rw [ownedLeafIds_node] at hcontra
    rcases List.append_eq_nil.mp hcontra with ⟨hc0, _⟩
    exact ownedLeafIds_ne_of_rank my k0 hw0 hwr.symm hc0


end CedrQlt
namespace CedrQlt

theorem setParent_fold_facts (p : Nat) :
    ∀ (ks : List Nat) (ns : NS),
    (ks.foldl (fun x i => x.setParent i p) ns).levels = ns.levels ∧
    (∀ x, (nodeAt (ks.foldl (fun x i => x.setParent i p) ns) x).kids =
      (nodeAt ns x).kids) ∧
    (∀ x, (nodeAt (ks.foldl (fun x i => x.setParent i p) ns) x).rank =
      (nodeAt ns x).rank) ∧
    (∀ x, (nodeAt (ks.foldl (fun x i => x.setParent i p) ns) x).id =
      (nodeAt ns x).id) ∧
    (∀ x, (nodeAt (ks.foldl (fun x i => x.setParent i p) ns) x).offset =
      (nodeAt ns x).offset) ∧
    (ks.foldl (fun x i => x.setParent i p) ns).nodes.length =
      ns.nodes.length ∧
    (∀ x, x ∉ ks → nodeAt (ks.foldl (fun x i => x.setParent i p) ns) x =
      nodeAt ns x) := by
  intro ks
  induction ks with
  | nil =>
      intro ns
      exact ⟨rfl, fun _ => rfl, fun _ => rfl, fun _ => rfl, fun _ => rfl,
        rfl, fun _ _ => rfl⟩
  | cons a ks ih =>
      intro ns
      obtain ⟨ih1, ih2, ih3, ih4, ih5, ih6, ih7⟩ := ih (ns.setParent a p)
      rw [List.foldl_cons]
      refine ⟨?_, ?_, ?_, ?_, ?_, ?_, ?_⟩
      · rw [ih1, setParent_levels]
      · intro x
        rw [ih2, kids_setParent]
      · intro x
        rw [ih3, rank_setParent]
      · intro x
        rw [ih4, id_setParent]
      · intro x
        rw [ih5, offset_setParent]
      · rw [ih6, setParent_len]
      · intro x hx
        have hxa : x ≠ a := by
          intro hc
          exact hx (hc ▸ List.mem_cons_self a ks)
        rw [ih7 x (fun hc => hx (List.mem_cons_of_mem _ hc)),
          nodeAt_setParent_ne _ _ _ hxa]

end CedrQlt
namespace CedrQlt

theorem lsc_node_spec_needed (my rank cellidx : Int) (k0 k1 : ITree)
    (ns ns1 ns2 : NS) (l0 l1 : Nat) (r0 r1 : Option Nat) (o0 o1 : Bool)
    (h0 : lsc my k0 ns = (ns1, l0, r0, o0))
    (h1 : lsc my k1 ns1 = (ns2, l1, r1, o1))
    (hI1 : LscInv my ns1) (hI2 : LscInv my ns2)
    (hP0 : LscPost my k0 ns ns1 l0 r0 o0)
    (hP1 : LscPost my k1 ns1 ns2 l1 r1 o1)
    (hr : ¬ rank = my) (ho : (o0 || o1) = true)
    (hh : (ITree.node rank cellidx k0 k1).height < ns.levels.length) :
    LscInv my (lsc my (.node rank cellidx k0 k1) ns).1 ∧
    LscPost my (.node rank cellidx k0 k1) ns
      (lsc my (.node rank cellidx k0 k1) ns).1
      (lsc my (.node rank cellidx k0 k1) ns).2.1
      (lsc my (.node rank cellidx k0 k1) ns).2.2.1
      (lsc my (.node rank cellidx k0 k1) ns).2.2.2 := by
  have hl0 : l0 = k0.height := hP0.lvl_eq
  have hl1 : l1 = k1.height := hP1.lvl_eq
  have hheq : (ITree.node rank cellidx k0 k1).height = max l0 l1 + 1 := by
    rw [ITree.height, hl0, hl1]
  have hlvlb : max l0 l1 + 1 < ns.levels.length := by rw [← hheq]; exact hh
  have hL1 : ns1.levels.length = ns.levels.length := hP0.lvls_len
  have hL2 : ns2.levels.length = ns.levels.length := by
    rw [hP1.lvls_len, hL1]
  have hlen01 : ns.nodes.length ≤ ns1.nodes.length := hP0.len_mono
  have hlen12 : ns1.nodes.length ≤ ns2.nodes.length := hP1.len_mono
  rw [lsc_node_eq my rank cellidx k0 k1 ns ns1 ns2 l0 l1 r0 r1 o0 o1 h0 h1,
    if_neg hr, if_pos ho]
  dsimp only
  set lvl := max l0 l1 + 1 with hlvldef
  set j := ns2.nodes.length with hjdef
  set ks0 : List Nat := kidLinks my k0 r0 with hks0
  set ks1 : List Nat := kidLinks my k1 r1 with hks1
  set nsA := (ns2.alloc rank cellidx).1 with hnsA
  set nsE := (ks0 ++ ks1).foldl (fun x i => x.setParent i j) nsA with hnsE
  set ns' := nsE.setKids j (ks0 ++ ks1) with hns'
  obtain ⟨E1, E2, E3, E4, E5, E6, E7⟩ := setParent_fold_facts j (ks0 ++ ks1) nsA
  have hks0b : ∀ x ∈ ks0, ns.nodes.length ≤ x ∧ x < ns1.nodes.length := by
    intro x hx
    rw [hks0] at hx
    cases hr0 : r0 with
    | none => rw [hr0, kidLinks] at hx; cases hx
    | some i =>
        rw [hr0, kidLinks] at hx
        by_cases hkr : k0.rank = my
        · rw [if_pos hkr] at hx
          rw [List.mem_singleton.mp hx]
          obtain ⟨hge, hlt, _⟩ := hP0.ridx_spec i hr0
          exact ⟨hge, hlt⟩
        · rw [if_neg hkr] at hx
          cases hx
  have hks1b : ∀ x ∈ ks1, ns1.nodes.length ≤ x ∧ x < j := by
    intro x hx
    rw [hks1] at hx
    cases hr1 : r1 with
    | none => rw [hr1, kidLinks] at hx; cases hx
    | some i =>
        rw [hr1, kidLinks] at hx
        by_cases hkr : k1.rank = my
        · rw [if_pos hkr] at hx
          rw [List.mem_singleton.mp hx]
          obtain ⟨hge, hlt, _⟩ := hP1.ridx_spec i hr1
          exact ⟨hge, hlt⟩
        · rw [if_neg hkr] at hx
          cases hx
  have hksb : ∀ x ∈ ks0 ++ ks1, ns.nodes.length ≤ x ∧ x < j := by
    intro x hx
    rcases List.mem_append.mp hx with h | h
    · have := hks0b x h
      omega
    · have := hks1b x h
      omega
  have hjks : j ∉ ks0 ++ ks1 := by
    intro hc
    have := hksb j hc
    omega
  have hAlen : nsA.nodes.length = j + 1 := alloc_nodes_len _ _ _
  have hlenfin : ns'.nodes.length = j + 1 := by
    rw [hns', setKids_len, E6, hAlen]
  have hjlt' : j < nsE.nodes.length := by rw [E6, hAlen]; omega
  have hnsj : nodeAt ns' j =
      { rank := rank, id := cellidx, kids := ks0 ++ ks1 } := by
    rw [hns', nodeAt_setKids_self _ _ _ hjlt', E7 j hjks, hnsA, hjdef,
      nodeAt_alloc_self]
  have G1 : ∀ x, x < j → x ∉ ks0 ++ ks1 → nodeAt ns' x = nodeAt ns2 x := by
    intro x hx hxks
    rw [hns', nodeAt_setKids_ne _ _ _ (by omega), E7 x hxks, hnsA,
      nodeAt_alloc_lt _ _ _ hx]
  have G2 : ∀ x, x ≠ j → (nodeAt ns' x).kids = (nodeAt ns2 x).kids := by
    intro x hx
    rw [hns', nodeAt_setKids_ne _ _ _ hx, E2, hnsA, kids_alloc]
  have G3 : ∀ x, x < j → (nodeAt ns' x).rank = (nodeAt ns2 x).rank ∧
      (nodeAt ns' x).id = (nodeAt ns2 x).id := by
    intro x hx
    constructor
    · rw [hns', rank_setKids, E3, hnsA, ← nodeAt_alloc_lt ns2 rank cellidx hx]
    · rw [hns', id_setKids, E4, hnsA, ← nodeAt_alloc_lt ns2 rank cellidx hx]
  have G5 : ∀ x, (nodeAt ns' x).offset = -1 := by
    intro x
    rw [hns', offset_setKids, E5, hnsA, offset_alloc]
    exact hI2.off_neg x
  have G6 : ns'.levels = ns2.levels := by
    rw [hns', setKids_levels, E1, hnsA, alloc_levels]
  have G7 : levelNodes ns' = levelNodes ns2 := levelNodes_levels_eq G6
  have G8 : ownedKidsOf ns' = ownedKidsOf ns2 := by
    refine ownedKids_congr G7 ?_
    intro x hx
    exact G2 x (by have := hI2.lvl_lt x hx; omega)
  have hlevN : ns'.levels.length = ns.levels.length := by rw [G6, hL2]
  refine ⟨⟨?_, ?_, ?_, ?_, ?_, ?_, G5⟩, ?_⟩
  · intro x hx
    rw [G7] at hx
    have := hI2.lvl_lt x hx
    omega
  · rw [G7]
    exact hI2.lvl_nodup
  · intro x hx
    rw [G7] at hx
    rw [(G3 x (hI2.lvl_lt x hx)).1]
    exact hI2.mem_rank x hx
  · intro k hk
    rw [G8] at hk
    have := hI2.kids_lt k hk
    omega
  · rw [G8]
    exact hI2.okids_nodup
  · intro q x hx k hk hrk
    rw [G6] at hx
    have hqlt : q < ns2.levels.length := by
      by_contra hc2
      rw [List.getD_eq_default _ _ (le_of_not_lt hc2)] at hx
      have hdn : (default : Level).nodes = [] := rfl
      rw [hdn] at hx
      cases hx
    have hxlvl : x ∈ levelNodes ns2 := mem_levelNodes_iff.mpr ⟨q, hqlt, hx⟩
    have hxlt : x < j := hI2.lvl_lt x hxlvl
    rw [G2 x (by omega)] at hk
    have hkok : k ∈ ownedKidsOf ns2 :=
      List.mem_flatMap.mpr ⟨x, hxlvl, hk⟩
    have hklt : k < j := hI2.kids_lt k hkok
    rw [(G3 k hklt).1] at hrk
    have hkb := hI2.kid_below q x hx k hk hrk
    have hsub : ∀ p, ((ns2.levels.take p).map Level.nodes).flatten =
        ((ns'.levels.take p).map Level.nodes).flatten := by
      intro p
      rw [G6]
    rw [hsub q] at hkb
    exact hkb
  · refine ⟨by omega, ?_, hlevN, ?_, ?_, ?_, ?_, ?_, ?_, hheq.symm, ?_⟩
    · intro x hx
      have hxks : x ∉ ks0 ++ ks1 := by
        intro hc
        have := hksb x hc
        omega
      rw [G1 x (by omega) hxks, hP1.old_nodes x (by omega),
        hP0.old_nodes x hx]
    · intro q
      obtain ⟨f0, he0, hb0⟩ := hP0.lvls_app q
      obtain ⟨f1, he1, hb1⟩ := hP1.lvls_app q
      refine ⟨f0 ++ f1, ?_, ?_⟩
      · have hG6q : (ns'.levels.getD q default).nodes =
            (ns2.levels.getD q default).nodes := by rw [G6]
        rw [hG6q, he1, he0, List.append_assoc]
      · intro x hx
        rcases List.mem_append.mp hx with h | h
        · exact hb0 x h
        · have := hb1 x h
          omega
    · obtain ⟨f00, he0, hid0⟩ := hP0.lvl0_ids
      obtain ⟨f10, he1, hid1⟩ := hP1.lvl0_ids
      have hpos0 : 0 < ns.levels.length := lt_of_le_of_lt (Nat.zero_le _) hlvlb
      have h0len1 : 0 < ns1.levels.length := by rw [hL1]; exact hpos0
      have h0len2 : 0 < ns2.levels.length := by rw [hL2]; exact hpos0
      refine ⟨f00 ++ f10, ?_, ?_⟩
      · have hG60 : (ns'.levels.getD 0 default).nodes =
            (ns2.levels.getD 0 default).nodes := by rw [G6]
        rw [hG60, he1, he0, List.append_assoc]
      · rw [List.map_append, ownedLeafIds_node, ← hid0, ← hid1]
        congr 1
        · apply List.map_congr_left
          intro x hx
          have hx1 : x ∈ (ns1.levels.getD 0 default).nodes := by
            rw [he0]
            exact List.mem_append_right _ hx
          have hxlvl : x ∈ levelNodes ns1 :=
            mem_levelNodes_iff.mpr ⟨0, h0len1, hx1⟩
          have hxlt : x < ns1.nodes.length := hI1.lvl_lt x hxlvl
          rw [(G3 x (by omega)).2]
          exact congrArg NSNode.id (hP1.old_nodes x hxlt)
        · apply List.map_congr_left
          intro x hx
          have hx2 : x ∈ (ns2.levels.getD 0 default).nodes := by
            rw [he1]
            exact List.mem_append_right _ hx
          have hxlvl : x ∈ levelNodes ns2 :=
            mem_levelNodes_iff.mpr ⟨0, h0len2, hx2⟩
          have hxlt : x < j := hI2.lvl_lt x hxlvl
          exact (G3 x hxlt).2
    · obtain ⟨f0k, h0k, h0kb⟩ := hP0.okids_app
      obtain ⟨f1k, h1k, h1kb⟩ := hP1.okids_app
      refine ⟨f0k ++ f1k, ?_, ?_⟩
      · rw [G8]
        have := h1k.trans (h0k.append_right f1k)
        simpa [List.append_assoc] using this
      · intro x hx
        rcases List.mem_append.mp hx with h | h
        · exact h0kb x h
        · have := h1kb x h
          omega
    · intro i hi
      have hij : i = j := by
        injection hi with h
        exact h.symm
      subst hij
      refine ⟨by omega, by omega, ?_, ?_, ?_⟩
      · rw [hnsj]
        rfl
      · rw [hnsj]
        rfl
      · intro hmem
        rw [G8] at hmem
        have := hI2.kids_lt j hmem
        omega
    · constructor
      · intro hc
        cases hc
      · intro hc
        exact absurd (show rank = my from hc) hr
    · intro hc
      cases hc
    · intro hcontra
      rw [ownedLeafIds_node] at hcontra
      rcases List.append_eq_nil.mp hcontra with ⟨hc0, hc1⟩
      rw [G6, hP1.fresh_leaf hc1, hP0.fresh_leaf hc0]

end CedrQlt
namespace CedrQlt

theorem lsc_node_spec_skip (my rank cellidx : Int) (k0 k1 : ITree)
    (ns ns1 ns2 : NS) (l0 l1 : Nat) (r0 r1 : Option Nat) (o0 o1 : Bool)
    (h0 : lsc my k0 ns = (ns1, l0, r0, o0))
    (h1 : lsc my k1 ns1 = (ns2, l1, r1, o1))
    (hI1 : LscInv my ns1) (hI2 : LscInv my ns2)
    (hP0 : LscPost my k0 ns ns1 l0 r0 o0)
    (hP1 : LscPost my k1 ns1 ns2 l1 r1 o1)
    (hr : ¬ rank = my) (ho : ¬ (o0 || o1) = true)
    (hh : (ITree.node rank cellidx k0 k1).height < ns.levels.length) :
    LscInv my (lsc my (.node rank cellidx k0 k1) ns).1 ∧
    LscPost my (.node rank cellidx k0 k1) ns
      (lsc my (.node rank cellidx k0 k1) ns).1
      (lsc my (.node rank cellidx k0 k1) ns).2.1
      (lsc my (.node rank cellidx k0 k1) ns).2.2.1
      (lsc my (.node rank cellidx k0 k1) ns).2.2.2 := by
  have hl0 : l0 = k0.height := hP0.lvl_eq
  have hl1 : l1 = k1.height := hP1.lvl_eq
  have hheq : (ITree.node rank cellidx k0 k1).height = max l0 l1 + 1 := by
    rw [ITree.height, hl0, hl1]
  have hlvlb : max l0 l1 + 1 < ns.levels.length := by rw [← hheq]; exact hh
  have hL1 : ns1.levels.length = ns.levels.length := hP0.lvls_len
  have hL2 : ns2.levels.length = ns.levels.length := by
    rw [hP1.lvls_len, hL1]
  have hlen01 : ns.nodes.length ≤ ns1.nodes.length := hP0.len_mono
  have hlen12 : ns1.nodes.length ≤ ns2.nodes.length := hP1.len_mono
  rw [lsc_node_eq my rank cellidx k0 k1 ns ns1 ns2 l0 l1 r0 r1 o0 o1 h0 h1,
    if_neg hr, if_neg ho]
  dsimp only
  refine ⟨hI2, ?_⟩
  refine ⟨by omega, ?_, hL2, ?_, ?_, ?_, ?_, ?_, ?_, hheq.symm, ?_⟩
  · intro x hx
    rw [hP1.old_nodes x (by omega), hP0.old_nodes x hx]
  · intro q
    obtain ⟨f0, he0, hb0⟩ := hP0.lvls_app q
    obtain ⟨f1, he1, hb1⟩ := hP1.lvls_app q
    refine ⟨f0 ++ f1, by rw [he1, he0, List.append_assoc], ?_⟩
    intro x hx
    rcases List.mem_append.mp hx with h | h
    · exact hb0 x h
    · have := hb1 x h
      omega
  · obtain ⟨f00, he0, hid0⟩ := hP0.lvl0_ids
    obtain ⟨f10, he1, hid1⟩ := hP1.lvl0_ids
    have hpos0 : 0 < ns.levels.length := lt_of_le_of_lt (Nat.zero_le _) hlvlb
    have h0len1 : 0 < ns1.levels.length := by rw [hL1]; exact hpos0
    refine ⟨f00 ++ f10, by rw [he1, he0, List.append_assoc], ?_⟩
    rw [List.map_append, ownedLeafIds_node, ← hid0, ← hid1]
    congr 1
    apply List.map_congr_left
    intro x hx
    have hx1 : x ∈ (ns1.levels.getD 0 default).nodes := by
      rw [he0]
      exact List.mem_append_right _ hx
    have hxlvl : x ∈ levelNodes ns1 :=
      mem_levelNodes_iff.mpr ⟨0, h0len1, hx1⟩
    have hxlt : x < ns1.nodes.length := hI1.lvl_lt x hxlvl
    exact congrArg NSNode.id (hP1.old_nodes x hxlt)
  · obtain ⟨f0k, h0k, h0kb⟩ := hP0.okids_app
    obtain ⟨f1k, h1k, h1kb⟩ := hP1.okids_app
    refine ⟨f0k ++ f1k, ?_, ?_⟩
    · have := h1k.trans (h0k.append_right f1k)
      simpa [List.append_assoc] using this
    · intro x hx
      rcases List.mem_append.mp hx with h | h
      · exact h0kb x h
      · have := h1kb x h
        omega
  · intro i hi
    cases hi
  · constructor
    · intro hc
      cases hc
    · intro hc
      exact absurd (show rank = my from hc) hr
  · intro hc
    cases hc
  · intro hcontra
    rw [ownedLeafIds_node] at hcontra
    rcases List.append_eq_nil.mp hcontra with ⟨hc0, hc1⟩
    rw [hP1.fresh_leaf hc1, hP0.fresh_leaf hc0]

theorem lsc_leaf_spec_not (my rank cellidx : Int) (ns : NS)
    (hI : LscInv my ns) (hr : ¬ rank = my) :
    LscInv my (lsc my (.leaf rank cellidx) ns).1 ∧
    LscPost my (.leaf rank cellidx) ns
      (lsc my (.leaf rank cellidx) ns).1
      (lsc my (.leaf rank cellidx) ns).2.1
      (lsc my (.leaf rank cellidx) ns).2.2.1
      (lsc my (.leaf rank cellidx) ns).2.2.2 := by
  rw [lsc_leaf_not my rank cellidx ns hr]
  refine ⟨hI, ?_⟩
  refine ⟨le_refl _, fun x _ => rfl, rfl, ?_, ?_, ?_, ?_, ?_, ?_, rfl, ?_⟩
  · intro q
    exact ⟨[], by rw [List.append_nil], by intro x hx; cases hx⟩
  · refine ⟨[], by rw [List.append_nil], ?_⟩
    simp [ownedLeafIds, ITree.leafData, hr]
  · exact ⟨[], by rw [List.append_nil], by intro x hx; cases hx⟩
  · intro i hi
    cases hi
  · constructor
    · intro hc
      cases hc
    · intro hc
      exact absurd (show rank = my from hc) hr
  · intro hc
    cases hc
  · intro _
    rfl

theorem lsc_spec (my : Int) :
    ∀ (t : ITree) (ns : NS), LscInv my ns → t.wellRanked →
    t.height < ns.levels.length →
    LscInv my (lsc my t ns).1 ∧
    LscPost my t ns (lsc my t ns).1 (lsc my t ns).2.1
      (lsc my t ns).2.2.1 (lsc my t ns).2.2.2 := by
  intro t
  induction t with
  | leaf rank cellidx =>
      intro ns hI _ hh
      by_cases hr : rank = my
      · subst hr
        rw [lsc_leaf_owned rank rank cellidx ns rfl]
        have hh0 : 0 < ns.levels.length := by
          have : ITree.height (.leaf rank cellidx) = 0 := rfl
          omega
        exact lsc_leaf_spec_owned rank cellidx ns hI hh0
      · exact lsc_leaf_spec_not my rank cellidx ns hI hr
  | node rank cellidx k0 k1 ih0 ih1 =>
      intro ns hI hw hh
      obtain ⟨hwr, hw0, hw1⟩ := hw
      have hht : ITree.height (.node rank cellidx k0 k1) =
          max k0.height k1.height + 1 := rfl
      have hh0 : k0.height < ns.levels.length := by omega
      rcases hE0 : lsc my k0 ns with ⟨ns1, l0, r0, o0⟩
      have H0 := ih0 ns hI hw0 hh0
      rw [hE0] at H0
      obtain ⟨hI1, hP0⟩ := H0
      have hh1 : k1.height < ns1.levels.length := by
        rw [hP0.lvls_len]
        omega
      rcases hE1 : lsc my k1 ns1 with ⟨ns2, l1, r1, o1⟩
      have H1 := ih1 ns1 hI1 hw1 hh1
      rw [hE1] at H1
      obtain ⟨hI2, hP1⟩ := H1
      by_cases hr : rank = my
      · subst hr
        exact lsc_node_spec_owned rank cellidx k0 k1 ns ns1 ns2 l0 l1 r0 r1
          o0 o1 hE0 hE1 hI hI1 hI2 hP0 hP1 hw0 hwr hh
      · by_cases ho : (o0 || o1) = true
        · exact lsc_node_spec_needed my rank cellidx k0 k1 ns ns1 ns2 l0 l1
            r0 r1 o0 o1 hE0 hE1 hI1 hI2 hP0 hP1 hr ho hh
        · exact lsc_node_spec_skip my rank cellidx k0 k1 ns ns1 ns2 l0 l1
            r0 r1 o0 o1 hE0 hE1 hI1 hI2 hP0 hP1 hr ho hh

end CedrQlt
namespace CedrQlt



theorem setOffset_length (nodes : List NSNode) (x : Nat) (v : Int) :
    (setOffset nodes x v).length = nodes.length := by
  unfold setOffset
  rw [List.length_set]

theorem setOffset_getD_ne (nodes : List NSNode) (x : Nat) (v : Int) {y : Nat}
    (h : y ≠ x) :
    (setOffset nodes x v).getD y default = nodes.getD y default := by
  unfold setOffset
  exact getD_set_ne (fun hc => h hc.symm)

theorem setOffset_getD_self (nodes : List NSNode) (x : Nat) (v : Int)
    (h : x < nodes.length) :
    (setOffset nodes x v).getD x default =
      { nodes.getD x default with offset := v } := by
  unfold setOffset
  exact getD_set_self h

theorem setOffset_strip (nodes : List NSNode) (x : Nat) (v : Int) (y : Nat) :
    stripOff ((setOffset nodes x v).getD y default) =
      stripOff (nodes.getD y default) := by
  by_cases h : y = x
  · subst h
    by_cases hl : y < nodes.length
    · rw [setOffset_getD_self _ _ _ hl]
      rfl
    · unfold setOffset
      rw [List.set_eq_of_length_le (by omega)]
  · rw [setOffset_getD_ne _ _ _ h]

theorem stripOff_rank (n m : NSNode) (h : stripOff n = stripOff m) :
    n.rank = m.rank := by
  have h2 := congrArg NSNode.rank h
  exact h2

theorem stripOff_id (n m : NSNode) (h : stripOff n = stripOff m) :
    n.id = m.id := by
  have h2 := congrArg NSNode.id h
  exact h2

theorem stripOff_kids (n m : NSNode) (h : stripOff n = stripOff m) :
    n.kids = m.kids := by
  have h2 := congrArg NSNode.kids h
  exact h2

theorem stripOff_parent (n m : NSNode) (h : stripOff n = stripOff m) :
    n.parent = m.parent := by
  have h2 := congrArg NSNode.parent h
  exact h2

theorem ioStep_write (s : IOState) (rn : Int × Nat)
    (hw : ioWrites s.nodes rn = true) :
    (ioStep s rn).nodes = setOffset s.nodes rn.2 (Int.ofNat s.cnt) ∧
    (ioStep s rn).cnt = s.cnt + 1 := by
  unfold ioStep
  by_cases h1 : rn.1 = -1
  · unfold ioWrites at hw
    rw [if_pos h1] at hw
    have h2 : (s.nodes.getD rn.2 default).offset = -1 := by
      by_contra hc
      rw [if_neg hc] at hw
      cases hw
    rw [if_pos h1, if_pos h2]
    exact ⟨rfl, rfl⟩
  · rw [if_neg h1]
    by_cases h2 : rn.1 ≠ s.prev
    · rw [if_pos h2]
      exact ⟨rfl, rfl⟩
    · rw [if_neg h2]
      exact ⟨rfl, rfl⟩

theorem ioStep_skip (s : IOState) (rn : Int × Nat)
    (hw : ioWrites s.nodes rn = false) : ioStep s rn = s := by
  unfold ioWrites at hw
  by_cases h1 : rn.1 = -1
  · rw [if_pos h1] at hw
    have h2 : (s.nodes.getD rn.2 default).offset ≠ -1 := by
      by_contra hc
      rw [if_pos hc] at hw
      cases hw
    unfold ioStep
    rw [if_pos h1, if_neg h2]
  · rw [if_neg h1] at hw
    cases hw

end CedrQlt
namespace CedrQlt

theorem ioFold_spec : ∀ (l : List (Int × Nat)) (s : IOState),
    (l.map Prod.snd).Nodup → (∀ rn ∈ l, rn.2 < s.nodes.length) →
    ((l.foldl ioStep s).nodes.length = s.nodes.length) ∧
    (∀ x, x ∉ l.map Prod.snd →
      (l.foldl ioStep s).nodes.getD x default = s.nodes.getD x default) ∧
    (∀ x, stripOff ((l.foldl ioStep s).nodes.getD x default) =
      stripOff (s.nodes.getD x default)) ∧
    ((l.foldl ioStep s).cnt = s.cnt + (l.filter (ioWrites s.nodes)).length) ∧
    (∀ rn ∈ l, ioWrites s.nodes rn = false →
      (l.foldl ioStep s).nodes.getD rn.2 default =
        s.nodes.getD rn.2 default) ∧
    ((l.filter (ioWrites s.nodes)).map
        (fun rn => ((l.foldl ioStep s).nodes.getD rn.2 default).offset)) =
      (List.range' s.cnt (l.filter (ioWrites s.nodes)).length).map
        Int.ofNat := by
  intro l
  induction l with
  | nil =>
      intro s _ _
      exact ⟨rfl, fun _ _ => rfl, fun _ => rfl, rfl, fun _ h => absurd h
        (List.not_mem_nil _), rfl⟩
  | cons x l ih =>
      intro s hnd hlt
      rw [List.map_cons, List.nodup_cons] at hnd
      obtain ⟨hx_notin, hnd'⟩ := hnd
      rw [List.foldl_cons]
      by_cases hw : ioWrites s.nodes x = true
      · obtain ⟨hsn, hsc⟩ := ioStep_write s x hw
        set s1 := ioStep s x with hs1
        have hlen1 : s1.nodes.length = s.nodes.length := by
          rw [hsn, setOffset_length]
        have hlt' : ∀ rn ∈ l, rn.2 < s1.nodes.length := by
          intro rn hrn
          rw [hlen1]
          exact hlt rn (List.mem_cons_of_mem _ hrn)
        obtain ⟨ih1, ih2, ih3, ih4, ih5, ih6⟩ := ih s1 hnd' hlt'
        have hgd1 : ∀ y, y ≠ x.2 →
            s1.nodes.getD y default = s.nodes.getD y default := by
          intro y hy
          rw [hsn, setOffset_getD_ne _ _ _ hy]
        have hwcong : l.filter (ioWrites s1.nodes) =
            l.filter (ioWrites s.nodes) := by
          apply List.filter_congr
          intro rn hrn
          have hne : rn.2 ≠ x.2 := by
            intro hc
            exact hx_notin (hc ▸ List.mem_map_of_mem Prod.snd hrn)
          unfold ioWrites
          rw [hgd1 rn.2 hne]
        have hfl : (x :: l).filter (ioWrites s.nodes) =
            x :: l.filter (ioWrites s.nodes) := by
          rw [List.filter_cons, if_pos hw]
        have hxoff : ((l.foldl ioStep s1).nodes.getD x.2 default).offset =
            Int.ofNat s.cnt := by
          rw [ih2 x.2 (by
            intro hc
            exact hx_notin hc), hsn,
            setOffset_getD_self _ _ _ (hlt x (List.mem_cons_self _ _))]
        refine ⟨by rw [ih1, hlen1], ?_, ?_, ?_, ?_, ?_⟩
        · intro y hy
          rw [List.map_cons] at hy
          have hy1 : y ∉ l.map Prod.snd := fun hc =>
            hy (List.mem_cons_of_mem _ hc)
          have hy2 : y ≠ x.2 := fun hc => hy (hc ▸ List.mem_cons_self _ _)
          rw [ih2 y hy1, hgd1 y hy2]
        · intro y
          rw [ih3 y, hsn, setOffset_strip]
        · rw [ih4, hsc, hwcong, hfl]
          rw [List.length_cons]
          omega
        · intro rn hrn hwf
          rcases List.mem_cons.mp hrn with h | h
          · subst h
            rw [hwf] at hw
            cases hw
          · have hne : rn.2 ≠ x.2 := by
              intro hc
              exact hx_notin (hc ▸ List.mem_map_of_mem Prod.snd h)
            have hwf1 : ioWrites s1.nodes rn = false := by
              unfold ioWrites at hwf ⊢
              rw [hgd1 rn.2 hne]
              exact hwf
            rw [ih5 rn h hwf1, hgd1 rn.2 hne]
        · rw [hfl, List.map_cons, List.length_cons, List.range'_succ,
            List.map_cons, hxoff]
          congr 1
          rw [← hwcong, ih6, hsc]
      · have hwf : ioWrites s.nodes x = false := by
          cases h : ioWrites s.nodes x
          · rfl
          · exact absurd h hw
        have hskip : ioStep s x = s := ioStep_skip s x hwf
        rw [hskip]
        have hlt' : ∀ rn ∈ l, rn.2 < s.nodes.length := fun rn hrn =>
          hlt rn (List.mem_cons_of_mem _ hrn)
        obtain ⟨ih1, ih2, ih3, ih4, ih5, ih6⟩ := ih s hnd' hlt'
        have hfl : (x :: l).filter (ioWrites s.nodes) =
            l.filter (ioWrites s.nodes) := by
          rw [List.filter_cons, if_neg (by rw [hwf]; exact Bool.false_ne_true)]
        refine ⟨ih1, ?_, ih3, by rw [ih4, hfl], ?_, by rw [hfl]; exact ih6⟩
        · intro y hy
          rw [List.map_cons] at hy
          exact ih2 y (fun hc => hy (List.mem_cons_of_mem _ hc))
        · intro rn hrn hwf2
          rcases List.mem_cons.mp hrn with h | h
          · subst h
            exact ih2 rn.2 (fun hc => hx_notin hc)
          · exact ih5 rn h hwf2

end CedrQlt
namespace CedrQlt

theorem insertRN_perm (x : Int × Nat) :
    ∀ (l : List (Int × Nat)), (insertRN x l).Perm (x :: l) := by
  intro l
  induction l with
  | nil => exact List.Perm.refl _
  | cons y ys ih =>
      rw [insertRN]
      by_cases h : x.1 ≤ y.1
      · rw [if_pos h]
      · rw [if_neg h]
        have h1 : (y :: insertRN x ys).Perm (y :: x :: ys) := ih.cons y
        exact h1.trans (List.Perm.swap x y ys)

theorem sortRN_perm : ∀ (l : List (Int × Nat)), (sortRN l).Perm l := by
  intro l
  induction l with
  | nil => exact List.Perm.refl _
  | cons x xs ih =>
      rw [sortRN]
      exact (insertRN_perm x (sortRN xs)).trans (ih.cons x)


theorem initOffsets_eq (my : Int) (rns : List (Int × Nat))
    (nodes : List NSNode) (cnt : Nat) :
    initOffsets my rns nodes cnt =
      (((sortRN (rns.map (remapRN my))).foldl ioStep
          { nodes := nodes, cnt := cnt, mmds := [], prev := -1 }).nodes,
       ((sortRN (rns.map (remapRN my))).foldl ioStep
          { nodes := nodes, cnt := cnt, mmds := [], prev := -1 }).cnt,
       ((sortRN (rns.map (remapRN my))).foldl ioStep
          { nodes := nodes, cnt := cnt, mmds := [], prev := -1 }).mmds) := rfl

theorem initOffsets_spec (my : Int) (rns : List (Int × Nat))
    (nodes : List NSNode) (cnt : Nat)
    (hnd : (rns.map Prod.snd).Nodup)
    (hlt : ∀ rn ∈ rns, rn.2 < nodes.length) :
    (initOffsets my rns nodes cnt).1.length = nodes.length ∧
    (∀ x, x ∉ rns.map Prod.snd →
      (initOffsets my rns nodes cnt).1.getD x default =
        nodes.getD x default) ∧
    (∀ x, stripOff ((initOffsets my rns nodes cnt).1.getD x default) =
      stripOff (nodes.getD x default)) ∧
    ((initOffsets my rns nodes cnt).2.1 = cnt +
      (rns.filter (fun rn => ioWrites nodes (remapRN my rn))).length) ∧
    (∀ rn ∈ rns, ioWrites nodes (remapRN my rn) = false →
      (initOffsets my rns nodes cnt).1.getD rn.2 default =
        nodes.getD rn.2 default) ∧
    (((rns.filter (fun rn => ioWrites nodes (remapRN my rn))).map
        (fun rn => ((initOffsets my rns nodes cnt).1.getD rn.2
          default).offset)).Perm
      ((List.range' cnt
        (rns.filter (fun rn => ioWrites nodes (remapRN my rn))).length).map
        Int.ofNat)) := by
  have hsp : (sortRN (rns.map (remapRN my))).Perm (rns.map (remapRN my)) :=
    sortRN_perm _
  have hsndmap : (rns.map (remapRN my)).map Prod.snd = rns.map Prod.snd := by
    rw [List.map_map]
    rfl
  have hsnd : ((sortRN (rns.map (remapRN my))).map Prod.snd).Perm
      (rns.map Prod.snd) := by
    rw [← hsndmap]
    exact hsp.map Prod.snd
  have hnd' : ((sortRN (rns.map (remapRN my))).map Prod.snd).Nodup :=
    hsnd.nodup_iff.mpr hnd
  have hlt' : ∀ rn ∈ sortRN (rns.map (remapRN my)),
      rn.2 < ({ nodes := nodes, cnt := cnt, mmds := [], prev := -1 } :
        IOState).nodes.length := by
    intro rn hrn
    have h1 : rn ∈ rns.map (remapRN my) := hsp.mem_iff.mp hrn
    obtain ⟨orig, horig, heq⟩ := List.mem_map.mp h1
    have : rn.2 = orig.2 := by rw [← heq]; rfl
    rw [this]
    exact hlt orig horig
  obtain ⟨f1, f2, f3, f4, f5, f6⟩ := ioFold_spec
    (sortRN (rns.map (remapRN my)))
    { nodes := nodes, cnt := cnt, mmds := [], prev := -1 } hnd' hlt'
  have hfiltperm : ((sortRN (rns.map (remapRN my))).filter
      (ioWrites nodes)).Perm ((rns.map (remapRN my)).filter
      (ioWrites nodes)) := hsp.filter _
  have hfiltmap : (rns.map (remapRN my)).filter (ioWrites nodes) =
      (rns.filter (fun rn => ioWrites nodes (remapRN my rn))).map
        (remapRN my) := by
    rw [List.filter_map]
    rfl
  rw [initOffsets_eq]
  refine ⟨f1, ?_, f3, ?_, ?_, ?_⟩
  · intro x hx
    apply f2
    intro hc
    exact hx (hsnd.mem_iff.mp hc)
  · rw [f4]
    congr 1
    rw [hfiltperm.length_eq, hfiltmap, List.length_map]
  · intro rn hrn hw
    have hmem : remapRN my rn ∈ sortRN (rns.map (remapRN my)) :=
      hsp.mem_iff.mpr (List.mem_map_of_mem _ hrn)
    have h5 := f5 (remapRN my rn) hmem hw
    have hsnd2 : (remapRN my rn).2 = rn.2 := rfl
    rw [hsnd2] at h5
    exact h5
  · have hlen : ((sortRN (rns.map (remapRN my))).filter
        (ioWrites nodes)).length =
        (rns.filter (fun rn => ioWrites nodes (remapRN my rn))).length := by
      rw [hfiltperm.length_eq, hfiltmap, List.length_map]
    have hmapperm := hfiltperm.map (fun rn =>
      (((sortRN (rns.map (remapRN my))).foldl ioStep
        { nodes := nodes, cnt := cnt, mmds := [], prev := -1 }).nodes.getD
        rn.2 default).offset)
    have hmapeq : ((rns.map (remapRN my)).filter (ioWrites nodes)).map
        (fun rn => (((sortRN (rns.map (remapRN my))).foldl ioStep
          { nodes := nodes, cnt := cnt, mmds := [], prev := -1 }).nodes.getD
          rn.2 default).offset) =
        (rns.filter (fun rn => ioWrites nodes (remapRN my rn))).map
          (fun rn => (((sortRN (rns.map (remapRN my))).foldl ioStep
            { nodes := nodes, cnt := cnt, mmds := [], prev := -1 }).nodes.getD
            rn.2 default).offset) := by
      rw [hfiltmap, List.map_map]
      rfl
    rw [hmapeq] at hmapperm
    have := hmapperm.symm.trans (by rw [f6, hlen])
    exact this

end CedrQlt
namespace CedrQlt

theorem range1_append (s m n : Nat) :
    List.range' s m ++ List.range' (s + m) n = List.range' s (m + n) := by
  rw [Nat.add_comm m n]
  simpa using List.range'_append s m n 1


theorem initComm_eq (my : Int) (ns : NS) :
    initComm my ns =
      { nodes := (ns.levels.foldl (icStep my) (ns.nodes, 0, [])).1,
        levels := (ns.levels.foldl (icStep my) (ns.nodes, 0, [])).2.2,
        nslots := (ns.levels.foldl (icStep my) (ns.nodes, 0, [])).2.1 } := rfl





theorem meL_nil : meL [] = [] := rfl

theorem meL_cons (lv : Level) (L : List Level) :
    meL (lv :: L) = lv.nodes ++ meL L := by
  unfold meL
  rw [List.flatMap_cons]

theorem kidRemL_append (my : Int) (N : List NSNode) (a b : List Nat) :
    kidRemL my N (a ++ b) = kidRemL my N a ++ kidRemL my N b := by
  unfold kidRemL
  rw [List.flatMap_append, List.filter_append]

theorem mem_kidRemL_iff (my : Int) (N : List NSNode) (js : List Nat)
    (k : Nat) : k ∈ kidRemL my N js ↔
      k ∈ js.flatMap (kidsOfN N) ∧ (N.getD k default).rank ≠ my := by
  unfold kidRemL
  rw [List.mem_filter]
  constructor
  · rintro ⟨h1, h2⟩
    exact ⟨h1, of_decide_eq_true h2⟩
  · rintro ⟨h1, h2⟩
    exact ⟨h1, decide_eq_true h2⟩

theorem mkMeRns_snd (nodes : List NSNode) (my : Int) (js : List Nat) :
    (mkMeRns nodes my js).map Prod.snd = js := by
  unfold mkMeRns
  rw [List.map_map]
  exact List.map_id _

theorem mkKidsRns_snd (nodes : List NSNode) (js : List Nat) :
    (mkKidsRns nodes js).map Prod.snd = js.flatMap (kidsOfN nodes) := by
  unfold mkKidsRns
  rw [← List.flatMap_def, List.map_flatMap]
  unfold kidsOfN
  congr 1
  funext j
  rw [List.map_map]
  exact List.map_id _

theorem mkKidsRns_mem (nodes : List NSNode) (js : List Nat)
    (rn : Int × Nat) (h : rn ∈ mkKidsRns nodes js) :
    rn.1 = (nodes.getD rn.2 default).rank ∧
      rn.2 ∈ js.flatMap (kidsOfN nodes) := by
  unfold mkKidsRns at h
  rw [← List.flatMap_def, List.mem_flatMap] at h
  obtain ⟨j, hj, hrn⟩ := h
  rw [List.mem_map] at hrn
  obtain ⟨k, hk, heq⟩ := hrn
  subst heq
  exact ⟨rfl, List.mem_flatMap.mpr ⟨j, hj, hk⟩⟩

theorem flatMap_cons_perm (l : List Nat) (f : Nat → Int)
    (g : Nat → List Int) :
    (l.flatMap (fun j => f j :: g j)).Perm (l.map f ++ l.flatMap g) := by
  induction l with
  | nil => exact List.Perm.refl _
  | cons a l ih =>
      rw [List.flatMap_cons, List.map_cons, List.flatMap_cons]
      have h1 : (f a :: (g a ++ l.flatMap (fun j => f j :: g j))).Perm
          (f a :: (g a ++ (l.map f ++ l.flatMap g))) :=
        (List.Perm.append_left (g a) ih).cons (f a)
      have h2 : (g a ++ (l.map f ++ l.flatMap g)).Perm
          (l.map f ++ (g a ++ l.flatMap g)) := by
        have ha : (g a ++ l.map f).Perm (l.map f ++ g a) :=
          List.perm_append_comm
        have hb := ha.append_right (l.flatMap g)
        simpa [List.append_assoc] using hb
      have h3 := (h1.trans (h2.cons (f a)))
      simpa using h3

end CedrQlt
namespace CedrQlt

theorem readsNode_perm (my : Int) (N0 : List NSNode) (off : Nat → Int)
    (l : List Nat) :
    (l.flatMap (fun j => off j ::
      ((kidsOfN N0 j).filter
        (fun k => decide ((N0.getD k default).rank ≠ my))).map off)).Perm
      (l.map off ++ (kidRemL my N0 l).map off) := by
  have h1 := flatMap_cons_perm l off (fun j =>
    ((kidsOfN N0 j).filter
      (fun k => decide ((N0.getD k default).rank ≠ my))).map off)
  have h2 : l.flatMap (fun j => ((kidsOfN N0 j).filter
      (fun k => decide ((N0.getD k default).rank ≠ my))).map off) =
      (kidRemL my N0 l).map off := by
    rw [← List.map_flatMap, ← List.filter_flatMap]
    rfl
  rw [h2] at h1
  exact h1

theorem initOffsets_sorted_vals (my : Int) (rns : List (Int × Nat))
    (nodes : List NSNode) (cnt : Nat)
    (hnd : (rns.map Prod.snd).Nodup)
    (hlt : ∀ rn ∈ rns, rn.2 < nodes.length)
    (hall : ∀ rn ∈ rns, ioWrites nodes (remapRN my rn) = true) :
    ((sortRN (rns.map (remapRN my))).map
      (fun rn => ((initOffsets my rns nodes cnt).1.getD rn.2
        default).offset)) =
    (List.range' cnt rns.length).map Int.ofNat := by
  have hsp : (sortRN (rns.map (remapRN my))).Perm (rns.map (remapRN my)) :=
    sortRN_perm _
  have hsndmap : (rns.map (remapRN my)).map Prod.snd = rns.map Prod.snd := by
    rw [List.map_map]
    rfl
  have hsnd : ((sortRN (rns.map (remapRN my))).map Prod.snd).Perm
      (rns.map Prod.snd) := by
    rw [← hsndmap]
    exact hsp.map Prod.snd
  have hnd' : ((sortRN (rns.map (remapRN my))).map Prod.snd).Nodup :=
    hsnd.nodup_iff.mpr hnd
  have hlt' : ∀ rn ∈ sortRN (rns.map (remapRN my)),
      rn.2 < ({ nodes := nodes, cnt := cnt, mmds := [], prev := -1 } :
        IOState).nodes.length := by
    intro rn hrn
    have h1 : rn ∈ rns.map (remapRN my) := hsp.mem_iff.mp hrn
    obtain ⟨orig, horig, heq⟩ := List.mem_map.mp h1
    have h2 : rn.2 = orig.2 := by rw [← heq]; rfl
    rw [h2]
    exact hlt orig horig
  obtain ⟨f1, f2, f3, f4, f5, f6⟩ := ioFold_spec
    (sortRN (rns.map (remapRN my)))
    { nodes := nodes, cnt := cnt, mmds := [], prev := -1 } hnd' hlt'
  have hall' : ∀ rn ∈ sortRN (rns.map (remapRN my)),
      ioWrites nodes rn = true := by
    intro rn hrn
    have h1 : rn ∈ rns.map (remapRN my) := hsp.mem_iff.mp hrn
    obtain ⟨orig, horig, heq⟩ := List.mem_map.mp h1
    rw [← heq]
    exact hall orig horig
  have hfilt : (sortRN (rns.map (remapRN my))).filter (ioWrites nodes) =
      sortRN (rns.map (remapRN my)) := List.filter_eq_self.mpr hall'
  rw [hfilt] at f6
  have hlength : (sortRN (rns.map (remapRN my))).length = rns.length := by
    rw [hsp.length_eq, List.length_map]
  rw [hlength] at f6
  rw [initOffsets_eq]
  exact f6


theorem icFold_spec (my : Int) (N0 : List NSNode) :
    ∀ (L : List Level) (C : List Nat) (N : List NSNode) (cnt : Nat)
      (acc : List Level),
    (∀ x, stripOff (N.getD x default) = stripOff (N0.getD x default)) →
    N.length = N0.length →
    (C ++ meL L).Nodup →
    ((C ++ meL L).flatMap (kidsOfN N0)).Nodup →
    (∀ j ∈ C ++ meL L, (N0.getD j default).rank = my ∧ j < N0.length) →
    (∀ j ∈ C ++ meL L, ∀ k ∈ kidsOfN N0 j, k < N0.length) →
    (∀ q, ∀ j ∈ (L.getD q default).nodes, ∀ k ∈ kidsOfN N0 j,
      (N0.getD k default).rank = my →
      k ∈ C ++ ((L.take q).map Level.nodes).flatten) →
    (∀ x, x < N.length → ((N.getD x default).offset = -1 ↔
      x ∉ C ++ kidRemL my N0 C)) →
    ((L.foldl (icStep my) (N, cnt, acc)).1.length = N0.length) ∧
    (∀ x, stripOff ((L.foldl (icStep my) (N, cnt, acc)).1.getD x default) =
      stripOff (N0.getD x default)) ∧
    (∀ x, (N.getD x default).offset ≠ -1 →
      (L.foldl (icStep my) (N, cnt, acc)).1.getD x default =
        N.getD x default) ∧
    (∀ x, x < N0.length →
      (((L.foldl (icStep my) (N, cnt, acc)).1.getD x default).offset = -1 ↔
        x ∉ (C ++ meL L) ++ kidRemL my N0 (C ++ meL L))) ∧
    ((L.foldl (icStep my) (N, cnt, acc)).2.1 = cnt + (meL L).length +
      (kidRemL my N0 (meL L)).length) ∧
    ((readsWith my N0 (L.foldl (icStep my) (N, cnt, acc)).1 L).Perm
      ((List.range' cnt ((meL L).length +
        (kidRemL my N0 (meL L)).length)).map Int.ofNat)) ∧
    ((L.foldl (icStep my) (N, cnt, acc)).2.2.map Level.nodes =
      acc.map Level.nodes ++ L.map Level.nodes) ∧
    (∀ lv rest, L = lv :: rest → ∀ k, k < lv.nodes.length →
      (((L.foldl (icStep my) (N, cnt, acc)).1.getD
        ((sortRN ((mkMeRns N my lv.nodes).map (remapRN my))).getD k
          (0, 0)).2 default).offset = Int.ofNat (cnt + k))) := by
  intro L
  induction L with
  | nil =>
      intro C N cnt acc hstrip hlen hnd hknd hrk hklt hkb hW
      rw [List.foldl_nil]
      refine ⟨hlen, hstrip, fun _ _ => rfl, ?_, ?_, ?_, by
        rw [List.map_nil, List.append_nil], by
        intro lv rest hL
        cases hL⟩
      · intro x hx
        have h := hW x (by omega)
        rw [meL_nil, List.append_nil] at *
        exact h
      · rw [meL_nil]
        rfl
      · show (readsWith my N0 N []).Perm _
        rw [meL_nil]
        exact List.Perm.refl _
  | cons lv L' ih =>
      intro C N cnt acc hstrip hlen hnd hknd hrk hklt hkb hW
      rw [meL_cons] at hnd hknd hrk hklt
      rcases hme : initOffsets my (mkMeRns N my lv.nodes) N cnt with
        ⟨N1, cnt1, m1⟩
      rcases hkd : initOffsets my (mkKidsRns N lv.nodes) N1 cnt1 with
        ⟨N2, cnt2, m2⟩
      have hstep : icStep my (N, cnt, acc) lv =
          (N2, cnt2, acc ++ [{ lv with me := m1, kids := m2 }]) := by
        rw [icStep]
        dsimp only
        rw [hme]
        dsimp only
        rw [hkd]
      rw [List.foldl_cons, hstep]
      obtain ⟨hndC, hndR, hdisjC⟩ := List.nodup_append.mp hnd
      obtain ⟨hlvnd, hndL', hdisjlv⟩ := List.nodup_append.mp hndR
      have hlvmem : ∀ j ∈ lv.nodes, j ∈ C ++ (lv.nodes ++ meL L') := by
        intro j hj
        exact List.mem_append_right _ (List.mem_append_left _ hj)
      have hCmem : ∀ j ∈ C, j ∈ C ++ (lv.nodes ++ meL L') :=
        fun j hj => List.mem_append_left _ hj
      have hL'mem : ∀ j ∈ meL L', j ∈ C ++ (lv.nodes ++ meL L') := by
        intro j hj
        exact List.mem_append_right _ (List.mem_append_right _ hj)
      have hfmC : (C ++ (lv.nodes ++ meL L')).flatMap (kidsOfN N0) =
          C.flatMap (kidsOfN N0) ++ (lv.nodes.flatMap (kidsOfN N0) ++
            (meL L').flatMap (kidsOfN N0)) := by
        rw [List.flatMap_append, List.flatMap_append]
      rw [hfmC] at hknd
      obtain ⟨hkndC, hkndR, hkdisjC⟩ := List.nodup_append.mp hknd
      obtain ⟨hkndlv, hkndL', hkdisjlv⟩ := List.nodup_append.mp hkndR
      -- me pass
      have hmeSnd : (mkMeRns N my lv.nodes).map Prod.snd = lv.nodes :=
        mkMeRns_snd _ _ _
      have hmeNd : ((mkMeRns N my lv.nodes).map Prod.snd).Nodup := by
        rw [hmeSnd]
        exact hlvnd
      have hmeLt : ∀ rn ∈ mkMeRns N my lv.nodes, rn.2 < N.length := by
        intro rn hrn
        have h2 : rn.2 ∈ lv.nodes := by
          rw [← hmeSnd]
          exact List.mem_map_of_mem Prod.snd hrn
        rw [hlen]
        exact (hrk rn.2 (hlvmem rn.2 h2)).2
      obtain ⟨me1, me2, me3, me4, me5, me6⟩ :=
        initOffsets_spec my (mkMeRns N my lv.nodes) N cnt hmeNd hmeLt
      rw [hme] at me1 me2 me3 me4 me5 me6
      dsimp only at me1 me2 me3 me4 me5 me6
      have hlvW : ∀ x ∈ lv.nodes, x ∉ C ++ kidRemL my N0 C := by
        intro x hx hc
        rcases List.mem_append.mp hc with h | h
        · exact hdisjC h (List.mem_append_left _ hx)
        · have hrkx := (hrk x (hlvmem x hx)).1
          exact ((mem_kidRemL_iff my N0 C x).mp h).2 hrkx
      have hmeAll : ∀ rn ∈ mkMeRns N my lv.nodes,
          (fun rn => ioWrites N (remapRN my rn)) rn = true := by
        intro rn hrn
        have hsnd : rn.2 ∈ lv.nodes := by
          rw [← hmeSnd]
          exact List.mem_map_of_mem Prod.snd hrn
        show ioWrites N (remapRN my rn) = true
        unfold ioWrites remapRN
        dsimp only
        by_cases hkey : (if rn.1 = my then (-1 : Int) else rn.1) = -1
        · rw [if_pos hkey]
          have hoff : (N.getD rn.2 default).offset = -1 :=
            (hW rn.2 (hmeLt rn hrn)).mpr (hlvW rn.2 hsnd)
          rw [if_pos hoff]
        · rw [if_neg hkey]
      have hmeFilt : (mkMeRns N my lv.nodes).filter
          (fun rn => ioWrites N (remapRN my rn)) = mkMeRns N my lv.nodes :=
        List.filter_eq_self.mpr hmeAll
      rw [hmeFilt] at me4 me6
      have hmeLen : (mkMeRns N my lv.nodes).length = lv.nodes.length := by
        have h := congrArg List.length hmeSnd
        rw [List.length_map] at h
        exact h
      have hmeVals : (lv.nodes.map
          (fun j => (N1.getD j default).offset)).Perm
          ((List.range' cnt lv.nodes.length).map Int.ofNat) := by
        have h1 : (mkMeRns N my lv.nodes).map
            (fun rn => (N1.getD rn.2 default).offset) =
            lv.nodes.map (fun j => (N1.getD j default).offset) := by
          rw [show (fun rn : Int × Nat => (N1.getD rn.2 default).offset) =
            ((fun j => (N1.getD j default).offset) ∘ Prod.snd) from
            funext (fun rn => rfl), ← List.map_map, hmeSnd]
        rw [← h1, ← hmeLen]
        exact me6
      have hkids0 : ∀ j, kidsOfN N j = kidsOfN N0 j := fun j =>
        stripOff_kids _ _ (hstrip j)
      have hrank0 : ∀ j, (N.getD j default).rank =
          (N0.getD j default).rank := fun j => stripOff_rank _ _ (hstrip j)
      have hkdSnd : (mkKidsRns N lv.nodes).map Prod.snd =
          lv.nodes.flatMap (kidsOfN N0) := by
        rw [mkKidsRns_snd]
        exact List.flatMap_congr (fun j _ => hkids0 j)
      have hkdNd : ((mkKidsRns N lv.nodes).map Prod.snd).Nodup := by
        rw [hkdSnd]
        exact hkndlv
      have hkdLt : ∀ rn ∈ mkKidsRns N lv.nodes, rn.2 < N1.length := by
        intro rn hrn
        have h2 : rn.2 ∈ lv.nodes.flatMap (kidsOfN N0) := by
          rw [← hkdSnd]
          exact List.mem_map_of_mem Prod.snd hrn
        obtain ⟨j, hj, hk⟩ := List.mem_flatMap.mp h2
        have h3 := hklt j (hlvmem j hj) rn.2 hk
        rw [me1, hlen]
        exact h3
      obtain ⟨kd1, kd2, kd3, kd4, kd5, kd6⟩ :=
        initOffsets_spec my (mkKidsRns N lv.nodes) N1 cnt1 hkdNd hkdLt
      rw [hkd] at kd1 kd2 kd3 kd4 kd5 kd6
      dsimp only at kd1 kd2 kd3 kd4 kd5 kd6
      have hstrip1 : ∀ x, stripOff (N1.getD x default) =
          stripOff (N0.getD x default) := fun x => (me3 x).trans (hstrip x)
      have hstrip2 : ∀ x, stripOff (N2.getD x default) =
          stripOff (N0.getD x default) := fun x => (kd3 x).trans (hstrip1 x)
      have hCoff : ∀ x ∈ C, (N1.getD x default).offset ≠ -1 := by
        intro x hx
        have hxlt : x < N.length := by
          rw [hlen]
          exact (hrk x (hCmem x hx)).2
        have hne : (N.getD x default).offset ≠ -1 := by
          intro hc
          exact ((hW x hxlt).mp hc) (List.mem_append_left _ hx)
        have heq : N1.getD x default = N.getD x default := me2 x (by
          rw [hmeSnd]
          intro hc
          exact hdisjC hx (List.mem_append_left _ hc))
        rw [heq]
        exact hne
      have hkw : ∀ rn ∈ mkKidsRns N lv.nodes,
          (fun rn => ioWrites N1 (remapRN my rn)) rn =
          (fun rn => decide ((N0.getD rn.2 default).rank ≠ my)) rn := by
        intro rn hrn
        obtain ⟨hr1, hr2⟩ := mkKidsRns_mem N lv.nodes rn hrn
        have hr2' : rn.2 ∈ lv.nodes.flatMap (kidsOfN N0) := by
          rw [show lv.nodes.flatMap (kidsOfN N0) =
            lv.nodes.flatMap (kidsOfN N) from
            List.flatMap_congr (fun j _ => (hkids0 j).symm)]
          exact hr2
        have hkey : rn.1 = (N0.getD rn.2 default).rank := by
          rw [hr1, hrank0]
        dsimp only
        by_cases hrm : (N0.getD rn.2 default).rank = my
        · rw [decide_eq_false (fun hne => hne hrm)]
          have hinC : rn.2 ∈ C := by
            obtain ⟨j, hj, hk⟩ := List.mem_flatMap.mp hr2'
            have hbl := hkb 0 j (by
              rw [show ((lv :: L').getD 0 default) = lv from rfl]
              exact hj) rn.2 hk hrm
            simpa using hbl
          have hoff1 : (N1.getD rn.2 default).offset ≠ -1 := hCoff rn.2 hinC
          unfold ioWrites remapRN
          dsimp only
          have hkeym : rn.1 = my := by rw [hkey, hrm]
          rw [if_pos hkeym, if_pos rfl, if_neg hoff1]
        · rw [decide_eq_true hrm]
          unfold ioWrites remapRN
          dsimp only
          by_cases hkeym : (if rn.1 = my then (-1 : Int) else rn.1) = -1
          · rw [if_pos hkeym]
            have hrnlt : rn.2 < N.length := by
              rw [← me1]
              exact hkdLt rn hrn
            have hoffN : (N.getD rn.2 default).offset = -1 := by
              apply (hW rn.2 hrnlt).mpr
              intro hc
              rcases List.mem_append.mp hc with h | h
              · exact hrm ((hrk rn.2 (hCmem _ h)).1)
              · have hsub := ((mem_kidRemL_iff my N0 C rn.2).mp h).1
                exact hkdisjC hsub (List.mem_append_left _ hr2')
            have hoffN1 : (N1.getD rn.2 default).offset = -1 := by
              rw [me2 rn.2 (by
                rw [hmeSnd]
                intro hc
                exact hrm ((hrk rn.2 (hlvmem _ hc)).1))]
              exact hoffN
            rw [if_pos hoffN1]
          · rw [if_neg hkeym]
      have hkdFilt : (mkKidsRns N lv.nodes).filter
          (fun rn => ioWrites N1 (remapRN my rn)) =
          (mkKidsRns N lv.nodes).filter
            (fun rn => decide ((N0.getD rn.2 default).rank ≠ my)) :=
        List.filter_congr hkw
      have hkdfsnd : ((mkKidsRns N lv.nodes).filter
          (fun rn => decide ((N0.getD rn.2 default).rank ≠ my))).map
            Prod.snd = kidRemL my N0 lv.nodes := by
        have h := @List.filter_map _ _
          (fun k => decide ((N0.getD k default).rank ≠ my)) Prod.snd
          (mkKidsRns N lv.nodes)
        rw [hkdSnd] at h
        have hpred : (fun rn : Int × Nat =>
            decide ((N0.getD rn.2 default).rank ≠ my)) =
            ((fun k => decide ((N0.getD k default).rank ≠ my)) ∘ Prod.snd) :=
          funext (fun rn => rfl)
        rw [hpred, ← h]
        rfl
      have hkdflen : ((mkKidsRns N lv.nodes).filter
          (fun rn => decide ((N0.getD rn.2 default).rank ≠ my))).length =
          (kidRemL my N0 lv.nodes).length := by
        have h := congrArg List.length hkdfsnd
        rw [List.length_map] at h
        exact h
      have hkdVals : ((kidRemL my N0 lv.nodes).map
          (fun k => (N2.getD k default).offset)).Perm
          ((List.range' cnt1 (kidRemL my N0 lv.nodes).length).map
            Int.ofNat) := by
        rw [hkdFilt] at kd6
        have h1 : ((mkKidsRns N lv.nodes).filter
            (fun rn => decide ((N0.getD rn.2 default).rank ≠ my))).map
            (fun rn => (N2.getD rn.2 default).offset) =
            (kidRemL my N0 lv.nodes).map
              (fun k => (N2.getD k default).offset) := by
          rw [show (fun rn : Int × Nat => (N2.getD rn.2 default).offset) =
            ((fun k => (N2.getD k default).offset) ∘ Prod.snd) from
            funext (fun rn => rfl), ← List.map_map, hkdfsnd]
        rw [← h1, ← hkdflen]
        exact kd6
      rw [hkdFilt] at kd4
      rw [hkdflen] at kd4
      rw [hmeLen] at me4
      have hlen1 : N1.length = N0.length := by rw [me1, hlen]
      have hlen2 : N2.length = N0.length := by rw [kd1, hlen1]
      have hmeValGe : ∀ j ∈ lv.nodes, (N1.getD j default).offset ≠ -1 := by
        intro j hj
        have hmem : (N1.getD j default).offset ∈
            (lv.nodes.map (fun j => (N1.getD j default).offset)) :=
          List.mem_map_of_mem _ hj
        have hmem2 := hmeVals.mem_iff.mp hmem
        obtain ⟨v, _, hv⟩ := List.mem_map.mp hmem2
        intro hc
        rw [hc] at hv
        have hnn : (0 : Int) ≤ Int.ofNat v := Int.ofNat_nonneg v
        omega
      have hkdValGe : ∀ k ∈ kidRemL my N0 lv.nodes,
          (N2.getD k default).offset ≠ -1 := by
        intro k hk
        have hmem : (N2.getD k default).offset ∈
            ((kidRemL my N0 lv.nodes).map
              (fun k => (N2.getD k default).offset)) :=
          List.mem_map_of_mem _ hk
        have hmem2 := hkdVals.mem_iff.mp hmem
        obtain ⟨v, _, hv⟩ := List.mem_map.mp hmem2
        intro hc
        rw [hc] at hv
        have hnn : (0 : Int) ≤ Int.ofNat v := Int.ofNat_nonneg v
        omega
      have hSkipN2 : ∀ x, (N0.getD x default).rank = my →
          N2.getD x default = N1.getD x default := by
        intro x hxr
        by_cases hxk : x ∈ lv.nodes.flatMap (kidsOfN N0)
        · have hxk2 : x ∈ (mkKidsRns N lv.nodes).map Prod.snd := by
            rw [hkdSnd]
            exact hxk
          obtain ⟨rn, hrn, hrnx⟩ := List.mem_map.mp hxk2
          have hwf := hkw rn hrn
          dsimp only at hwf
          rw [hrnx, decide_eq_false (fun hne => hne hxr)] at hwf
          have h5 := kd5 rn hrn hwf
          rw [hrnx] at h5
          exact h5
        · apply kd2
          rw [hkdSnd]
          exact hxk
      have hW' : ∀ x, x < N2.length →
          ((N2.getD x default).offset = -1 ↔
            x ∉ (C ++ lv.nodes) ++ kidRemL my N0 (C ++ lv.nodes)) := by
        intro x hxlt2
        have hxlt0 : x < N0.length := by omega
        have hxltN : x < N.length := by omega
        rw [kidRemL_append]
        constructor
        · intro hoff hc
          rcases List.mem_append.mp hc with h | h
          · rcases List.mem_append.mp h with h2 | h2
            · have := hCoff x h2
              rw [hSkipN2 x (hrk x (hCmem x h2)).1] at hoff
              exact this hoff
            · have := hmeValGe x h2
              rw [hSkipN2 x (hrk x (hlvmem x h2)).1] at hoff
              exact this hoff
          · rcases List.mem_append.mp h with h2 | h2
            · have hrkne := ((mem_kidRemL_iff my N0 C x).mp h2).2
              have hN : (N.getD x default).offset ≠ -1 := by
                intro hcN
                exact ((hW x hxltN).mp hcN)
                  (List.mem_append_right _ h2)
              have hN1 : N1.getD x default = N.getD x default := by
                apply me2
                rw [hmeSnd]
                intro hcm
                exact hrkne (hrk x (hlvmem x hcm)).1
              have hN2 : N2.getD x default = N1.getD x default := by
                apply kd2
                rw [hkdSnd]
                intro hck
                exact hkdisjC ((mem_kidRemL_iff my N0 C x).mp h2).1
                  (List.mem_append_left _ hck)
              rw [hN2, hN1] at hoff
              exact hN hoff
            · exact hkdValGe x h2 hoff
        · intro hnmem
          have hxC : x ∉ C := fun hc => hnmem (List.mem_append_left _
            (List.mem_append_left _ hc))
          have hxlv : x ∉ lv.nodes := fun hc => hnmem
            (List.mem_append_left _ (List.mem_append_right _ hc))
          have hxkC : x ∉ kidRemL my N0 C := fun hc => hnmem
            (List.mem_append_right _ (List.mem_append_left _ hc))
          have hxklv : x ∉ kidRemL my N0 lv.nodes := fun hc => hnmem
            (List.mem_append_right _ (List.mem_append_right _ hc))
          have hN : (N.getD x default).offset = -1 := by
            apply (hW x hxltN).mpr
            intro hc
            rcases List.mem_append.mp hc with h | h
            · exact hxC h
            · exact hxkC h
          have hN1 : N1.getD x default = N.getD x default := by
            apply me2
            rw [hmeSnd]
            exact hxlv
          have hN2 : N2.getD x default = N1.getD x default := by
            apply kd2
            rw [hkdSnd]
            intro hck
            by_cases hxr : (N0.getD x default).rank = my
            · obtain ⟨j, hj, hk⟩ := List.mem_flatMap.mp hck
              have hbl := hkb 0 j (by
                rw [show ((lv :: L').getD 0 default) = lv from rfl]
                exact hj) x hk hxr
              simp only [List.take_zero, List.map_nil, List.flatten_nil,
                List.append_nil] at hbl
              exact hxC hbl
            · exact hxklv ((mem_kidRemL_iff my N0 lv.nodes x).mpr
                ⟨hck, hxr⟩)
          rw [hN2, hN1]
          exact hN
      have hnd' : ((C ++ lv.nodes) ++ meL L').Nodup := by
        rw [List.append_assoc]
        exact hnd
      have hknd' : (((C ++ lv.nodes) ++ meL L').flatMap
          (kidsOfN N0)).Nodup := by
        rw [List.flatMap_append, List.flatMap_append, List.append_assoc]
        exact hknd
      have hrk' : ∀ j ∈ (C ++ lv.nodes) ++ meL L',
          (N0.getD j default).rank = my ∧ j < N0.length := by
        intro j hj
        apply hrk
        rw [← List.append_assoc]
        exact hj
      have hklt' : ∀ j ∈ (C ++ lv.nodes) ++ meL L',
          ∀ k ∈ kidsOfN N0 j, k < N0.length := by
        intro j hj
        apply hklt
        rw [← List.append_assoc]
        exact hj
      have hkb' : ∀ q, ∀ j ∈ (L'.getD q default).nodes,
          ∀ k ∈ kidsOfN N0 j, (N0.getD k default).rank = my →
          k ∈ (C ++ lv.nodes) ++ ((L'.take q).map Level.nodes).flatten := by
        intro q j hj k hk hkr
        have hb := hkb (q + 1) j (by
          rw [show (((lv :: L').getD (q + 1) default)) =
            L'.getD q default from rfl]
          exact hj) k hk hkr
        rw [List.take_succ_cons, List.map_cons, List.flatten_cons] at hb
        rw [List.append_assoc]
        exact hb
      obtain ⟨f1, f2, f3, f4, f5, f6, f7, f8⟩ := ih (C ++ lv.nodes) N2 cnt2
        (acc ++ [{ lv with me := m1, kids := m2 }]) hstrip2 hlen2 hnd'
        hknd' hrk' hklt' hkb' hW'
      have hN2off : ∀ j ∈ lv.nodes, (N2.getD j default).offset ≠ -1 := by
        intro j hj
        rw [hSkipN2 j (hrk j (hlvmem j hj)).1]
        exact hmeValGe j hj
      have hFeqlv : ∀ j ∈ lv.nodes,
          (List.foldl (icStep my) (N2, cnt2,
            acc ++ [{ lv with me := m1, kids := m2 }]) L').1.getD j
            default = N2.getD j default := by
        intro j hj
        exact f3 j (hN2off j hj)
      have hFeqkr : ∀ k ∈ kidRemL my N0 lv.nodes,
          (List.foldl (icStep my) (N2, cnt2,
            acc ++ [{ lv with me := m1, kids := m2 }]) L').1.getD k
            default = N2.getD k default := by
        intro k hk
        exact f3 k (hkdValGe k hk)
      refine ⟨f1, f2, ?_, ?_, ?_, ?_, ?_, ?_⟩
      · intro x hx
        have hxlt : x < N.length := by
          by_contra hc
          rw [List.getD_eq_default _ _ (le_of_not_lt hc)] at hx
          exact hx rfl
        have hxW : x ∈ C ++ kidRemL my N0 C := by
          by_contra hc
          exact hx ((hW x hxlt).mpr hc)
        have hN1x : N1.getD x default = N.getD x default := by
          apply me2
          rw [hmeSnd]
          intro hcm
          exact (hlvW x hcm) hxW
        have hN2x : N2.getD x default = N1.getD x default := by
          rcases List.mem_append.mp hxW with h | h
          · exact hSkipN2 x (hrk x (hCmem x h)).1
          · apply kd2
            rw [hkdSnd]
            intro hck
            exact hkdisjC ((mem_kidRemL_iff my N0 C x).mp h).1
              (List.mem_append_left _ hck)
        have hfin := f3 x (by
          rw [hN2x, hN1x]
          exact hx)
        rw [hfin, hN2x, hN1x]
      · intro x hxlt
        have h4 := f4 x hxlt
        rw [h4]
        constructor
        · intro hn hc
          apply hn
          rw [meL_cons] at hc
          rw [show (C ++ lv.nodes) ++ meL L' =
            C ++ (lv.nodes ++ meL L') from List.append_assoc _ _ _]
          exact hc
        · intro hn hc
          apply hn
          rw [meL_cons]
          rw [show (C ++ lv.nodes) ++ meL L' =
            C ++ (lv.nodes ++ meL L') from List.append_assoc _ _ _] at hc
          exact hc
      · rw [f5, kd4, me4, meL_cons, kidRemL_append, List.length_append,
          List.length_append]
        omega
      · show (readsWith my N0 _ (lv :: L')).Perm _
        unfold readsWith
        rw [List.flatMap_cons]
        have hchunk_eq : lv.nodes.flatMap (fun j =>
            ((List.foldl (icStep my) (N2, cnt2,
              acc ++ [{ lv with me := m1, kids := m2 }]) L').1.getD j
              default).offset ::
            ((kidsOfN N0 j).filter
              (fun k => decide ((N0.getD k default).rank ≠ my))).map
              (fun k => ((List.foldl (icStep my) (N2, cnt2,
                acc ++ [{ lv with me := m1, kids := m2 }]) L').1.getD k
                default).offset)) =
            lv.nodes.flatMap (fun j =>
            (N2.getD j default).offset ::
            ((kidsOfN N0 j).filter
              (fun k => decide ((N0.getD k default).rank ≠ my))).map
              (fun k => (N2.getD k default).offset)) := by
          apply List.flatMap_congr
          intro j hj
          rw [hFeqlv j hj]
          congr 1
          apply List.map_congr_left
          intro k hk
          have hkmem : k ∈ kidRemL my N0 lv.nodes := by
            rw [mem_kidRemL_iff]
            refine ⟨?_, ?_⟩
            · exact List.mem_flatMap.mpr ⟨j, hj,
                (List.mem_filter.mp hk).1⟩
            · exact of_decide_eq_true (List.mem_filter.mp hk).2
          rw [hFeqkr k hkmem]
        rw [hchunk_eq]
        have hp1 := readsNode_perm my N0
          (fun j => (N2.getD j default).offset) lv.nodes
        have hmN2 : lv.nodes.map (fun j => (N2.getD j default).offset) =
            lv.nodes.map (fun j => (N1.getD j default).offset) := by
          apply List.map_congr_left
          intro j hj
          rw [hSkipN2 j (hrk j (hlvmem j hj)).1]
        have hp2 : (lv.nodes.map (fun j => (N2.getD j default).offset) ++
            (kidRemL my N0 lv.nodes).map
              (fun k => (N2.getD k default).offset)).Perm
            ((List.range' cnt lv.nodes.length).map Int.ofNat ++
              (List.range' cnt1 (kidRemL my N0 lv.nodes).length).map
                Int.ofNat) := by
          rw [hmN2]
          exact hmeVals.append hkdVals
        have hcnt1 : cnt1 = cnt + lv.nodes.length := me4
        have hrange12 : (List.range' cnt lv.nodes.length).map Int.ofNat ++
            (List.range' cnt1 (kidRemL my N0 lv.nodes).length).map
              Int.ofNat =
            (List.range' cnt (lv.nodes.length +
              (kidRemL my N0 lv.nodes).length)).map Int.ofNat := by
          rw [← List.map_append, hcnt1, range1_append]
        have hp3 := (hp1.trans hp2)
        rw [hrange12] at hp3
        have hp4 := hp3.append f6
        have hcnt2 : cnt2 = cnt + (lv.nodes.length +
            (kidRemL my N0 lv.nodes).length) := by
          rw [kd4, hcnt1]
          omega
        have hrange34 : (List.range' cnt (lv.nodes.length +
            (kidRemL my N0 lv.nodes).length)).map Int.ofNat ++
            (List.range' cnt2 ((meL L').length +
              (kidRemL my N0 (meL L')).length)).map Int.ofNat =
            (List.range' cnt ((meL (lv :: L')).length +
              (kidRemL my N0 (meL (lv :: L'))).length)).map Int.ofNat := by
          rw [← List.map_append, hcnt2, range1_append]
          congr 2
          rw [meL_cons, kidRemL_append, List.length_append,
            List.length_append]
          omega
        rw [hrange34] at hp4
        exact hp4
      · rw [f7, List.map_append, List.map_cons]
        simp
      · intro lv2 rest hL k hk
        cases hL
        have hsorted := initOffsets_sorted_vals my (mkMeRns N my lv.nodes)
          N cnt hmeNd hmeLt hmeAll
        set srt := sortRN ((mkMeRns N my lv.nodes).map (remapRN my))
          with hsrt
        have hsrtlen : srt.length = lv.nodes.length := by
          rw [hsrt, (sortRN_perm _).length_eq, List.length_map, hmeLen]
        have hklen : k < srt.length := by omega
        have hpt : ((srt.map (fun rn => ((initOffsets my
            (mkMeRns N my lv.nodes) N cnt).1.getD rn.2
            default).offset)).getD k 0) =
            (((List.range' cnt (mkMeRns N my lv.nodes).length).map
              Int.ofNat).getD k 0) := by
          rw [hsorted]
        rw [List.getD_eq_getElem?_getD, List.getElem?_map,
          List.getElem?_eq_getElem hklen] at hpt
        have hklen2 : k < (List.range' cnt
            (mkMeRns N my lv.nodes).length).length := by
          rw [List.length_range', hmeLen]
          omega
        rw [List.getD_eq_getElem?_getD, List.getElem?_map,
          List.getElem?_eq_getElem hklen2] at hpt
        simp only [Option.map_some', Option.getD_some] at hpt
        rw [List.getElem_range'] at hpt
        rw [hme] at hpt
        dsimp only at hpt
        have hgetd : srt.getD k (0, 0) = srt[k] := by
          rw [List.getD_eq_getElem?_getD, List.getElem?_eq_getElem hklen]
          rfl
        set slot := (srt.getD k (0, 0)).2 with hslot
        have hslotk : slot = (srt[k]).2 := by rw [hslot, hgetd]
        have hN1slot : (N1.getD slot default).offset =
            Int.ofNat (cnt + k) := by
          rw [hslotk]
          rw [hpt]
          rw [Nat.one_mul]
        have hslotmem : slot ∈ lv.nodes := by
          have h1 : slot ∈ srt.map Prod.snd := by
            rw [hslotk]
            exact List.mem_map_of_mem Prod.snd (srt.getElem_mem hklen)
          have h2 : (srt.map Prod.snd).Perm (lv.nodes) := by
            have ha : ((mkMeRns N my lv.nodes).map
                (remapRN my)).map Prod.snd =
                (mkMeRns N my lv.nodes).map Prod.snd := by
              rw [List.map_map]
              rfl
            have hb := (sortRN_perm ((mkMeRns N my lv.nodes).map
              (remapRN my))).map Prod.snd
            rw [ha, hmeSnd] at hb
            exact hb
          exact h2.mem_iff.mp h1
        have hN2slot : N2.getD slot default = N1.getD slot default :=
          hSkipN2 slot (hrk slot (hlvmem slot hslotmem)).1
        have hfinslot := f3 slot (by
          rw [hN2slot, hN1slot]
          intro hc
          have hnn : (0 : Int) ≤ Int.ofNat (cnt + k) :=
            Int.ofNat_nonneg _
          omega)
        rw [hfinslot, hN2slot, hN1slot]

end CedrQlt
namespace CedrQlt

theorem consolidate_nodes (ns : NS) : (consolidate ns).nodes = ns.nodes := rfl

theorem levelNodes_consolidate (ns : NS) :
    levelNodes (consolidate ns) = levelNodes ns := by
  unfold levelNodes consolidate
  dsimp only
  induction ns.levels with
  | nil => rfl
  | cons x xs ih =>
      rw [List.filter_cons]
      by_cases hx : x.nodes.isEmpty
      · have hxe : x.nodes = [] := List.isEmpty_iff.mp hx
        rw [if_neg (by simp [hx]), List.map_cons, List.flatten_cons, hxe,
          List.nil_append, ih]
      · rw [if_pos (by simp [hx]), List.map_cons, List.flatten_cons, ih,
          List.map_cons, List.flatten_cons]

theorem ownedKidsOf_consolidate (ns : NS) :
    ownedKidsOf (consolidate ns) = ownedKidsOf ns := by
  unfold ownedKidsOf
  rw [levelNodes_consolidate]
  rfl

theorem kid_below_filter (my : Int) (N : List NSNode)
    (f : Level → Bool) (hf : ∀ lv, f lv = false → lv.nodes = []) :
    ∀ (L : List Level) (C : List Nat),
    (∀ q, ∀ j ∈ (L.getD q default).nodes, ∀ k ∈ (N.getD j default).kids,
      (N.getD k default).rank = my →
      k ∈ C ++ ((L.take q).map Level.nodes).flatten) →
    (∀ q, ∀ j ∈ ((L.filter f).getD q default).nodes,
      ∀ k ∈ (N.getD j default).kids, (N.getD k default).rank = my →
      k ∈ C ++ (((L.filter f).take q).map Level.nodes).flatten) := by
  intro L
  induction L with
  | nil =>
      intro C _ q j hj
      rw [List.filter_nil] at hj
      rw [List.getD_eq_default _ _ (Nat.zero_le q)] at hj
      have hdn : (default : Level).nodes = [] := rfl
      rw [hdn] at hj
      cases hj
  | cons x L' ih =>
      intro C h
      have h' : ∀ q, ∀ j ∈ (L'.getD q default).nodes,
          ∀ k ∈ (N.getD j default).kids, (N.getD k default).rank = my →
          k ∈ (C ++ x.nodes) ++ ((L'.take q).map Level.nodes).flatten := by
        intro q j hj k hk hkr
        have hb := h (q + 1) j (by
          rw [show (((x :: L').getD (q + 1) default)) =
            L'.getD q default from rfl]
          exact hj) k hk hkr
        rw [List.take_succ_cons, List.map_cons, List.flatten_cons] at hb
        rw [List.append_assoc]
        exact hb
      by_cases hfx : f x = true
      · rw [List.filter_cons, if_pos hfx]
        intro q
        cases q with
        | zero =>
            intro j hj k hk hkr
            have hb := h 0 j (by
              rw [show (((x :: L').getD 0 default)) = x from rfl]
              exact hj) k hk hkr
            simpa using hb
        | succ q' =>
            intro j hj k hk hkr
            have hb := ih (C ++ x.nodes) h' q' j (by
              rw [show (((x :: L'.filter f).getD (q' + 1) default)) =
                (L'.filter f).getD q' default from rfl] at hj
              exact hj) k hk hkr
            rw [List.take_succ_cons, List.map_cons, List.flatten_cons]
            rw [List.append_assoc] at hb
            exact hb
      · have hfx' : f x = false := by
          cases hc : f x
          · rfl
          · exact absurd hc hfx
        have hxe : x.nodes = [] := hf x hfx'
        rw [List.filter_cons, if_neg (by rw [hfx']; exact Bool.false_ne_true)]
        intro q j hj k hk hkr
        have hb := ih (C ++ x.nodes) h' q j hj k hk hkr
        rw [hxe, List.append_nil] at hb
        exact hb

end CedrQlt
namespace CedrQlt

theorem analyze_ok (my ncells : Int) (t : Tree) (ns : NS)
    (h : analyze my ncells t = .ok ns) :
    ∃ it c d, initTree t ncells = .ok (it, c, d) ∧
      ns = initComm my (consolidate (lsc my it
        { nodes := [], levels := List.replicate d {}, nslots := 0 }).1) := by
  unfold analyze at h
  cases hit : initTree t ncells with
  | error e =>
      rw [hit, exc_bind_err] at h
      cases h
  | ok v =>
      obtain ⟨it, c, d⟩ := v
      rw [hit, exc_bind_ok] at h
      dsimp only at h
      refine ⟨it, c, d, rfl, ?_⟩
      injection h with h3
      exact h3.symm

theorem levelNodes_init (d : Nat) :
    levelNodes { nodes := [], levels := List.replicate d {}, nslots := 0 }
      = [] := by
  unfold levelNodes
  dsimp only
  induction d with
  | zero => rfl
  | succ n ih =>
      rw [List.replicate_succ, List.map_cons, List.flatten_cons]
      rw [show Level.nodes ({} : Level) = [] from rfl, List.nil_append]
      exact ih

theorem lscInv_init (my : Int) (d : Nat) :
    LscInv my { nodes := []
                levels := List.replicate d ({} : Level)
                nslots := 0 } := by
  refine ⟨?_, ?_, ?_, ?_, ?_, ?_, ?_⟩
  · intro j hj
    rw [levelNodes_init] at hj
    cases hj
  · rw [levelNodes_init]
    exact List.nodup_nil
  · intro j hj
    rw [levelNodes_init] at hj
    cases hj
  · intro k hk
    unfold ownedKidsOf at hk
    rw [levelNodes_init] at hk
    cases hk
  · unfold ownedKidsOf
    rw [levelNodes_init]
    exact List.nodup_nil
  · intro q j hj
    dsimp only at hj
    by_cases hq : q < d
    · rw [List.getD_eq_getElem?_getD, List.getElem?_replicate,
        if_pos hq] at hj
      simp only [Option.getD_some] at hj
      cases hj
    · rw [List.getD_eq_default _ _ (by
        rw [List.length_replicate]
        omega)] at hj
      rw [show Level.nodes (default : Level) = [] from rfl] at hj
      cases hj
  · intro j
    show ((List.getD [] j default : NSNode)).offset = -1
    rw [List.getD_eq_default _ _ (Nat.zero_le j)]
    rfl

theorem readsWith_congr_levels (my : Int) (N0 Nf : List NSNode)
    (L1 L2 : List Level) (h : L1.map Level.nodes = L2.map Level.nodes) :
    readsWith my N0 Nf L1 = readsWith my N0 Nf L2 := by
  unfold readsWith
  rw [List.flatMap_def, List.flatMap_def]
  have h1 : L1.map (fun lv => lv.nodes.flatMap (fun j =>
      (Nf.getD j default).offset ::
        ((kidsOfN N0 j).filter
          (fun k => decide ((N0.getD k default).rank ≠ my))).map
          (fun k => (Nf.getD k default).offset))) =
      (L1.map Level.nodes).map (fun js => js.flatMap (fun j =>
      (Nf.getD j default).offset ::
        ((kidsOfN N0 j).filter
          (fun k => decide ((N0.getD k default).rank ≠ my))).map
          (fun k => (Nf.getD k default).offset))) := by
    rw [List.map_map]
    rfl
  have h2 : L2.map (fun lv => lv.nodes.flatMap (fun j =>
      (Nf.getD j default).offset ::
        ((kidsOfN N0 j).filter
          (fun k => decide ((N0.getD k default).rank ≠ my))).map
          (fun k => (Nf.getD k default).offset))) =
      (L2.map Level.nodes).map (fun js => js.flatMap (fun j =>
      (Nf.getD j default).offset ::
        ((kidsOfN N0 j).filter
          (fun k => decide ((N0.getD k default).rank ≠ my))).map
          (fun k => (Nf.getD k default).offset))) := by
    rw [List.map_map]
    rfl
  rw [h1, h2, h]

theorem checkComm_eq_readsWith (my : Int) (ns : NS) (N0 : List NSNode)
    (hstrip : ∀ x, stripOff (ns.nodes.getD x default) =
      stripOff (N0.getD x default))
    (hrkmem : ∀ j ∈ meL ns.levels, (N0.getD j default).rank = my) :
    checkCommOffsets ns = readsWith my N0 ns.nodes ns.levels := by
  unfold checkCommOffsets readsWith
  rw [List.flatMap_def]
  congr 1
  apply List.map_congr_left
  intro lvl hlvl
  rw [List.flatMap_def]
  congr 1
  apply List.map_congr_left
  intro j hj
  have hjme : j ∈ meL ns.levels := by
    unfold meL
    exact List.mem_flatMap.mpr ⟨lvl, hlvl, hj⟩
  have hrj : (nodeAt ns j).rank = my := by
    have e := stripOff_rank _ _ (hstrip j)
    have e2 : (nodeAt ns j).rank = (N0.getD j default).rank := e
    rw [e2]
    exact hrkmem j hjme
  have hkj : (nodeAt ns j).kids = kidsOfN N0 j :=
    stripOff_kids _ _ (hstrip j)
  show (nodeAt ns j).offset :: _ = (ns.nodes.getD j default).offset :: _
  congr 1
  rw [hkj]
  have hfc : ∀ k, k ∈ kidsOfN N0 j →
      (decide ((nodeAt ns k).rank ≠ (nodeAt ns j).rank) : Bool) =
      decide ((N0.getD k default).rank ≠ my) := by
    intro k _
    apply decide_eq_decide.mpr
    have e1 : (nodeAt ns k).rank = (N0.getD k default).rank :=
      stripOff_rank _ _ (hstrip k)
    rw [e1, hrj]
  rw [List.filter_congr hfc]
  rfl

end CedrQlt
namespace CedrQlt

theorem meL_eq_levelNodes (ns : NS) : meL ns.levels = levelNodes ns := by
  unfold meL levelNodes
  rw [List.flatMap_def]

theorem meL_map_nodes (L : List Level) :
    meL L = (L.map Level.nodes).flatten := by
  unfold meL
  rw [List.flatMap_def]

/-- C4: in the NodeSets produced by `analyze`, the offsets traversed by
`check_comm` (each owned node's own offset followed by the offsets of its
remotely-owned kids) are exactly `{0, 1, …, nslots−1}`, each occurring
once. -/
theorem claim_c4_offsets (my ncells : Int) (t : Tree) (ns : NS)
    (h : analyze my ncells t = .ok ns) :
    (checkCommOffsets ns).Perm ((List.range ns.nslots).map Int.ofNat) := by
  obtain ⟨it, c, d, hit, hns⟩ := analyze_ok my ncells t ns h
  have hI0 : LscInv my { nodes := []
                         levels := List.replicate d ({} : Level)
                         nslots := 0 } := lscInv_init my d
  have hw : it.wellRanked := initTree_wellRanked t ncells it c d hit
  have hd : d = it.height + 1 := initTree_height t ncells it c d hit
  have hh : it.height < ({ nodes := []
                           levels := List.replicate d ({} : Level)
                           nslots := 0 } : NS).levels.length := by
    show it.height < (List.replicate d ({} : Level)).length
    rw [List.length_replicate]
    omega
  obtain ⟨hI1, hP1⟩ := lsc_spec my it _ hI0 hw hh
  set ns1 := (lsc my it { nodes := []
                          levels := List.replicate d ({} : Level)
                          nslots := 0 }).1 with hns1
  set nsC := consolidate ns1 with hnsC
  set N0 := ns1.nodes with hN0
  have hClvl : levelNodes nsC = levelNodes ns1 := levelNodes_consolidate ns1
  have hCkids : ownedKidsOf nsC = ownedKidsOf ns1 :=
    ownedKidsOf_consolidate ns1
  have hmeLc : meL nsC.levels = levelNodes ns1 := by
    rw [meL_eq_levelNodes, hClvl]
  have hokids : ∀ j : Nat, kidsOfN N0 j = (nodeAt ns1 j).kids :=
    fun j => rfl
  have hokeq : (levelNodes ns1).flatMap (kidsOfN N0) = ownedKidsOf ns1 :=
    rfl
  have hf' : ∀ lv : Level, (fun lvl => ¬ lvl.nodes.isEmpty : Level → Bool)
      lv = false → lv.nodes = [] := by
    intro lv hlv
    have h1 := of_decide_eq_false hlv
    have h2 : lv.nodes.isEmpty = true := by
      by_contra h3
      exact h1 h3
    exact List.isEmpty_iff.mp h2
  have hkb0 : ∀ q, ∀ j ∈ (ns1.levels.getD q default).nodes,
      ∀ k ∈ (N0.getD j default).kids, (N0.getD k default).rank = my →
      k ∈ ([] : List Nat) ++ ((ns1.levels.take q).map Level.nodes).flatten := by
    intro q j hj k hk hkr
    rw [List.nil_append]
    exact hI1.kid_below q j hj k hk hkr
  have hkbC := kid_below_filter my N0 (fun lvl => ¬ lvl.nodes.isEmpty) hf'
    ns1.levels [] hkb0
  obtain ⟨f1, f2, f3, f4, f5, f6, f7, f8⟩ := icFold_spec my N0 nsC.levels []
    N0 0 []
    (fun x => rfl)
    rfl
    (by rw [List.nil_append, hmeLc]; exact hI1.lvl_nodup)
    (by rw [List.nil_append, hmeLc, hokeq]; exact hI1.okids_nodup)
    (by
      intro j hj
      rw [List.nil_append, hmeLc] at hj
      exact ⟨hI1.mem_rank j hj, hI1.lvl_lt j hj⟩)
    (by
      intro j hj k hk
      rw [List.nil_append, hmeLc] at hj
      have hkok : k ∈ ownedKidsOf ns1 := by
        rw [← hokeq]
        exact List.mem_flatMap.mpr ⟨j, hj, hk⟩
      exact hI1.kids_lt k hkok)
    (by
      intro q j hj k hk hkr
      exact hkbC q j hj k hk hkr)
    (by
      intro x hx
      refine iff_of_true (hI1.off_neg x) ?_
      intro hc
      rw [List.nil_append] at hc
      have : kidRemL my N0 ([] : List Nat) = [] := rfl
      rw [this] at hc
      cases hc)
  have hnseq : ns =
      { nodes := (nsC.levels.foldl (icStep my) (nsC.nodes, 0, [])).1
        levels := (nsC.levels.foldl (icStep my) (nsC.nodes, 0, [])).2.2
        nslots := (nsC.levels.foldl (icStep my) (nsC.nodes, 0, [])).2.1 } := by
    rw [hns, initComm_eq]
  have hCN : nsC.nodes = N0 := rfl
  rw [hCN] at hnseq
  have hbridge : checkCommOffsets ns = readsWith my N0 ns.nodes ns.levels := by
    apply checkComm_eq_readsWith
    · intro x
      rw [hnseq]
      exact f2 x
    · intro j hj
      rw [hnseq] at hj
      have hmeq : meL ((nsC.levels.foldl (icStep my)
          (N0, 0, [])).2.2) = meL nsC.levels := by
        rw [meL_map_nodes, meL_map_nodes, f7, List.map_nil, List.nil_append]
      have hj2 : j ∈ meL ((nsC.levels.foldl (icStep my)
          (N0, 0, [])).2.2) := hj
      rw [hmeq, hmeLc] at hj2
      exact hI1.mem_rank j hj2
  rw [hbridge]
  have hrw2 : readsWith my N0 ns.nodes ns.levels =
      readsWith my N0 ns.nodes nsC.levels := by
    apply readsWith_congr_levels
    rw [hnseq]
    show ((nsC.levels.foldl (icStep my) (N0, 0, [])).2.2).map Level.nodes =
      nsC.levels.map Level.nodes
    rw [f7, List.map_nil, List.nil_append]
  rw [hrw2]
  have hnodes : ns.nodes = (nsC.levels.foldl (icStep my) (N0, 0, [])).1 := by
    rw [hnseq]
  have hslots : ns.nslots = (nsC.levels.foldl (icStep my)
      (N0, 0, [])).2.1 := by
    rw [hnseq]
  rw [hnodes, hslots, f5, List.range_eq_range']
  have hlen0 : (0 : Nat) + ((meL nsC.levels).length +
      (kidRemL my N0 (meL nsC.levels)).length) =
      0 + (meL nsC.levels).length + (kidRemL my N0 (meL nsC.levels)).length
      := by omega
  have := f6
  rw [show (0 : Nat) + (meL nsC.levels).length +
    (kidRemL my N0 (meL nsC.levels)).length =
    (meL nsC.levels).length + (kidRemL my N0 (meL nsC.levels)).length from
    by omega]
  exact this

end CedrQlt
namespace CedrQlt

theorem claim_c4_witness :
    analyze 0 4 t4ex = .ok ns4ex ∧
    (checkCommOffsets ns4ex).Perm
      ((List.range ns4ex.nslots).map Int.ofNat) :=
  ⟨by decide, claim_c4_offsets 0 4 t4ex ns4ex (by decide)⟩

end CedrQlt

namespace CedrQlt

theorem getD_set_self_int {l : List Int} {a d : Int} {j : Nat}
    (h : j < l.length) : (l.set j a).getD j d = a := by
  simp [List.getD_eq_getElem?_getD, List.getElem?_set_self h]

theorem getD_set_ne_int {l : List Int} {a d : Int} {i j : Nat}
    (h : i ≠ j) : (l.set i a).getD j d = l.getD j d := by
  simp [List.getD_eq_getElem?_getD, List.getElem?_set_ne h]

theorem mkMeRns_congr (my : Int) (A B : List NSNode) (js : List Nat)
    (h : ∀ x, stripOff (A.getD x default) = stripOff (B.getD x default)) :
    mkMeRns A my js = mkMeRns B my js := by
  unfold mkMeRns
  apply List.map_congr_left
  intro j _
  rw [stripOff_parent _ _ (h j)]
  cases hP : (B.getD j default).parent with
  | none => rfl
  | some p =>
      dsimp only
      rw [stripOff_rank _ _ (h p)]

theorem map_ofNat_range_aux {α : Type} (f : α → Int) (d : α) (l : List α)
    (h : ∀ k, k < l.length → f (l.getD k d) = Int.ofNat k) :
    l.map f = (List.range l.length).map Int.ofNat := by
  apply List.ext_getElem
  · rw [List.length_map, List.length_map, List.length_range]
  · intro i h1 h2
    rw [List.getElem_map, List.getElem_map, List.getElem_range]
    have h3 : i < l.length := by rw [List.length_map] at h1; exact h1
    have h4 := h i h3
    rw [List.getD_eq_getElem?_getD, List.getElem?_eq_getElem h3] at h4
    simpa using h4

theorem gciFold_length (ns : NS) : ∀ (js : List Nat) (init : List Int),
    (js.foldl (fun gcis j =>
      gcis.set (nodeAt ns j).offset.toNat (nodeAt ns j).id) init).length =
    init.length := by
  intro js
  induction js with
  | nil => intro init; rfl
  | cons a js ih =>
      intro init
      rw [List.foldl_cons, ih, List.length_set]

theorem gciFold_not_mem (ns : NS) : ∀ (js : List Nat) (init : List Int)
    (p : Nat), (∀ j ∈ js, (nodeAt ns j).offset.toNat ≠ p) →
    (js.foldl (fun gcis j =>
      gcis.set (nodeAt ns j).offset.toNat (nodeAt ns j).id) init).getD p 0 =
    init.getD p 0 := by
  intro js
  induction js with
  | nil => intro init p _; rfl
  | cons a js ih =>
      intro init p hne
      rw [List.foldl_cons,
        ih _ p (fun j hj => hne j (List.mem_cons_of_mem a hj))]
      exact getD_set_ne_int (hne a (List.mem_cons_self a js))

theorem gciFold_mem (ns : NS) : ∀ (js : List Nat) (init : List Int)
    (j : Nat), j ∈ js →
    (js.map (fun j => (nodeAt ns j).offset.toNat)).Nodup →
    (nodeAt ns j).offset.toNat < init.length →
    (js.foldl (fun gcis j =>
      gcis.set (nodeAt ns j).offset.toNat (nodeAt ns j).id) init).getD
      ((nodeAt ns j).offset.toNat) 0 = (nodeAt ns j).id := by
  intro js
  induction js with
  | nil => intro init j hj; cases hj
  | cons a js ih =>
      intro init j hj hnd hlt
      rw [List.map_cons, List.nodup_cons] at hnd
      obtain ⟨hna, hnd2⟩ := hnd
      rw [List.foldl_cons]
      rcases List.mem_cons.mp hj with h | h
      · subst h
        have hne : ∀ x ∈ js,
            (nodeAt ns x).offset.toNat ≠ (nodeAt ns j).offset.toNat := by
          intro x hx hc
          exact hna (hc ▸ List.mem_map_of_mem _ hx)
        rw [gciFold_not_mem ns js _ _ hne]
        exact getD_set_self_int hlt
      · exact ih _ j h hnd2 (by rw [List.length_set]; exact hlt)

theorem lciFold_not_mem (ns : NS) : ∀ (js : List Nat)
    (m : Int → Option Int) (g : Int),
    g ∉ js.map (fun j => (nodeAt ns j).id) →
    (js.foldl (fun m j => fun g =>
      if g = (nodeAt ns j).id then some (nodeAt ns j).offset else m g)
      m) g = m g := by
  intro js
  induction js with
  | nil => intro m g _; rfl
  | cons a js ih =>
      intro m g hg
      rw [List.map_cons] at hg
      have h1 : g ∉ js.map (fun j => (nodeAt ns j).id) :=
        fun hc => hg (List.mem_cons_of_mem _ hc)
      have h2 : ¬ g = (nodeAt ns a).id :=
        fun hc => hg (hc ▸ List.mem_cons_self _ _)
      rw [List.foldl_cons]
      have h3 := ih (fun g0 => if g0 = (nodeAt ns a).id then
        some (nodeAt ns a).offset else m g0) g h1
      rw [h3]
      exact if_neg h2

theorem lciFold_mem (ns : NS) : ∀ (js : List Nat) (m : Int → Option Int)
    (j : Nat), j ∈ js → (js.map (fun j => (nodeAt ns j).id)).Nodup →
    (js.foldl (fun m j => fun g =>
      if g = (nodeAt ns j).id then some (nodeAt ns j).offset else m g)
      m) ((nodeAt ns j).id) = some ((nodeAt ns j).offset) := by
  intro js
  induction js with
  | nil => intro m j hj; cases hj
  | cons a js ih =>
      intro m j hj hnd
      rw [List.map_cons, List.nodup_cons] at hnd
      obtain ⟨hna, hnd2⟩ := hnd
      rw [List.foldl_cons]
      rcases List.mem_cons.mp hj with h | h
      · subst h
        have h1 : (nodeAt ns j).id ∉ js.map (fun x => (nodeAt ns x).id) :=
          hna
        have h3 := lciFold_not_mem ns js (fun g0 =>
          if g0 = (nodeAt ns j).id then some (nodeAt ns j).offset else m g0)
          ((nodeAt ns j).id) h1
        rw [h3]
        exact if_pos rfl
      · exact ih _ j h hnd2

end CedrQlt

namespace CedrQlt

theorem nodeAt_eq (ns : NS) (j : Nat) :
    nodeAt ns j = ns.nodes.getD j default := rfl

theorem filter_replicate_empty : ∀ n : Nat,
    (List.replicate n ({} : Level)).filter
      (fun lvl => ¬ lvl.nodes.isEmpty : Level → Bool) = [] := by
  intro n
  induction n with
  | zero => rfl
  | succ n ih =>
      rw [List.replicate_succ, List.filter_cons, if_neg (by decide)]
      exact ih

theorem analyze_level0 (my ncells : Int) (t : Tree) (ns : NS)
    (h : analyze my ncells t = .ok ns) (lv : Level) (rest : List Level)
    (hL : ns.levels = lv :: rest) :
    (∀ k, k < lv.nodes.length →
      (nodeAt ns ((sortRN ((mkMeRns ns.nodes my lv.nodes).map
        (remapRN my))).getD k (0, 0)).2).offset = Int.ofNat k) ∧
    ((lv.nodes.map (fun j => (nodeAt ns j).offset)).Perm
      ((List.range lv.nodes.length).map Int.ofNat)) ∧
    (lv.nodes.map (fun j => (nodeAt ns j).id) =
      (t.leafData.filter (fun p => p.1 = my)).map (fun p => p.2)) := by
  obtain ⟨it, c, d, hit, hns⟩ := analyze_ok my ncells t ns h
  have hI0 : LscInv my { nodes := []
                         levels := List.replicate d ({} : Level)
                         nslots := 0 } := lscInv_init my d
  have hw : it.wellRanked := initTree_wellRanked t ncells it c d hit
  have hd : d = it.height + 1 := initTree_height t ncells it c d hit
  have hd0 : 0 < d := by omega
  have hh : it.height < ({ nodes := []
                           levels := List.replicate d ({} : Level)
                           nslots := 0 } : NS).levels.length := by
    show it.height < (List.replicate d ({} : Level)).length
    rw [List.length_replicate]
    omega
  obtain ⟨hI1, hP1⟩ := lsc_spec my it _ hI0 hw hh
  set ns1 := (lsc my it { nodes := []
                          levels := List.replicate d ({} : Level)
                          nslots := 0 }).1 with hns1
  set nsC := consolidate ns1 with hnsC
  set N0 := ns1.nodes with hN0
  have hClvl : levelNodes nsC = levelNodes ns1 := levelNodes_consolidate ns1
  have hmeLc : meL nsC.levels = levelNodes ns1 := by
    rw [meL_eq_levelNodes, hClvl]
  have hokeq : (levelNodes ns1).flatMap (kidsOfN N0) = ownedKidsOf ns1 :=
    rfl
  have hf' : ∀ lv : Level, (fun lvl => ¬ lvl.nodes.isEmpty : Level → Bool)
      lv = false → lv.nodes = [] := by
    intro lv hlv
    have h1 := of_decide_eq_false hlv
    have h2 : lv.nodes.isEmpty = true := by
      by_contra h3
      exact h1 h3
    exact List.isEmpty_iff.mp h2
  have hkb0 : ∀ q, ∀ j ∈ (ns1.levels.getD q default).nodes,
      ∀ k ∈ (N0.getD j default).kids, (N0.getD k default).rank = my →
      k ∈ ([] : List Nat) ++ ((ns1.levels.take q).map Level.nodes).flatten := by
    intro q j hj k hk hkr
    rw [List.nil_append]
    exact hI1.kid_below q j hj k hk hkr
  have hkbC := kid_below_filter my N0 (fun lvl => ¬ lvl.nodes.isEmpty) hf'
    ns1.levels [] hkb0
  obtain ⟨f1, f2, f3, f4, f5, f6, f7, f8⟩ := icFold_spec my N0 nsC.levels []
    N0 0 []
    (fun x => rfl)
    rfl
    (by rw [List.nil_append, hmeLc]; exact hI1.lvl_nodup)
    (by rw [List.nil_append, hmeLc, hokeq]; exact hI1.okids_nodup)
    (by
      intro j hj
      rw [List.nil_append, hmeLc] at hj
      exact ⟨hI1.mem_rank j hj, hI1.lvl_lt j hj⟩)
    (by
      intro j hj k hk
      rw [List.nil_append, hmeLc] at hj
      have hkok : k ∈ ownedKidsOf ns1 := by
        rw [← hokeq]
        exact List.mem_flatMap.mpr ⟨j, hj, hk⟩
      exact hI1.kids_lt k hkok)
    (by
      intro q j hj k hk hkr
      exact hkbC q j hj k hk hkr)
    (by
      intro x hx
      refine iff_of_true (hI1.off_neg x) ?_
      intro hc
      rw [List.nil_append] at hc
      have : kidRemL my N0 ([] : List Nat) = [] := rfl
      rw [this] at hc
      cases hc)
  have hnseq : ns =
      { nodes := (nsC.levels.foldl (icStep my) (nsC.nodes, 0, [])).1
        levels := (nsC.levels.foldl (icStep my) (nsC.nodes, 0, [])).2.2
        nslots := (nsC.levels.foldl (icStep my) (nsC.nodes, 0, [])).2.1 } := by
    rw [hns, initComm_eq]
  have hCN : nsC.nodes = N0 := rfl
  rw [hCN] at hnseq
  have hnn : ns.nodes = (nsC.levels.foldl (icStep my) (N0, 0, [])).1 := by
    rw [hnseq]
  have hlvlmap : ns.levels.map Level.nodes = nsC.levels.map Level.nodes := by
    rw [hnseq]
    show ((nsC.levels.foldl (icStep my) (N0, 0, [])).2.2).map Level.nodes =
      nsC.levels.map Level.nodes
    rw [f7, List.map_nil, List.nil_append]
  rw [hL] at hlvlmap
  rcases hC : nsC.levels with _ | ⟨lv0, rest0⟩
  · rw [hC] at hlvlmap
    rw [List.map_cons, List.map_nil] at hlvlmap
    cases hlvlmap
  rw [hC, List.map_cons, List.map_cons] at hlvlmap
  injection hlvlmap with hnodes0 hrest0
  have hcongr : mkMeRns ns.nodes my lv.nodes = mkMeRns N0 my lv.nodes := by
    apply mkMeRns_congr
    intro x
    rw [hnn]
    exact f2 x
  have hone : ∀ k, k < lv.nodes.length →
      (nodeAt ns ((sortRN ((mkMeRns ns.nodes my lv.nodes).map
        (remapRN my))).getD k (0, 0)).2).offset = Int.ofNat k := by
    intro k hk
    have hk0 : k < lv0.nodes.length := by rw [← hnodes0]; exact hk
    have h8k := f8 lv0 rest0 hC k hk0
    rw [Nat.zero_add] at h8k
    rw [nodeAt_eq, hcongr, hnodes0, hnn]
    exact h8k
  refine ⟨hone, ?_, ?_⟩
  · set srt := sortRN ((mkMeRns ns.nodes my lv.nodes).map (remapRN my))
      with hsrt
    have hsrtlen : srt.length = lv.nodes.length := by
      rw [hsrt, (sortRN_perm _).length_eq, List.length_map]
      unfold mkMeRns
      rw [List.length_map]
    have hsnd : (srt.map Prod.snd).Perm lv.nodes := by
      have h1 := (sortRN_perm ((mkMeRns ns.nodes my lv.nodes).map
        (remapRN my))).map Prod.snd
      rw [List.map_map] at h1
      have h2 : (Prod.snd ∘ remapRN my) = (Prod.snd : Int × Nat → Nat) :=
        funext (fun rn => rfl)
      rw [h2, mkMeRns_snd] at h1
      exact h1
    have hmapeq : srt.map ((fun j => (nodeAt ns j).offset) ∘ Prod.snd) =
        (List.range srt.length).map Int.ofNat := by
      apply map_ofNat_range_aux
      intro k hk
      rw [hsrtlen] at hk
      exact hone k hk
    have h3 := hsnd.symm.map (fun j => (nodeAt ns j).offset)
    rw [List.map_map] at h3
    rw [hmapeq, hsrtlen] at h3
    exact h3
  · have hol : ownedLeafIds my it ≠ [] := by
      intro hc
      have hfl := hP1.fresh_leaf hc
      have hCnil : nsC.levels = [] := by
        have h1 : nsC.levels = ns1.levels.filter
            (fun lvl => ¬ lvl.nodes.isEmpty : Level → Bool) := by
          rw [hnsC]
          rfl
        rw [h1, hfl]
        exact filter_replicate_empty d
      rw [hCnil] at hC
      cases hC
    obtain ⟨fr, hfr1, hfr2⟩ := hP1.lvl0_ids
    have hlvl00 : (({ nodes := []
                      levels := List.replicate d ({} : Level)
                      nslots := 0 } : NS).levels.getD 0 default) =
        ({} : Level) := by
      show (List.replicate d ({} : Level)).getD 0 default = ({} : Level)
      rw [List.getD_eq_getElem?_getD, List.getElem?_replicate, if_pos hd0]
      rfl
    rw [hlvl00, show ({} : Level).nodes = [] from rfl,
      List.nil_append] at hfr1
    have hfrne : fr ≠ [] := by
      intro hc
      rw [hc] at hfr2
      exact hol hfr2.symm
    have hlen1 : ns1.levels.length = d := by
      rw [hP1.lvls_len]
      show (List.replicate d ({} : Level)).length = d
      rw [List.length_replicate]
    have hne1 : ns1.levels ≠ [] := by
      intro hc
      rw [hc] at hlen1
      simp at hlen1
      omega
    obtain ⟨h0, tl, hht⟩ := List.exists_cons_of_ne_nil hne1
    have hh0 : ns1.levels.getD 0 default = h0 := by rw [hht]; rfl
    have hl0ne : h0.nodes ≠ [] := by
      rw [← hh0, hfr1]
      exact hfrne
    have hpred : ((fun lvl => ¬ lvl.nodes.isEmpty : Level → Bool) h0) =
        true :=
      decide_eq_true (fun hc => hl0ne (List.isEmpty_iff.mp hc))
    have hCcons : nsC.levels = h0 :: tl.filter
        (fun lvl => ¬ lvl.nodes.isEmpty : Level → Bool) := by
      have h1 : nsC.levels = ns1.levels.filter
          (fun lvl => ¬ lvl.nodes.isEmpty : Level → Bool) := by
        rw [hnsC]
        rfl
      rw [h1, hht, @List.filter_cons_of_pos Level
        (fun lvl => ¬ lvl.nodes.isEmpty) h0 tl hpred]
    rw [hCcons] at hC
    injection hC with hlv0 hrest0'
    have hlvfr : lv.nodes = fr := by
      rw [hnodes0, ← hlv0, ← hh0, hfr1]
    have hids : ∀ j : Nat, (nodeAt ns j).id = (nodeAt ns1 j).id := by
      intro j
      have h1 : stripOff (ns.nodes.getD j default) =
          stripOff (N0.getD j default) := by
        rw [hnn]
        exact f2 j
      exact stripOff_id _ _ h1
    rw [hlvfr]
    have hmapcongr : fr.map (fun j => (nodeAt ns j).id) =
        fr.map (fun j => (nodeAt ns1 j).id) :=
      List.map_congr_left (fun j _ => hids j)
    rw [hmapcongr, hfr2]
    unfold ownedLeafIds
    rw [initTree_leafData t ncells it c d hit]

end CedrQlt

namespace CedrQlt

/-- C5 counterexample: in the NodeSets rank 0 computes for `t5ex`, the
leaf at position 0 of `levels[0].nodes` does not have offset 0 (its parent
lives on rank 2, so the stable sort by parent rank moves it behind the
leaves whose parents are local), refuting the per-position order part of
the claim. -/
theorem claim_c5_counterexample :
    analyze 0 4 t5ex = .ok ns5ex ∧
    ¬ ((ns5ex.levels.headD default).nodes.map
        (fun j => (nodeAt ns5ex j).offset) =
      (List.range (ns5ex.levels.headD default).nodes.length).map
        Int.ofNat) := by decide

/-- C5 amended: after `analyze`, the offsets of the nodes of the first
level are exactly a permutation of the contiguous prefix
`[0, #owned_leaves)`; they are assigned in the order of the `me` pairs
stable-sorted by parent rank (the local rank remapped to −1), so the node
at sorted position `k` has offset `k` — not necessarily the node at
position `k` of `levels[0].nodes`; and the ids of `levels[0].nodes` are
the rank's owned leaves in tree-DFS order. -/
theorem claim_c5_amended (my ncells : Int) (t : Tree) (ns : NS)
    (h : analyze my ncells t = .ok ns) (lv : Level) (rest : List Level)
    (hL : ns.levels = lv :: rest) :
    ((lv.nodes.map (fun j => (nodeAt ns j).offset)).Perm
      ((List.range lv.nodes.length).map Int.ofNat)) ∧
    (∀ k, k < lv.nodes.length →
      (nodeAt ns ((sortRN ((mkMeRns ns.nodes my lv.nodes).map
        (remapRN my))).getD k (0, 0)).2).offset = Int.ofNat k) ∧
    (lv.nodes.map (fun j => (nodeAt ns j).id) =
      (t.leafData.filter (fun p => p.1 = my)).map (fun p => p.2)) := by
  obtain ⟨h1, h2, h3⟩ := analyze_level0 my ncells t ns h lv rest hL
  exact ⟨h2, h1, h3⟩

theorem claim_c5_witness :
    (analyze 0 4 t5ex = .ok ns5ex ∧
      ns5ex.levels = (ns5ex.levels.headD default) :: ns5ex.levels.tail) ∧
    ((((ns5ex.levels.headD default).nodes.map
        (fun j => (nodeAt ns5ex j).offset)).Perm
      ((List.range (ns5ex.levels.headD default).nodes.length).map
        Int.ofNat)) ∧
    (∀ k, k < (ns5ex.levels.headD default).nodes.length →
      (nodeAt ns5ex ((sortRN ((mkMeRns ns5ex.nodes 0
        (ns5ex.levels.headD default).nodes).map
        (remapRN 0))).getD k (0, 0)).2).offset = Int.ofNat k) ∧
    ((ns5ex.levels.headD default).nodes.map
        (fun j => (nodeAt ns5ex j).id) =
      (t5ex.leafData.filter (fun p => p.1 = 0)).map (fun p => p.2))) :=
  ⟨⟨by decide, by decide⟩,
    claim_c5_amended 0 4 t5ex ns5ex (by decide)
      (ns5ex.levels.headD default) ns5ex.levels.tail (by decide)⟩

/-- C9: after `analyze` of a tree whose leaf cell indices are globally
unique, `gci2lci (gcis[i]) = i` for every local index `i < nlclcells`,
where `gcis` is the sequence produced by `get_owned_glblcells`; and
`gci2lci g` throws for every global cell id `g` the rank does not own. -/
theorem claim_c9_gci2lci (my ncells : Int) (t : Tree) (ns : NS)
    (h : analyze my ncells t = .ok ns)
    (hnd : (t.leafData.map (fun p => p.2)).Nodup) :
    (∀ i : Nat, i < nlclcells ns →
      gci2lci ns ((get_owned_glblcells ns).getD i 0) = .ok (Int.ofNat i)) ∧
    (∀ g : Int, g ∉ get_owned_glblcells ns → gci2lci ns g = .error ()) := by
  cases hL : ns.levels with
  | nil =>
      constructor
      · intro i hi
        exfalso
        have h0 : nlclcells ns = 0 := by
          unfold nlclcells
          rw [hL]
          rfl
        omega
      · intro g _
        unfold gci2lci gci2lciMap
        rw [hL]
        rfl
  | cons lv rest =>
      obtain ⟨hone, hperm, hids⟩ := analyze_level0 my ncells t ns h lv rest
        hL
      have hn : nlclcells ns = lv.nodes.length := by
        unfold nlclcells
        rw [hL]
        rfl
      have hidnd : (lv.nodes.map (fun j => (nodeAt ns j).id)).Nodup := by
        rw [hids]
        have hsub : ((t.leafData.filter (fun p => p.1 = my)).map
            (fun p => p.2)).Sublist (t.leafData.map (fun p => p.2)) :=
          (List.filter_sublist t.leafData).map _
        exact hsub.nodup hnd
      have htoNat : (lv.nodes.map
          (fun j => (nodeAt ns j).offset.toNat)).Perm
          (List.range lv.nodes.length) := by
        have h1 := hperm.map Int.toNat
        rw [List.map_map, List.map_map] at h1
        have h2 : (List.range lv.nodes.length).map
            (Int.toNat ∘ Int.ofNat) = List.range lv.nodes.length := by
          have h3 : (Int.toNat ∘ Int.ofNat) = id :=
            funext (fun x => Int.toNat_ofNat x)
          rw [h3, List.map_id]
        rw [h2] at h1
        exact h1
      have hoffNodup : (lv.nodes.map
          (fun j => (nodeAt ns j).offset.toNat)).Nodup :=
        htoNat.nodup_iff.mpr (List.nodup_range _)
      have hofflt : ∀ j ∈ lv.nodes, (nodeAt ns j).offset.toNat <
          lv.nodes.length := by
        intro j hj
        have h1 : (nodeAt ns j).offset.toNat ∈
            lv.nodes.map (fun j => (nodeAt ns j).offset.toNat) :=
          List.mem_map_of_mem _ hj
        exact List.mem_range.mp (htoNat.mem_iff.mp h1)
      have hgcis : get_owned_glblcells ns = lv.nodes.foldl
          (fun gcis j => gcis.set (nodeAt ns j).offset.toNat
            (nodeAt ns j).id) (List.replicate (nlclcells ns) 0) := by
        unfold get_owned_glblcells
        rw [hL, List.headD_cons]
      have hglen : (get_owned_glblcells ns).length = nlclcells ns := by
        rw [hgcis, gciFold_length, List.length_replicate]
      constructor
      · intro i hi
        have hmem : Int.ofNat i ∈ (List.range lv.nodes.length).map
            Int.ofNat :=
          List.mem_map_of_mem _ (List.mem_range.mpr (by omega))
        have hmem2 : Int.ofNat i ∈ lv.nodes.map
            (fun j => (nodeAt ns j).offset) := hperm.mem_iff.mpr hmem
        obtain ⟨j, hj, hoffj⟩ := List.mem_map.mp hmem2
        have htn : (nodeAt ns j).offset.toNat = i := by
          rw [hoffj]
          exact Int.toNat_ofNat i
        have hgv : (get_owned_glblcells ns).getD i 0 = (nodeAt ns j).id := by
          rw [hgcis, ← htn]
          apply gciFold_mem ns lv.nodes _ j hj hoffNodup
          rw [List.length_replicate, hn]
          exact hofflt j hj
        rw [hgv]
        have hmap : gci2lciMap ns ((nodeAt ns j).id) =
            some ((nodeAt ns j).offset) := by
          unfold gci2lciMap
          rw [hL, List.headD_cons]
          exact lciFold_mem ns lv.nodes _ j hj hidnd
        unfold gci2lci
        rw [hmap, hoffj]
      · intro g hg
        have hgid : g ∉ lv.nodes.map (fun j => (nodeAt ns j).id) := by
          intro hc
          obtain ⟨j, hj, hidj⟩ := List.mem_map.mp hc
          apply hg
          have hgv : (get_owned_glblcells ns).getD
              ((nodeAt ns j).offset.toNat) 0 = (nodeAt ns j).id := by
            rw [hgcis]
            apply gciFold_mem ns lv.nodes _ j hj hoffNodup
            rw [List.length_replicate, hn]
            exact hofflt j hj
          have hlt2 : (nodeAt ns j).offset.toNat <
              (get_owned_glblcells ns).length := by
            rw [hglen, hn]
            exact hofflt j hj
          rw [← hidj, ← hgv]
          rw [List.getD_eq_getElem?_getD, List.getElem?_eq_getElem hlt2]
          simp only [Option.getD_some]
          exact List.getElem_mem _
        have hnone : gci2lciMap ns g = none := by
          unfold gci2lciMap
          rw [hL, List.headD_cons]
          exact lciFold_not_mem ns lv.nodes _ g hgid
        unfold gci2lci
        rw [hnone]

theorem claim_c9_witness :
    (analyze 0 4 t4ex = .ok ns4ex ∧
      (t4ex.leafData.map (fun p => p.2)).Nodup) ∧
    ((∀ i : Nat, i < nlclcells ns4ex →
      gci2lci ns4ex ((get_owned_glblcells ns4ex).getD i 0) =
        .ok (Int.ofNat i)) ∧
    (∀ g : Int, g ∉ get_owned_glblcells ns4ex →
      gci2lci ns4ex g = .error ())) :=
  ⟨⟨by decide, by decide⟩, claim_c9_gci2lci 0 4 t4ex ns4ex (by decide)
    (by decide)⟩

end CedrQlt
